import Mathlib

/-!
Shallow embedding of the WiscDB B+Tree string index (`src/btree.h`,
`src/btree.cpp`) and proofs about its specification.

Modelling conventions:
* A raw byte (C `char`, compared as `unsigned char` by `strncmp`/`strcmp`)
  is a `Nat`; a key is a `List Nat` of its bytes; a C++ `PageId` is a `Nat`.
* `Page::INVALID_NUMBER` and `Page::INVALID_SLOT` are the value `0`
  (fresh pages are zero-filled, and the code relies on a fresh page's
  `pageNoArray` / `ridArray.page_number` slots reading as invalid).
* The capacities are the DEBUG configuration of `btree.h`
  (`LEAF_NUM_KEYS = NON_LEAF_NUM_KEYS = 4`); the non-DEBUG values depend on
  `Page::SIZE` from `include/page.h`, which is not part of this repository.
* Parallel arrays are modelled as lists of pairs:
  a leaf slot `i` is `(keyArray[i], ridArray[i])`; a non-leaf slot `i` is
  `(keyArray[i], pageNoArray[i+1])`, with `pageNoArray[0]` kept separately
  as `firstPageNo`.
* The buffer manager is a page store `Nat → PageData` plus a
  net pin-count map `Nat → Int`; `allocatePage` hands out consecutive
  fresh page ids and zero-filled pages.
* C++ member functions of `BTreeIndex` become state-passing functions on
  `BTState`; a thrown exception becomes an `Except.error` result paired
  with the state at the throw point (C++ does not roll back mutations).
-/

/-- `STRINGSIZE` from btree.h: size of the string key prefix. -/
def STRINGSIZE : Nat := 10

/-- `LEAF_NUM_KEYS` from btree.h (DEBUG configuration). -/
def LEAF_NUM_KEYS : Nat := 4

/-- `NON_LEAF_NUM_KEYS` from btree.h (DEBUG configuration). -/
def NON_LEAF_NUM_KEYS : Nat := 4

/-- `Page::INVALID_NUMBER`. -/
def INVALID_NUMBER : Nat := 0

/-- A key: a list of raw bytes (unsigned char values). -/
abbrev Key := List Nat

/-- First byte of a byte string (0 when empty), as C reads `*p`. -/
def hd0 (a : Key) : Nat :=
  match a with
  | [] => 0
  | c :: _ => c

theorem hd0_nil : hd0 [] = 0 := rfl

theorem hd0_cons (c : Nat) (r : List Nat) : hd0 (c :: r) = c := rfl

theorem hd0_replicate_succ (n x : Nat) :
    hd0 (List.replicate (n + 1) x) = x := rfl

/-- `strncmp(a, b, n)` (sign of the C result).  `strncmp` compares bytes
as `unsigned char` and stops early at a common NUL byte; bytes past the
end of a list read as 0. -/
def strncmpN : Nat → Key → Key → Int
  | 0, _, _ => 0
  | n + 1, a, b =>
    let x := hd0 a
    let y := hd0 b
    if x < y then -1
    else if y < x then 1
    else if x = 0 then 0
    else strncmpN n a.tail b.tail

/-- `strncmp(a, b, STRINGSIZE)` as used throughout btree.cpp (sign only). -/
def strncmp10 (a b : Key) : Int := strncmpN STRINGSIZE a b

/-- C `strcmp` on NUL-terminated byte strings (sign only); bytes past the
end of the list read as 0. -/
def strcmpBytes : List Nat → List Nat → Int
  | [], [] => 0
  | [], y :: _ => if y = 0 then 0 else -1
  | x :: _, [] => if x = 0 then 0 else 1
  | x :: xs, y :: ys =>
    if x < y then -1
    else if y < x then 1
    else if x = 0 then 0
    else strcmpBytes xs ys

/-- `strncpy(dst, src, n)` into a fresh `n`-byte field: copies bytes up to
the first NUL and zero-fills the remainder.  The result is the final
`n`-byte content of `dst`. -/
def strncpyN : Nat → Key → Key
  | 0, _ => []
  | n + 1, src =>
    let b := hd0 src
    if b = 0 then List.replicate (n + 1) 0
    else b :: strncpyN n src.tail

/-- `strncpy(dst, src, STRINGSIZE)`, the form used for all key writes. -/
def strncpy10 (src : Key) : Key := strncpyN STRINGSIZE src

/-- The zero-filled 10-byte key: content of a free key slot, and the value
`std::string(STRINGSIZE, '\0')` copied into vacated slots. -/
def zeroKey : Key := List.replicate STRINGSIZE 0

/-- `RecordId` from include/types.h: location of a tuple in the relation. -/
structure RecordId where
  page_number : Nat
  slot_number : Nat
deriving Repr, DecidableEq

/-- The zeroed `RecordId` of a free leaf slot (`page_number` invalid). -/
def invalidRid : RecordId := ⟨INVALID_NUMBER, 0⟩

/-- Scan operator enumeration from btree.h. -/
inductive Operator where
  | LT
  | LTE
  | GTE
  | GT
deriving Repr, DecidableEq

/-- `RIDKeyPair` from btree.h; `set` applies `strncpy(key, k, STRINGSIZE)`,
which is applied at the construction sites below. -/
structure RIDKeyPair where
  rid : RecordId
  key : Key
deriving Repr, DecidableEq

/-- `PageKeyPair` from btree.h. -/
structure PageKeyPair where
  pageNo : Nat
  key : Key
deriving Repr, DecidableEq

/-- A leaf page (`LeafNode` in btree.h).  `slots` pairs the parallel arrays:
`slots[i] = (keyArray[i], ridArray[i])`, with `slots.length = LEAF_NUM_KEYS`
for every page the index ever creates. -/
structure LeafNode where
  slots : List (Key × RecordId)
  rightSibPageNo : Nat
deriving Repr, DecidableEq

/-- An internal page (`NonLeafNode` in btree.h).  `firstPageNo` is
`pageNoArray[0]` and `slots[i] = (keyArray[i], pageNoArray[i+1])`, with
`slots.length = NON_LEAF_NUM_KEYS` for every page the index creates. -/
structure NonLeafNode where
  level : Nat
  firstPageNo : Nat
  slots : List (Key × Nat)
deriving Repr, DecidableEq

/-- `IndexMetaInfo` from btree.h (the meta page, page 1 of the file). -/
structure IndexMetaInfo where
  relationName : List Nat
  attrByteOffset : Int
  rootPageNo : Nat
deriving Repr, DecidableEq

/-- A free (zero-filled) leaf slot. -/
def emptyLeafSlot : Key × RecordId := (zeroKey, invalidRid)

/-- A free (zero-filled) non-leaf slot. -/
def emptyNLSlot : Key × Nat := (zeroKey, INVALID_NUMBER)

/-- A freshly allocated page interpreted as a `LeafNode`: all bytes zero,
so every rid is invalid and `rightSibPageNo = INVALID_NUMBER`. -/
def emptyLeaf : LeafNode :=
  { slots := List.replicate LEAF_NUM_KEYS emptyLeafSlot
    rightSibPageNo := INVALID_NUMBER }

/-- A freshly allocated page interpreted as a `NonLeafNode`: all bytes
zero, so `level = 0` and every page slot is invalid. -/
def emptyNonLeaf : NonLeafNode :=
  { level := 0
    firstPageNo := INVALID_NUMBER
    slots := List.replicate NON_LEAF_NUM_KEYS emptyNLSlot }

/-- Contents of one page of the index file.  The C++ code casts raw pages;
here each page carries its interpretation, and reading a page at the wrong
type yields the zero-filled default (the invariants below rule this out on
every path the code actually takes). -/
inductive PageData where
  | leaf (l : LeafNode)
  | nonleaf (n : NonLeafNode)
  | meta (m : IndexMetaInfo)
  | unalloc
deriving Repr, DecidableEq

/-- Errors thrown by the index (exceptions/*.h). -/
inductive BTError where
  | BadIndexInfo
  | BadOpcodes
  | BadScanrange
  | NoSuchKeyFound
  | ScanNotInitialized
  | IndexScanCompleted
deriving Repr, DecidableEq

/-- The whole mutable state: the index file's pages (as seen through the
buffer manager), the allocation cursor, per-page net pin counts, and the
data members of `BTreeIndex` (btree.h).  `currentPageData` is not stored:
the code only dereferences it while the page is pinned and unmodified, so
it always equals the page store's content at `currentPageNum`. -/
structure BTState where
  pages : Nat → PageData
  nextPage : Nat
  pins : Nat → Int
  headerPageNum : Nat
  rootPageNum : Nat
  scanExecuting : Bool
  nextEntry : Nat
  currentPageNum : Nat
  lowVal : Key
  highVal : Key
  lowOp : Operator
  highOp : Operator

/-- `BufferManager::readPage`: pins the page (contents are read through
`getLeaf` / `getNonLeaf` / `getMeta`). -/
def readPageM (s : BTState) (pid : Nat) : BTState :=
  { s with pins := Function.update s.pins pid (s.pins pid + 1) }

/-- `BufferManager::unPinPage`; the dirty bit does not affect the state
observed by any claim and is dropped. -/
def unPinPageM (s : BTState) (pid : Nat) : BTState :=
  { s with pins := Function.update s.pins pid (s.pins pid - 1) }

/-- `BufferManager::allocatePage`: returns a fresh zero-filled page,
pinned.  The interpretation of the zero-filled bytes is fixed by the
caller (`allocateLeafNode` / `allocateNonLeafNode`). -/
def allocatePageM (s : BTState) (d : PageData) : Nat × BTState :=
  (s.nextPage,
   { s with
      pages := Function.update s.pages s.nextPage d
      nextPage := s.nextPage + 1
      pins := Function.update s.pins s.nextPage (s.pins s.nextPage + 1) })

/-- Write back the (pinned) page's in-memory content. -/
def setPage (s : BTState) (pid : Nat) (d : PageData) : BTState :=
  { s with pages := Function.update s.pages pid d }

/-- Read a page as a leaf (`(LeafNode*)page`). -/
def getLeaf (s : BTState) (pid : Nat) : LeafNode :=
  match s.pages pid with
  | .leaf l => l
  | _ => emptyLeaf

/-- Read a page as a non-leaf (`(NonLeafNode*)page`). -/
def getNonLeaf (s : BTState) (pid : Nat) : NonLeafNode :=
  match s.pages pid with
  | .nonleaf n => n
  | _ => emptyNonLeaf

/-- Read a page as the meta page (`(IndexMetaInfo*)page`). -/
def getMeta (s : BTState) (pid : Nat) : IndexMetaInfo :=
  match s.pages pid with
  | .meta m => m
  | _ => ⟨[], 0, INVALID_NUMBER⟩

/-- Loop body of `BTreeIndex::getLeafLength` (btree.cpp:575): index of the
first slot whose rid has an invalid page number, else `LEAF_NUM_KEYS`
(= `slots.length` on every page the index creates). -/
def getLeafLengthGo : List (Key × RecordId) → Nat
  | [] => 0
  | (_, r) :: rest =>
    if r.page_number = INVALID_NUMBER then 0 else getLeafLengthGo rest + 1

/-- `BTreeIndex::getLeafLength`. -/
def getLeafLength (l : LeafNode) : Nat := getLeafLengthGo l.slots

/-- Loop body of `BTreeIndex::getNonLeafLength` (btree.cpp:566): scans
`pageNoArray[1..]`, i.e. the second components of `slots`, and returns the
index of the first invalid one, else `NON_LEAF_NUM_KEYS`. -/
def getNonLeafLengthGo : List (Key × Nat) → Nat
  | [] => 0
  | (_, p) :: rest =>
    if p = INVALID_NUMBER then 0 else getNonLeafLengthGo rest + 1

/-- `BTreeIndex::getNonLeafLength`. -/
def getNonLeafLength (n : NonLeafNode) : Nat := getNonLeafLengthGo n.slots

/-- `BTreeIndex::isRoomyLeaf` (btree.cpp:520):
`leaf->ridArray[LEAF_NUM_KEYS-1].page_number == Page::INVALID_NUMBER`. -/
def isRoomyLeaf (leaf : LeafNode) : Bool :=
  (leaf.slots.getD (LEAF_NUM_KEYS - 1) emptyLeafSlot).2.page_number
    = INVALID_NUMBER

/-- `BTreeIndex::isRoomyNonLeaf` (btree.cpp:524):
`node->pageNoArray[LEAF_NUM_KEYS] == Page::INVALID_NUMBER`.
The source indexes `pageNoArray` with `LEAF_NUM_KEYS` (not
`NON_LEAF_NUM_KEYS`); `pageNoArray[LEAF_NUM_KEYS]` is the second component
of slot `LEAF_NUM_KEYS - 1`. -/
def isRoomyNonLeaf (node : NonLeafNode) : Bool :=
  (node.slots.getD (LEAF_NUM_KEYS - 1) emptyNLSlot).2 = INVALID_NUMBER

/-- Loop of `BTreeIndex::insertInRoomyLeaf` (btree.cpp:528).  At slot `i`:
a free slot receives the pair; else if `keyArray[i] >= krid.key` the
suffix shifts one slot right (the last slot of the leaf is discarded) and
the pair lands at `i`; else continue.  Falling off the end (a full leaf,
which the caller excludes) leaves the leaf unchanged. -/
def insertInRoomyLeafGo (krid : RIDKeyPair) :
    List (Key × RecordId) → List (Key × RecordId)
  | [] => []
  | (ky, rd) :: rest =>
    if rd.page_number = INVALID_NUMBER then
      (strncpy10 krid.key, krid.rid) :: rest
    else if 0 ≤ strncmp10 ky krid.key then
      (strncpy10 krid.key, krid.rid) :: (((ky, rd) :: rest).dropLast)
    else
      (ky, rd) :: insertInRoomyLeafGo krid rest

/-- `BTreeIndex::insertInRoomyLeaf`. -/
def insertInRoomyLeaf (leaf : LeafNode) (krid : RIDKeyPair) : LeafNode :=
  { leaf with slots := insertInRoomyLeafGo krid leaf.slots }

/-- Loop of `BTreeIndex::insertInRoomyNonLeaf` (btree.cpp:547).  Slot `i`
is `(keyArray[i], pageNoArray[i+1])`; a slot with invalid page receives
`(key, pageNo)`; else if `keyArray[i] >= pageKey.key` the suffix shifts
one slot right (`keyArray[j+1] = keyArray[j]`, `pageNoArray[j+2] =
pageNoArray[j+1]`, discarding the last slot) and the pair lands at `i`. -/
def insertInRoomyNonLeafGo (pk : PageKeyPair) :
    List (Key × Nat) → List (Key × Nat)
  | [] => []
  | (ky, pn) :: rest =>
    if pn = INVALID_NUMBER then
      (strncpy10 pk.key, pk.pageNo) :: rest
    else if 0 ≤ strncmp10 ky pk.key then
      (strncpy10 pk.key, pk.pageNo) :: (((ky, pn) :: rest).dropLast)
    else
      (ky, pn) :: insertInRoomyNonLeafGo pk rest

/-- `BTreeIndex::insertInRoomyNonLeaf` (never touches `pageNoArray[0]`). -/
def insertInRoomyNonLeaf (node : NonLeafNode) (pk : PageKeyPair) :
    NonLeafNode :=
  { node with slots := insertInRoomyNonLeafGo pk node.slots }

/-- `BTreeIndex::matchRange` (btree.cpp:584) over the stored scan
parameters. -/
def matchRangeP (lowVal highVal : Key) (lowOp highOp : Operator)
    (key : Key) : Bool :=
  let lowFit :=
    match lowOp with
    | .GT => 0 < strncmp10 key lowVal
    | _ => 0 ≤ strncmp10 key lowVal
  let highFit :=
    match highOp with
    | .LT => strncmp10 key highVal < 0
    | _ => strncmp10 key highVal ≤ 0
  lowFit && highFit

/-- `matchRange` reading its parameters from the index state. -/
def matchRange (s : BTState) (key : Key) : Bool :=
  matchRangeP s.lowVal s.highVal s.lowOp s.highOp key

/-- `pageNoArray[i]` of a non-leaf in the paired representation. -/
def pageNoAt (n : NonLeafNode) (i : Nat) : Nat :=
  if i = 0 then n.firstPageNo else (n.slots.getD (i - 1) emptyNLSlot).2

/-- `keyArray[i]` of a non-leaf. -/
def nlKeyAt (n : NonLeafNode) (i : Nat) : Key :=
  (n.slots.getD i emptyNLSlot).1

/-- The node-splitting block of `BTreeIndex::insertInSubtree`
(btree.cpp:284-317), as a pure function of the full node `cur` and the
promoted `splitKey`: produces the updated old node, the new right node and
the middle key to push up.

The move loop (lines 286-295) sends `keyArray[M/2..M)` and
`pageNoArray[M/2..M]` to the new node and zeroes them in `cur` — except
`pageNoArray[M/2]`, which the loop copies but does not clear, so it is
temporarily shared as `cur`'s trailing child and the new node's first
child.  In the paired representation the new node gets
`firstPageNo = pageNoArray[M/2] = slots[M/2-1].2` and `slots.drop (M/2)`.

Then (lines 298-317): if `splitKey.key < newNode->keyArray[0]`, insert
into `cur`, promote `cur`'s (new) last key, clear that slot, and move
`cur`'s trailing child pointer to the new node's `pageNoArray[0]`;
otherwise insert into the new node, promote its first key, and shift the
new node one slot left (`keyArray[i] = keyArray[i+1]`,
`pageNoArray[i] = pageNoArray[i+1]` for `i < len`, then clear
`keyArray[len-1]` and `pageNoArray[len]`). -/
def splitNonLeafNode (cur : NonLeafNode) (splitKey : PageKeyPair) :
    NonLeafNode × NonLeafNode × Key :=
  let moved : NonLeafNode :=
    { level := cur.level
      firstPageNo := (cur.slots.getD (NON_LEAF_NUM_KEYS / 2 - 1) emptyNLSlot).2
      slots := cur.slots.drop (NON_LEAF_NUM_KEYS / 2) ++
        List.replicate (NON_LEAF_NUM_KEYS / 2) emptyNLSlot }
  let cur1 : NonLeafNode :=
    { cur with
      slots := cur.slots.take (NON_LEAF_NUM_KEYS / 2) ++
        List.replicate (NON_LEAF_NUM_KEYS - NON_LEAF_NUM_KEYS / 2) emptyNLSlot }
  if strncmp10 splitKey.key (nlKeyAt moved 0) < 0 then
    let cur2 := insertInRoomyNonLeaf cur1 splitKey
    let len := getNonLeafLength cur2
    let midKey := nlKeyAt cur2 (len - 1)
    let newR : NonLeafNode :=
      { moved with firstPageNo := (cur2.slots.getD (len - 1) emptyNLSlot).2 }
    let cur3 : NonLeafNode :=
      { cur2 with slots := cur2.slots.set (len - 1) emptyNLSlot }
    (cur3, newR, midKey)
  else
    let new1 := insertInRoomyNonLeaf moved splitKey
    let midKey := nlKeyAt new1 0
    let len := getNonLeafLength new1
    let new2 : NonLeafNode :=
      { new1 with
        firstPageNo := (new1.slots.getD 0 emptyNLSlot).2
        slots := (new1.slots.drop 1).take (len - 1) ++ [emptyNLSlot] ++
          new1.slots.drop len }
    (cur1, new2, midKey)

/-- `BTreeIndex::insertInLeaf` (btree.cpp:347-379). -/
def insertInLeaf (s : BTState) (krid : RIDKeyPair) (pageNum : Nat) :
    Option PageKeyPair × BTState :=
  let s := readPageM s pageNum
  let currLeaf := getLeaf s pageNum
  if isRoomyLeaf currLeaf then
    let s := setPage s pageNum (.leaf (insertInRoomyLeaf currLeaf krid))
    (none, unPinPageM s pageNum)
  else
    let (newPageNum, s) := allocatePageM s (.leaf emptyLeaf)
    -- the copy loop (btree.cpp:359-364): slots [L/2, L) move to the new
    -- leaf's lower half; the vacated slots are zero-filled
    let newLeaf0 : LeafNode :=
      { slots := currLeaf.slots.drop (LEAF_NUM_KEYS / 2) ++
          List.replicate (LEAF_NUM_KEYS / 2) emptyLeafSlot
        rightSibPageNo := INVALID_NUMBER }
    let curLeaf0 : LeafNode :=
      { currLeaf with
        slots := currLeaf.slots.take (LEAF_NUM_KEYS / 2) ++
          List.replicate (LEAF_NUM_KEYS - LEAF_NUM_KEYS / 2) emptyLeafSlot }
    -- route the incoming pair by comparing with newLeaf->keyArray[0]
    let goesLeft := strncmp10 krid.key (newLeaf0.slots.getD 0 emptyLeafSlot).1 < 0
    let curLeaf1 := if goesLeft then insertInRoomyLeaf curLeaf0 krid else curLeaf0
    let newLeaf1 := if goesLeft then newLeaf0 else insertInRoomyLeaf newLeaf0 krid
    -- thread the sibling chain
    let newLeaf2 := { newLeaf1 with rightSibPageNo := currLeaf.rightSibPageNo }
    let curLeaf2 := { curLeaf1 with rightSibPageNo := newPageNum }
    let splitKey : PageKeyPair :=
      ⟨newPageNum, strncpy10 (newLeaf2.slots.getD 0 emptyLeafSlot).1⟩
    let s := setPage s pageNum (.leaf curLeaf2)
    let s := setPage s newPageNum (.leaf newLeaf2)
    let s := unPinPageM s pageNum
    let s := unPinPageM s newPageNum
    (some splitKey, s)

/-- The tail of `BTreeIndex::insertInSubtree` after the child call
(btree.cpp:276-345): absorb the child's promoted pair into the re-read
node if it has room, otherwise split the node, and split the root when
the node was the root. -/
def insertFixup (s : BTState) (pageNum : Nat)
    (split? : Option PageKeyPair) : Option PageKeyPair × BTState :=
  match split? with
  | none => (none, unPinPageM s pageNum)
  | some sk =>
    -- re-read the pinned frame: the child call may have mutated pages
    let currNode := getNonLeaf s pageNum
    if isRoomyNonLeaf currNode then
      let s := setPage s pageNum (.nonleaf (insertInRoomyNonLeaf currNode sk))
      (none, unPinPageM s pageNum)
    else
      let (newPageNum, s) := allocatePageM s (.nonleaf emptyNonLeaf)
      let (cur2, new2, midKey) := splitNonLeafNode currNode sk
      let s := setPage s pageNum (.nonleaf cur2)
      let s := setPage s newPageNum (.nonleaf new2)
      if pageNum = s.rootPageNum then
        -- root split (btree.cpp:320-329)
        let (newRootPid, s) := allocatePageM s (.nonleaf emptyNonLeaf)
        let s := { s with rootPageNum := newRootPid }
        let s := readPageM s s.headerPageNum
        let hdr := getMeta s s.headerPageNum
        let s := setPage s s.headerPageNum
          (.meta { hdr with rootPageNo := newRootPid })
        let s := unPinPageM s s.headerPageNum
        let newRoot : NonLeafNode :=
          { level := cur2.level + 1
            firstPageNo := pageNum
            slots := (strncpy10 midKey, newPageNum) ::
              List.replicate (NON_LEAF_NUM_KEYS - 1) emptyNLSlot }
        let s := setPage s newRootPid (.nonleaf newRoot)
        let s := unPinPageM s newRootPid
        let s := unPinPageM s pageNum
        let s := unPinPageM s newPageNum
        (some sk, s)
      else
        let s := unPinPageM s pageNum
        let s := unPinPageM s newPageNum
        (some ⟨newPageNum, strncpy10 midKey⟩, s)

/-- `BTreeIndex::insertInSubtree` (btree.cpp:234-345).  `fuel` only serves
Lean's termination checker; the C++ recursion is bounded by the tree
height, and every call below passes fuel exceeding it. -/
def insertInSubtree (fuel : Nat) (krid : RIDKeyPair) (pageNum : Nat)
    (s : BTState) : Option PageKeyPair × BTState :=
  match fuel with
  | 0 => (none, s)
  | fuel + 1 =>
    let s := readPageM s pageNum
    let currNode := getNonLeaf s pageNum
    let currNodeLen := getNonLeafLength currNode
    -- descent rule (btree.cpp:241-274)
    let child? : Option Nat :=
      if strncmp10 krid.key (nlKeyAt currNode 0) < 0 then
        some currNode.firstPageNo
      else if 0 ≤ strncmp10 krid.key (nlKeyAt currNode (currNodeLen - 1)) then
        some (pageNoAt currNode currNodeLen)
      else
        ((List.range (currNodeLen - 1)).find? (fun i =>
            decide (strncmp10 (nlKeyAt currNode i) krid.key ≤ 0) &&
            decide (strncmp10 krid.key (nlKeyAt currNode (i + 1)) < 0))).map
          (fun i => pageNoAt currNode (i + 1))
    match child? with
    | none =>
      -- the middle-page loop found no slot: the source would leave its
      -- `split` flag uninitialized here; unreachable for a sorted node
      (none, unPinPageM s pageNum)
    | some childPid =>
      let (split?, s) :=
        if currNode.level = 1 then insertInLeaf s krid childPid
        else insertInSubtree fuel krid childPid s
      insertFixup s pageNum split?

/-- `BTreeIndex::insertEntry` (btree.cpp:119-142). -/
def insertEntry (s : BTState) (key : Key) (rid : RecordId) : BTState :=
  if s.rootPageNum = INVALID_NUMBER then
    -- first insert: bootstrap the tree (btree.cpp:120-137)
    let (rootPid, s) := allocatePageM s (.nonleaf emptyNonLeaf)
    let s := { s with rootPageNum := rootPid }
    let s := readPageM s s.headerPageNum
    let hdr := getMeta s s.headerPageNum
    let s := setPage s s.headerPageNum (.meta { hdr with rootPageNo := rootPid })
    let s := unPinPageM s s.headerPageNum
    let (leaf1Pid, s) := allocatePageM s (.leaf emptyLeaf)
    let (leaf2Pid, s) := allocatePageM s (.leaf emptyLeaf)
    let root1 : NonLeafNode :=
      { level := 1
        firstPageNo := leaf1Pid
        slots := (strncpy10 key, leaf2Pid) ::
          List.replicate (NON_LEAF_NUM_KEYS - 1) emptyNLSlot }
    let s := setPage s rootPid (.nonleaf root1)
    let s := setPage s leaf1Pid (.leaf { emptyLeaf with rightSibPageNo := leaf2Pid })
    let leaf2 : LeafNode :=
      { emptyLeaf with
        slots := (strncpy10 key, rid) ::
          List.replicate (LEAF_NUM_KEYS - 1) emptyLeafSlot }
    let s := setPage s leaf2Pid (.leaf leaf2)
    let s := unPinPageM s rootPid
    let s := unPinPageM s leaf1Pid
    let s := unPinPageM s leaf2Pid
    s
  else
    -- ridkey.set(rid, key) applies strncpy to the key
    (insertInSubtree s.nextPage ⟨rid, strncpy10 key⟩ s.rootPageNum s).2

/-- `BTreeIndex::endScan` (btree.cpp:210-218). -/
def endScan (s : BTState) : Except BTError Unit × BTState :=
  if !s.scanExecuting then (.error .ScanNotInitialized, s)
  else
    let s := { s with scanExecuting := false }
    if s.currentPageNum ≠ INVALID_NUMBER then
      let s := unPinPageM s s.currentPageNum
      (.ok (), { s with currentPageNum := INVALID_NUMBER })
    else (.ok (), s)

/-- The key-probing loop of `BTreeIndex::findInLeaf` (btree.cpp:425-434):
starting at slot `i` with `rem` slots of the occupied prefix left, return
the first slot matching the range (`inl`), or `inr` when a key above
`highVal` is seen first, or `none` when the occupied slots run out. -/
def findInLeafScan (s : BTState) (l : LeafNode) :
    Nat → Nat → Option (Sum (Nat × RecordId) Unit)
  | _, 0 => none
  | i, rem + 1 =>
    let sl := l.slots.getD i emptyLeafSlot
    if matchRange s sl.1 then some (.inl (i, sl.2))
    else if 0 < strncmp10 sl.1 s.highVal then some (.inr ())
    else findInLeafScan s l (i + 1) rem

/-- `BTreeIndex::findInLeaf` (btree.cpp:422-442); `fuel` bounds the hops
along the sibling chain (the chain is finite and acyclic in every state
the index builds). -/
def findInLeaf (fuel : Nat) (s : BTState) (currPid : Nat)
    (result : RecordId) : RecordId × BTState :=
  match fuel with
  | 0 => (result, s)
  | fuel + 1 =>
    let currNode := getLeaf s s.currentPageNum
    let numKeys := getLeafLength currNode
    match findInLeafScan s currNode 0 numKeys with
    | some (.inl (i, rd)) => (rd, { s with nextEntry := i })
    | some (.inr ()) => (result, s)
    | none =>
      if currNode.rightSibPageNo ≠ INVALID_NUMBER then
        let sib := currNode.rightSibPageNo
        let s := { s with currentPageNum := sib }
        let s := unPinPageM s currPid
        let s := readPageM s sib
        findInLeaf fuel s sib result
      else (result, s)

/-- The descent loop of `BTreeIndex::findInSubtree` (btree.cpp:385-399):
runs `i` from its current value with `rem` iterations left (the loop bound
is `numKeys`) and returns the `i` at which the loop stops. -/
def scanDescentGo (s : BTState) (node : NonLeafNode) (numKeys : Nat) :
    Nat → Nat → Nat
  | i, 0 => i
  | i, rem + 1 =>
    let ky := nlKeyAt node i
    match s.lowOp with
    | .GT =>
      if 0 < strncmp10 ky s.lowVal then i
      else scanDescentGo s node numKeys (i + 1) rem
    | _ =>
      if i = numKeys - 1 then
        if 0 < strncmp10 ky s.lowVal then i
        else scanDescentGo s node numKeys (i + 1) rem
      else
        if strncmp10 ky s.lowVal = 0 then i + 1
        else if 0 < strncmp10 ky s.lowVal then i
        else scanDescentGo s node numKeys (i + 1) rem

/-- The leaf phase of `BTreeIndex::findInSubtree` (btree.cpp:400-419): at
a `level = 1` node the scan cursor moves to the chosen leaf, the leaf walk
runs, and a failed walk ends the scan and reports `NoSuchKeyFound`. -/
def scanLeafPhase (s : BTState) (currPid leafPid : Nat) :
    Except BTError Unit × BTState :=
  let s := { s with currentPageNum := leafPid }
  let s := unPinPageM s currPid
  let s := readPageM s leafPid
  let (res, s) := findInLeaf s.nextPage s leafPid invalidRid
  if res.page_number = INVALID_NUMBER then
    let (_, s) := endScan s
    (.error .NoSuchKeyFound, s)
  else
    (.ok (), s)

/-- `BTreeIndex::findInSubtree` (btree.cpp:381-420); `fuel` bounds the
descent depth. -/
def findInSubtree (fuel : Nat) (s : BTState) (currPid : Nat) :
    Except BTError Unit × BTState :=
  match fuel with
  | 0 => (.ok (), s)
  | fuel + 1 =>
    let s := readPageM s currPid
    let currNode := getNonLeaf s currPid
    let numKeys := getNonLeafLength currNode
    let i := scanDescentGo s currNode numKeys 0 numKeys
    if currNode.level ≠ 1 then
      let s := unPinPageM s currPid
      findInSubtree fuel s (pageNoAt currNode i)
    else
      scanLeafPhase s currPid (pageNoAt currNode i)

/-- `BTreeIndex::startScan` (btree.cpp:148-172). -/
def startScan (s : BTState) (lowValParm : Key) (lowOpParm : Operator)
    (highValParm : Key) (highOpParm : Operator) :
    Except BTError Unit × BTState :=
  let s := if s.scanExecuting then (endScan s).2 else s
  if 0 < strncmp10 lowValParm highValParm then (.error .BadScanrange, s)
  else if lowOpParm ≠ Operator.GT ∧ lowOpParm ≠ Operator.GTE then
    (.error .BadOpcodes, s)
  else if highOpParm ≠ Operator.LT ∧ highOpParm ≠ Operator.LTE then
    (.error .BadOpcodes, s)
  else
    let s := { s with
      scanExecuting := true
      nextEntry := 0
      lowVal := lowValParm
      highVal := highValParm
      lowOp := lowOpParm
      highOp := highOpParm }
    findInSubtree s.nextPage s s.rootPageNum

/-- `BTreeIndex::scanNext` (btree.cpp:178-204).  The end-of-leaf test
`nextEntry == numKeys - 1` is C `int` arithmetic, so it is stated over
`Int`. -/
def scanNext (s : BTState) : Except BTError RecordId × BTState :=
  if !s.scanExecuting then (.error .ScanNotInitialized, s)
  else
    let currNode := getLeaf s s.currentPageNum
    if s.currentPageNum ≠ INVALID_NUMBER ∧
        matchRange s (currNode.slots.getD s.nextEntry emptyLeafSlot).1 then
      let numKeys := getLeafLength currNode
      let outRid := (currNode.slots.getD s.nextEntry emptyLeafSlot).2
      if (s.nextEntry : Int) = (numKeys : Int) - 1 then
        let nextPageNo := currNode.rightSibPageNo
        let s := { s with nextEntry := 0 }
        let s := unPinPageM s s.currentPageNum
        let s := { s with currentPageNum := nextPageNo }
        let s := if nextPageNo ≠ INVALID_NUMBER then readPageM s nextPageNo else s
        (.ok outRid, s)
      else (.ok outRid, { s with nextEntry := s.nextEntry + 1 })
    else
      let (_, s) := endScan s
      (.error .IndexScanCompleted, s)

/-- The existing-file branch of the constructor (btree.cpp:44-70): data
members are initialized, the meta page (page 1) is read and pinned, the
root page number is adopted, and the stored identity is checked against
the caller's; on a mismatch `BadIndexInfoException` is thrown — without
unpinning the meta page. -/
def btreeOpenExisting (s : BTState) (relationName : List Nat)
    (attrByteOffset : Int) : Except BTError Unit × BTState :=
  let s := { s with scanExecuting := false, rootPageNum := INVALID_NUMBER,
                    headerPageNum := 1 }
  let s := readPageM s s.headerPageNum
  let header := getMeta s s.headerPageNum
  let s := { s with rootPageNum := header.rootPageNo }
  if strcmpBytes header.relationName relationName ≠ 0 then
    (.error .BadIndexInfo, s)
  else if header.attrByteOffset ≠ attrByteOffset then
    (.error .BadIndexInfo, s)
  else
    (.ok (), unPinPageM s s.headerPageNum)

/-- The create branch of the constructor (btree.cpp:72-98) run over a
relation given as a list of extracted `(key, rid)` records: allocate the
meta page (page 1 of the fresh file), write the header, insert every
record, unpin the meta page. -/
def initState (relationName : List Nat) (attrByteOffset : Int)
    (records : List (Key × RecordId)) : BTState :=
  let s0 : BTState :=
    { pages := fun _ => .unalloc
      nextPage := 1
      pins := fun _ => 0
      headerPageNum := 1
      rootPageNum := INVALID_NUMBER
      scanExecuting := false
      nextEntry := 0
      currentPageNum := INVALID_NUMBER
      lowVal := []
      highVal := []
      lowOp := .GT
      highOp := .LT }
  let (hpid, s) := allocatePageM s0
    (.meta ⟨strncpyN 20 relationName, attrByteOffset, INVALID_NUMBER⟩)
  let s := { s with headerPageNum := hpid }
  let s := records.foldl (fun s kr => insertEntry s kr.1 kr.2) s
  unPinPageM s hpid

/-- Fold of `insertEntry` over a list of records. -/
def insertAll (s : BTState) (records : List (Key × RecordId)) : BTState :=
  records.foldl (fun s kr => insertEntry s kr.1 kr.2) s

/-- The scan protocol of the round-trip claims: call `scanNext` until it
fails, collecting the returned rids.  `none` in the second component means
the fuel ran out before any error was raised. -/
def runScanGo (fuel : Nat) (s : BTState) (acc : List RecordId) :
    List RecordId × Option BTError × BTState :=
  match fuel with
  | 0 => (acc.reverse, none, s)
  | fuel + 1 =>
    match scanNext s with
    | (.ok rd, s) => runScanGo fuel s (rd :: acc)
    | (.error e, s) => (acc.reverse, some e, s)

/-- `startScan` followed by `scanNext` until failure (the protocol of the
round-trip claim). -/
def runScan (s : BTState) (lo : Key) (lop : Operator) (hi : Key)
    (hop : Operator) : List RecordId × Option BTError × BTState :=
  match startScan s lo lop hi hop with
  | (.ok (), s) => runScanGo (s.nextPage * (LEAF_NUM_KEYS + 1)) s []
  | (.error e, s) => ([], some e, s)

/-! ### Order-theoretic facts about `strncmp` and `strncpy` -/

theorem strncmpN_refl (n : Nat) (a : Key) : strncmpN n a a = 0 := by
  induction n generalizing a with
  | zero => rfl
  | succ n ih =>
    simp only [strncmpN]
    split_ifs with h1 h2 h3 <;> first | omega | exact ih a.tail

theorem strncmpN_flip (n : Nat) (a b : Key) :
    strncmpN n b a = -strncmpN n a b := by
  induction n generalizing a b with
  | zero => rfl
  | succ n ih =>
    simp only [strncmpN]
    split_ifs with h1 h2 h3 h4 h5 h6 h7 <;>
      first | omega | (rw [ih]; omega) | exact ih a.tail b.tail

theorem strncmpN_le_trans (n : Nat) (a b c : Key)
    (hab : strncmpN n a b ≤ 0) (hbc : strncmpN n b c ≤ 0) :
    strncmpN n a c ≤ 0 := by
  induction n generalizing a b c with
  | zero => simp [strncmpN]
  | succ n ih =>
    simp only [strncmpN] at hab hbc ⊢
    split_ifs at hab hbc ⊢ <;>
      first | omega | exact ih a.tail b.tail c.tail hab hbc

theorem strncmpN_lt_of_lt_of_le (n : Nat) (a b c : Key)
    (hab : strncmpN n a b < 0) (hbc : strncmpN n b c ≤ 0) :
    strncmpN n a c < 0 := by
  by_contra h
  have hca : strncmpN n c a ≤ 0 := by
    have := strncmpN_flip n a c; omega
  have hba : strncmpN n b a ≤ 0 := strncmpN_le_trans n b c a hbc hca
  have := strncmpN_flip n a b
  omega

theorem strncmpN_lt_of_le_of_lt (n : Nat) (a b c : Key)
    (hab : strncmpN n a b ≤ 0) (hbc : strncmpN n b c < 0) :
    strncmpN n a c < 0 := by
  by_contra h
  have hca : strncmpN n c a ≤ 0 := by
    have := strncmpN_flip n a c; omega
  have hcb : strncmpN n c b ≤ 0 := strncmpN_le_trans n c a b hca hab
  have := strncmpN_flip n b c
  omega

theorem strncpyN_length (n : Nat) (a : Key) : (strncpyN n a).length = n := by
  induction n generalizing a with
  | zero => rfl
  | succ n ih =>
    simp only [strncpyN]
    split_ifs <;> simp [ih]

/-- Comparing a strncpy-stored key behaves like comparing the original. -/
theorem strncmpN_norm_left (n : Nat) (a b : Key) :
    strncmpN n (strncpyN n a) b = strncmpN n a b := by
  induction n generalizing a b with
  | zero => rfl
  | succ n ih =>
    by_cases h0 : hd0 a = 0
    · have hcpy : strncpyN (n + 1) a = List.replicate (n + 1) 0 := by
        rw [strncpyN]; simp [h0]
      rw [hcpy, strncmpN, strncmpN, hd0_replicate_succ, h0]
      split_ifs <;> first | rfl | omega
    · have hcpy : strncpyN (n + 1) a = hd0 a :: strncpyN n a.tail := by
        rw [strncpyN]; simp [h0]
      rw [hcpy, strncmpN, strncmpN, hd0_cons, List.tail_cons]
      split_ifs <;> first | rfl | exact ih a.tail b.tail

theorem strncmpN_norm_right (n : Nat) (a b : Key) :
    strncmpN n a (strncpyN n b) = strncmpN n a b := by
  have h1 := strncmpN_flip n a (strncpyN n b)
  have h2 := strncmpN_flip n a b
  have h3 := strncmpN_norm_left n b a
  omega

/-- strncmp-equal keys have equal stored (strncpy) forms. -/
theorem strncpyN_eq_of_strncmpN_eq (n : Nat) (a b : Key)
    (h : strncmpN n a b = 0) : strncpyN n a = strncpyN n b := by
  induction n generalizing a b with
  | zero => rfl
  | succ n ih =>
    rw [strncmpN] at h
    by_cases h1 : hd0 a < hd0 b
    · simp only [if_pos h1] at h; omega
    · by_cases h2 : hd0 b < hd0 a
      · simp only [if_neg h1, if_pos h2] at h; omega
      · by_cases h3 : hd0 a = 0
        · have hy : hd0 b = 0 := by omega
          rw [strncpyN, strncpyN]
          simp [h3, hy]
        · have hy : ¬ hd0 b = 0 := by omega
          simp only [if_neg h1, if_neg h2, if_neg h3] at h
          rw [strncpyN, strncpyN]
          simp only [h3, hy, if_neg, ite_false]
          rw [ih a.tail b.tail h]
          have hxy : hd0 a = hd0 b := by omega
          rw [hxy]

theorem strncpyN_idem (n : Nat) (a : Key) :
    strncpyN n (strncpyN n a) = strncpyN n a := by
  apply strncpyN_eq_of_strncmpN_eq
  rw [strncmpN_norm_left]
  exact strncmpN_refl n a

/-- A key whose first byte is NUL never exceeds any key under `strncmp`. -/
theorem strncmpN_le_zero_of_headD (n : Nat) (a b : Key)
    (h : hd0 a = 0) : strncmpN n a b ≤ 0 := by
  cases n with
  | zero => simp [strncmpN]
  | succ n =>
    simp only [strncmpN, h]
    split_ifs <;> omega

/-- The all-zero key never exceeds any key under the 10-byte `strncmp`. -/
theorem strncmp10_zeroKey_le (b : Key) : strncmp10 zeroKey b ≤ 0 :=
  strncmpN_le_zero_of_headD STRINGSIZE zeroKey b rfl

/-! ### Occupancy shape of node pages -/

/-- A non-leaf whose occupancy is a dense prefix: some initial run of
slots has valid child pointers, and all remaining slots are zero-filled. -/
def DenseNL (node : NonLeafNode) : Prop :=
  node.slots.length = NON_LEAF_NUM_KEYS ∧
  ∃ front : List (Key × Nat),
    node.slots = front ++
      List.replicate (NON_LEAF_NUM_KEYS - front.length) emptyNLSlot ∧
    front.length ≤ NON_LEAF_NUM_KEYS ∧
    ∀ p ∈ front, p.2 ≠ INVALID_NUMBER

theorem getNonLeafLengthGo_dense (front : List (Key × Nat)) (m : Nat)
    (hocc : ∀ p ∈ front, p.2 ≠ INVALID_NUMBER) :
    getNonLeafLengthGo (front ++ List.replicate m emptyNLSlot) =
      front.length := by
  induction front with
  | nil =>
    cases m with
    | zero => rfl
    | succ m => simp [getNonLeafLengthGo, List.replicate_succ, emptyNLSlot]
  | cons p rest ih =>
    obtain ⟨ky, pn⟩ := p
    have hp : pn ≠ INVALID_NUMBER := hocc (ky, pn) (by simp)
    simp only [List.cons_append, getNonLeafLengthGo, if_neg hp, List.append_eq]
    rw [ih (fun q hq => hocc q (by simp [hq]))]
    simp

theorem getLeafLengthGo_dense (front : List (Key × RecordId)) (m : Nat)
    (hocc : ∀ p ∈ front, p.2.page_number ≠ INVALID_NUMBER) :
    getLeafLengthGo (front ++ List.replicate m emptyLeafSlot) =
      front.length := by
  induction front with
  | nil =>
    cases m with
    | zero => rfl
    | succ m =>
      simp [getLeafLengthGo, List.replicate_succ, emptyLeafSlot, invalidRid]
  | cons p rest ih =>
    obtain ⟨ky, rd⟩ := p
    have hp : rd.page_number ≠ INVALID_NUMBER := hocc (ky, rd) (by simp)
    simp only [List.cons_append, getLeafLengthGo, if_neg hp, List.append_eq]
    rw [ih (fun q hq => hocc q (by simp [hq]))]
    simp

/-- C4: for every internal node whose occupancy is a dense prefix, the
fullness predicate used by insertion (`!isRoomyNonLeaf`, btree.cpp:524,
which indexes `pageNoArray` at `LEAF_NUM_KEYS`; in the DEBUG configuration
in force `LEAF_NUM_KEYS = NON_LEAF_NUM_KEYS`) holds iff the last child
slot `pageNoArray[NON_LEAF_NUM_KEYS]` is occupied, and
`getNonLeafLength` equals the number of occupied slots. -/
theorem C4_internal_occupancy (node : NonLeafNode) (hd : DenseNL node) :
    (isRoomyNonLeaf node = false ↔
      pageNoAt node NON_LEAF_NUM_KEYS ≠ INVALID_NUMBER) ∧
    getNonLeafLength node =
      node.slots.countP (fun p => decide (p.2 ≠ INVALID_NUMBER)) := by
  obtain ⟨hlen, front, hsl, hle, hocc⟩ := hd
  constructor
  · have : pageNoAt node NON_LEAF_NUM_KEYS =
        (node.slots.getD (LEAF_NUM_KEYS - 1) emptyNLSlot).2 := by
      simp [pageNoAt, NON_LEAF_NUM_KEYS, LEAF_NUM_KEYS]
    rw [this, isRoomyNonLeaf]
    constructor
    · intro h
      simpa using h
    · intro h
      simpa using h
  · rw [getNonLeafLength, hsl, getNonLeafLengthGo_dense front _ hocc]
    rw [List.countP_append]
    have h1 : front.countP (fun p => decide (p.2 ≠ INVALID_NUMBER)) =
        front.length := by
      apply List.countP_eq_length.mpr
      intro p hp
      simpa using hocc p hp
    have h2 : (List.replicate (NON_LEAF_NUM_KEYS - front.length)
        emptyNLSlot).countP (fun p => decide (p.2 ≠ INVALID_NUMBER)) = 0 := by
      apply List.countP_eq_zero.mpr
      intro p hp
      have := List.eq_of_mem_replicate hp
      simp [this, emptyNLSlot]
    omega

/-- Witness for C4 at a concrete two-key node. -/
theorem C4_internal_occupancy_witness :
    (isRoomyNonLeaf ⟨1, 9, [([50], 5), ([55], 6), emptyNLSlot, emptyNLSlot]⟩
        = false ↔
      pageNoAt ⟨1, 9, [([50], 5), ([55], 6), emptyNLSlot, emptyNLSlot]⟩
        NON_LEAF_NUM_KEYS ≠ INVALID_NUMBER) ∧
    getNonLeafLength ⟨1, 9, [([50], 5), ([55], 6), emptyNLSlot, emptyNLSlot]⟩ =
      ([([50], 5), ([55], 6), emptyNLSlot, emptyNLSlot] :
        List (Key × Nat)).countP (fun p => decide (p.2 ≠ INVALID_NUMBER)) :=
  C4_internal_occupancy ⟨1, 9, [([50], 5), ([55], 6), emptyNLSlot, emptyNLSlot]⟩
    ⟨by decide, [([50], 5), ([55], 6)], by decide, by decide, by decide⟩

/-- C10: for an active scan whose low bound excludes the all-zero key
(`lowVal` above ten zero bytes, or `lowOp = GT`), the zero-filled key of a
free slot fails `matchRange`, so `scanNext` at a free slot raises
`IndexScanCompleted` instead of emitting the slot's rid. -/
theorem C10_free_slot_not_emitted (s : BTState)
    (hex : s.scanExecuting = true)
    (hlow : s.lowOp = Operator.GT ∨ strncmp10 zeroKey s.lowVal < 0)
    (hkey : ((getLeaf s s.currentPageNum).slots.getD s.nextEntry
      emptyLeafSlot).1 = zeroKey) :
    matchRange s zeroKey = false ∧
    (scanNext s).1 = Except.error BTError.IndexScanCompleted ∧
    (scanNext s).2.scanExecuting = false := by
  have hle := strncmp10_zeroKey_le s.lowVal
  have hmr : matchRange s zeroKey = false := by
    rcases hlow with h | h
    · have hnot : ¬ (0 < strncmp10 zeroKey s.lowVal) := by omega
      simp [matchRange, matchRangeP, h, hnot]
    · have hnot0 : ¬ (0 ≤ strncmp10 zeroKey s.lowVal) := by omega
      have hnot1 : ¬ (0 < strncmp10 zeroKey s.lowVal) := by omega
      cases hop : s.lowOp <;>
        simp [matchRange, matchRangeP, hop, hnot0, hnot1]
  have hcond : ¬ (s.currentPageNum ≠ INVALID_NUMBER ∧
      matchRange s ((getLeaf s s.currentPageNum).slots.getD s.nextEntry
        emptyLeafSlot).1 = true) := by
    rintro ⟨-, hm⟩
    rw [hkey, hmr] at hm
    exact Bool.false_ne_true hm
  have hsn : scanNext s =
      (Except.error BTError.IndexScanCompleted, (endScan s).2) := by
    simp only [scanNext, hex, Bool.not_true, Bool.false_eq_true, if_false]
    rw [if_neg hcond]
  have hend : (endScan s).2.scanExecuting = false := by
    simp only [endScan, hex, Bool.not_true, Bool.false_eq_true, if_false]
    split_ifs <;> simp [unPinPageM]
  exact ⟨hmr, by rw [hsn], by rw [hsn]; exact hend⟩

/-- Witness for C10 at a concrete mid-scan state over one leaf whose
second slot is free. -/
theorem C10_free_slot_not_emitted_witness :
    matchRange
      { pages := fun p => if p = 2 then
          PageData.leaf ⟨[(strncpy10 [51], ⟨4, 0⟩), emptyLeafSlot,
            emptyLeafSlot, emptyLeafSlot], INVALID_NUMBER⟩
          else PageData.unalloc
        nextPage := 3
        pins := fun p => if p = 2 then 1 else 0
        headerPageNum := 1
        rootPageNum := 0
        scanExecuting := true
        nextEntry := 1
        currentPageNum := 2
        lowVal := [50]
        highVal := [57]
        lowOp := Operator.GT
        highOp := Operator.LT } zeroKey = false ∧
    (scanNext
      { pages := fun p => if p = 2 then
          PageData.leaf ⟨[(strncpy10 [51], ⟨4, 0⟩), emptyLeafSlot,
            emptyLeafSlot, emptyLeafSlot], INVALID_NUMBER⟩
          else PageData.unalloc
        nextPage := 3
        pins := fun p => if p = 2 then 1 else 0
        headerPageNum := 1
        rootPageNum := 0
        scanExecuting := true
        nextEntry := 1
        currentPageNum := 2
        lowVal := [50]
        highVal := [57]
        lowOp := Operator.GT
        highOp := Operator.LT }).1 = Except.error BTError.IndexScanCompleted ∧
    (scanNext
      { pages := fun p => if p = 2 then
          PageData.leaf ⟨[(strncpy10 [51], ⟨4, 0⟩), emptyLeafSlot,
            emptyLeafSlot, emptyLeafSlot], INVALID_NUMBER⟩
          else PageData.unalloc
        nextPage := 3
        pins := fun p => if p = 2 then 1 else 0
        headerPageNum := 1
        rootPageNum := 0
        scanExecuting := true
        nextEntry := 1
        currentPageNum := 2
        lowVal := [50]
        highVal := [57]
        lowOp := Operator.GT
        highOp := Operator.LT }).2.scanExecuting = false :=
  C10_free_slot_not_emitted _ rfl (Or.inl rfl) (by decide)

/-- C9: `scanNext` and `endScan` raise `ScanNotInitialized` when no scan
is active; an active `scanNext` whose current position fails `matchRange`
(or whose current page is invalid) first ends the scan — clearing the
scan state and releasing the pinned leaf — and then raises
`IndexScanCompleted`. -/
theorem C9_scan_termination (s : BTState) :
    (s.scanExecuting = false →
      scanNext s = (Except.error BTError.ScanNotInitialized, s) ∧
      endScan s = (Except.error BTError.ScanNotInitialized, s)) ∧
    (s.scanExecuting = true →
      (s.currentPageNum = INVALID_NUMBER ∨
        matchRange s ((getLeaf s s.currentPageNum).slots.getD s.nextEntry
          emptyLeafSlot).1 = false) →
      (scanNext s).1 = Except.error BTError.IndexScanCompleted ∧
      (scanNext s).2.scanExecuting = false ∧
      (scanNext s).2.currentPageNum = INVALID_NUMBER ∧
      (s.currentPageNum ≠ INVALID_NUMBER →
        (scanNext s).2.pins s.currentPageNum =
          s.pins s.currentPageNum - 1)) := by
  constructor
  · intro hno
    constructor
    · simp [scanNext, hno]
    · simp [endScan, hno]
  · intro hex hstop
    have hcond : ¬ (s.currentPageNum ≠ INVALID_NUMBER ∧
        matchRange s ((getLeaf s s.currentPageNum).slots.getD s.nextEntry
          emptyLeafSlot).1 = true) := by
      rintro ⟨hpid, hm⟩
      rcases hstop with h | h
      · exact hpid h
      · rw [h] at hm
        exact Bool.false_ne_true hm
    have hsn : scanNext s =
        (Except.error BTError.IndexScanCompleted, (endScan s).2) := by
      simp only [scanNext, hex, Bool.not_true, Bool.false_eq_true, if_false]
      rw [if_neg hcond]
    rw [hsn]
    by_cases hc : s.currentPageNum = INVALID_NUMBER
    · have : (endScan s).2 = { s with scanExecuting := false } := by
        simp [endScan, hex, hc]
      rw [this]
      exact ⟨rfl, rfl, hc, fun hne => absurd hc hne⟩
    · have : (endScan s).2 =
          { unPinPageM { s with scanExecuting := false } s.currentPageNum
            with currentPageNum := INVALID_NUMBER } := by
        simp [endScan, hex, hc]
      rw [this]
      refine ⟨rfl, rfl, rfl, fun _ => ?_⟩
      simp [unPinPageM, Function.update_same]

/-- Witness for C9 at a concrete inactive-scan state. -/
theorem C9_scan_termination_witness :
    scanNext
      { pages := fun _ => PageData.unalloc
        nextPage := 1
        pins := fun _ => 0
        headerPageNum := 1
        rootPageNum := 0
        scanExecuting := false
        nextEntry := 0
        currentPageNum := 0
        lowVal := []
        highVal := []
        lowOp := Operator.GT
        highOp := Operator.LT } =
      (Except.error BTError.ScanNotInitialized,
        { pages := fun _ => PageData.unalloc
          nextPage := 1
          pins := fun _ => 0
          headerPageNum := 1
          rootPageNum := 0
          scanExecuting := false
          nextEntry := 0
          currentPageNum := 0
          lowVal := []
          highVal := []
          lowOp := Operator.GT
          highOp := Operator.LT }) ∧
    endScan
      { pages := fun _ => PageData.unalloc
        nextPage := 1
        pins := fun _ => 0
        headerPageNum := 1
        rootPageNum := 0
        scanExecuting := false
        nextEntry := 0
        currentPageNum := 0
        lowVal := []
        highVal := []
        lowOp := Operator.GT
        highOp := Operator.LT } =
      (Except.error BTError.ScanNotInitialized,
        { pages := fun _ => PageData.unalloc
          nextPage := 1
          pins := fun _ => 0
          headerPageNum := 1
          rootPageNum := 0
          scanExecuting := false
          nextEntry := 0
          currentPageNum := 0
          lowVal := []
          highVal := []
          lowOp := Operator.GT
          highOp := Operator.LT }) :=
  (C9_scan_termination _).1 rfl

/-- A concrete index state with an active scan (cursor on no page), used
to exhibit the state change `startScan` makes on its failure paths. -/
def stScanActive : BTState :=
  { pages := fun _ => PageData.unalloc
    nextPage := 1
    pins := fun _ => 0
    headerPageNum := 1
    rootPageNum := 0
    scanExecuting := true
    nextEntry := 3
    currentPageNum := 0
    lowVal := []
    highVal := []
    lowOp := Operator.GT
    highOp := Operator.LT }

/-- Counterexample to C6 as stated: with a prior scan active, a
`startScan` whose range is invalid raises `BadScanrange`, but the scan
state *has* changed — the prior scan was implicitly ended (btree.cpp:153
runs before the validation at btree.cpp:155). -/
theorem C6_counterexample :
    (startScan stScanActive [49] Operator.GT [48] Operator.LT).1 =
      Except.error BTError.BadScanrange ∧
    stScanActive.scanExecuting = true ∧
    (startScan stScanActive [49] Operator.GT [48] Operator.LT).2.scanExecuting
      = false := by
  refine ⟨?_, rfl, ?_⟩ <;> rfl

/-- C6 (amended): `startScan` raises `BadScanrange` when
`lowVal > highVal`, and `BadOpcodes` when the range is in order but an
operator is outside the allowed set (the range check runs first); in all
failure cases the exception propagates with no state change beyond
implicitly ending a previously active scan. -/
theorem C6_amended_validation (s : BTState) (lo hi : Key)
    (lop hop : Operator) :
    ((if s.scanExecuting then (endScan s).2 else s).pages = s.pages ∧
     (if s.scanExecuting then (endScan s).2 else s).nextPage = s.nextPage ∧
     (if s.scanExecuting then (endScan s).2 else s).rootPageNum
        = s.rootPageNum) ∧
    (0 < strncmp10 lo hi →
      startScan s lo lop hi hop =
        (Except.error BTError.BadScanrange,
          if s.scanExecuting then (endScan s).2 else s)) ∧
    (strncmp10 lo hi ≤ 0 → lop ≠ Operator.GT → lop ≠ Operator.GTE →
      startScan s lo lop hi hop =
        (Except.error BTError.BadOpcodes,
          if s.scanExecuting then (endScan s).2 else s)) ∧
    (strncmp10 lo hi ≤ 0 → (lop = Operator.GT ∨ lop = Operator.GTE) →
      hop ≠ Operator.LT → hop ≠ Operator.LTE →
      startScan s lo lop hi hop =
        (Except.error BTError.BadOpcodes,
          if s.scanExecuting then (endScan s).2 else s)) := by
  refine ⟨?_, ?_, ?_, ?_⟩
  · by_cases hex : s.scanExecuting
    · simp only [hex, if_true]
      simp [endScan, hex]
      split_ifs <;> simp [unPinPageM]
    · simp [hex]
  · intro hrange
    rw [startScan]
    rw [if_pos hrange]
  · intro hrange hgt hgte
    rw [startScan]
    rw [if_neg (by omega), if_pos ⟨hgt, hgte⟩]
  · intro hrange hlow hlt hlte
    rw [startScan]
    rw [if_neg (by omega)]
    rw [if_neg (by
      rintro ⟨h1, h2⟩
      rcases hlow with h | h
      · exact h1 h
      · exact h2 h)]
    rw [if_pos ⟨hlt, hlte⟩]

/-- Witness for the amended C6 at a concrete state and inputs. -/
theorem C6_amended_validation_witness :
    0 < strncmp10 [49] [48] ∧
    startScan stScanActive [49] Operator.GT [48] Operator.LT =
      (Except.error BTError.BadScanrange,
        if stScanActive.scanExecuting then (endScan stScanActive).2
        else stScanActive) :=
  ⟨by decide,
    (C6_amended_validation stScanActive [49] [48] Operator.GT
      Operator.LT).2.1 (by decide)⟩

/-- C8: opening an existing index file whose stored `relationName` (by C
string comparison) or `attrByteOffset` differs from the caller's raises
`BadIndexInfo`; on a match the constructor adopts the stored `rootPageNo`
and rebuilds nothing (the page store and allocation cursor are
untouched). -/
theorem C8_reopen_header_check (s : BTState) (rel : List Nat) (off : Int) :
    (strcmpBytes (getMeta s 1).relationName rel ≠ 0 →
      (btreeOpenExisting s rel off).1 = Except.error BTError.BadIndexInfo) ∧
    (strcmpBytes (getMeta s 1).relationName rel = 0 →
      (getMeta s 1).attrByteOffset ≠ off →
      (btreeOpenExisting s rel off).1 = Except.error BTError.BadIndexInfo) ∧
    (strcmpBytes (getMeta s 1).relationName rel = 0 →
      (getMeta s 1).attrByteOffset = off →
      (btreeOpenExisting s rel off).1 = Except.ok () ∧
      (btreeOpenExisting s rel off).2.rootPageNum =
        (getMeta s 1).rootPageNo ∧
      (btreeOpenExisting s rel off).2.pages = s.pages ∧
      (btreeOpenExisting s rel off).2.nextPage = s.nextPage) := by
  refine ⟨?_, ?_, ?_⟩
  · intro hne
    rw [btreeOpenExisting]
    split_ifs with h1 h2
    · rfl
    · rfl
    · exact absurd hne h1
  · intro heq hoff
    rw [btreeOpenExisting]
    split_ifs with h1 h2
    · rfl
    · rfl
    · exact absurd hoff h2
  · intro heq hoff
    rw [btreeOpenExisting]
    split_ifs with h1 h2
    · exact absurd heq h1
    · exact absurd hoff h2
    · exact ⟨rfl, rfl, rfl, rfl⟩

/-- Witness for C8: reopening with a matching header adopts the root. -/
theorem C8_reopen_header_check_witness :
    (btreeOpenExisting
      { pages := fun p => if p = 1 then
          PageData.meta ⟨[114, 101, 108, 65] ++ List.replicate 16 0, 0, 7⟩
          else PageData.unalloc
        nextPage := 9
        pins := fun _ => 0
        headerPageNum := 1
        rootPageNum := 0
        scanExecuting := false
        nextEntry := 0
        currentPageNum := 0
        lowVal := []
        highVal := []
        lowOp := Operator.GT
        highOp := Operator.LT } [114, 101, 108, 65] 0).1 = Except.ok () ∧
    (btreeOpenExisting
      { pages := fun p => if p = 1 then
          PageData.meta ⟨[114, 101, 108, 65] ++ List.replicate 16 0, 0, 7⟩
          else PageData.unalloc
        nextPage := 9
        pins := fun _ => 0
        headerPageNum := 1
        rootPageNum := 0
        scanExecuting := false
        nextEntry := 0
        currentPageNum := 0
        lowVal := []
        highVal := []
        lowOp := Operator.GT
        highOp := Operator.LT } [114, 101, 108, 65] 0).2.rootPageNum =
      (getMeta
      { pages := fun p => if p = 1 then
          PageData.meta ⟨[114, 101, 108, 65] ++ List.replicate 16 0, 0, 7⟩
          else PageData.unalloc
        nextPage := 9
        pins := fun _ => 0
        headerPageNum := 1
        rootPageNum := 0
        scanExecuting := false
        nextEntry := 0
        currentPageNum := 0
        lowVal := []
        highVal := []
        lowOp := Operator.GT
        highOp := Operator.LT } 1).rootPageNo :=
  ((C8_reopen_header_check _ [114, 101, 108, 65] 0).2.2 (by decide)
    (by decide)).imp id (fun h => h.1)

/-- A concrete existing index file (meta page at page 1, stored relation
name `"relA"`, attribute offset 0, root at page 7) with all pins
balanced. -/
def stExistingFile : BTState :=
  { pages := fun p => if p = 1 then
      PageData.meta ⟨[114, 101, 108, 65] ++ List.replicate 16 0, 0, 7⟩
      else PageData.unalloc
    nextPage := 9
    pins := fun _ => 0
    headerPageNum := 1
    rootPageNum := 0
    scanExecuting := false
    nextEntry := 0
    currentPageNum := 0
    lowVal := []
    highVal := []
    lowOp := Operator.GT
    highOp := Operator.LT }

/-- C5 fails on the code: the constructor's `BadIndexInfo` path
(btree.cpp:61-68) throws without unpinning the meta page it pinned, so
the public operation ends with a net pin-count delta of `+1` on page 1
while no scan holds any page. -/
theorem C5_constructor_pin_leak :
    (btreeOpenExisting stExistingFile [120] 0).1 =
      Except.error BTError.BadIndexInfo ∧
    stExistingFile.pins 1 = 0 ∧
    (btreeOpenExisting stExistingFile [120] 0).2.pins 1 = 1 ∧
    (btreeOpenExisting stExistingFile [120] 0).2.scanExecuting = false := by
  refine ⟨?_, rfl, ?_, rfl⟩ <;> rfl

/-- C7: `insertEntry` on an empty tree (`rootPageNum == INVALID_NUMBER`)
allocates an internal root at `level = 1` whose single router key is the
(strncpy-stored) inserted key, allocates two leaves linked left-to-right
with the right leaf's sibling invalid, places the pair only in the right
leaf, leaves the left leaf empty, and rewrites the meta page with the new
root page number (its other fields unchanged); all pins are released. -/
theorem C7_empty_tree_bootstrap (s : BTState) (k : Key) (rd : RecordId)
    (hroot : s.rootPageNum = INVALID_NUMBER)
    (hhdr : s.headerPageNum < s.nextPage) :
    (insertEntry s k rd).rootPageNum = s.nextPage ∧
    (insertEntry s k rd).pages s.nextPage =
      PageData.nonleaf ⟨1, s.nextPage + 1,
        (strncpy10 k, s.nextPage + 2) ::
          List.replicate (NON_LEAF_NUM_KEYS - 1) emptyNLSlot⟩ ∧
    (insertEntry s k rd).pages (s.nextPage + 1) =
      PageData.leaf ⟨List.replicate LEAF_NUM_KEYS emptyLeafSlot,
        s.nextPage + 2⟩ ∧
    (insertEntry s k rd).pages (s.nextPage + 2) =
      PageData.leaf ⟨(strncpy10 k, rd) ::
          List.replicate (LEAF_NUM_KEYS - 1) emptyLeafSlot,
        INVALID_NUMBER⟩ ∧
    (insertEntry s k rd).pages s.headerPageNum =
      PageData.meta ⟨(getMeta s s.headerPageNum).relationName,
        (getMeta s s.headerPageNum).attrByteOffset, s.nextPage⟩ ∧
    (insertEntry s k rd).nextPage = s.nextPage + 3 ∧
    (∀ q, (insertEntry s k rd).pins q = s.pins q) := by
  have hne1 : s.nextPage ≠ s.nextPage + 2 := by intro h; omega
  have hne2 : s.nextPage ≠ s.nextPage + 1 := by intro h; omega
  have hne3 : s.nextPage + 1 ≠ s.nextPage + 2 := by intro h; omega
  have hh0 : s.headerPageNum ≠ s.nextPage := by intro h; omega
  have hh1 : s.headerPageNum ≠ s.nextPage + 1 := by intro h; omega
  have hh2 : s.headerPageNum ≠ s.nextPage + 2 := by intro h; omega
  refine ⟨?_, ?_, ?_, ?_, ?_, ?_, ?_⟩
  · rw [insertEntry, if_pos hroot]
    simp only [allocatePageM, readPageM, unPinPageM, setPage]
  · rw [insertEntry, if_pos hroot]
    simp only [allocatePageM, readPageM, unPinPageM, setPage]
    rw [Function.update_noteq hne1, Function.update_noteq hne2,
      Function.update_same]
  · rw [insertEntry, if_pos hroot]
    simp only [allocatePageM, readPageM, unPinPageM, setPage]
    rw [Function.update_noteq hne3, Function.update_same]
    rfl
  · rw [insertEntry, if_pos hroot]
    simp only [allocatePageM, readPageM, unPinPageM, setPage]
    rw [Function.update_same]
    rfl
  · rw [insertEntry, if_pos hroot]
    simp only [allocatePageM, readPageM, unPinPageM, setPage]
    rw [Function.update_noteq hh2, Function.update_noteq hh1,
      Function.update_noteq hh0, Function.update_noteq hh2,
      Function.update_noteq hh1, Function.update_same]
    have hread : Function.update s.pages s.nextPage
        (PageData.nonleaf emptyNonLeaf) s.headerPageNum =
        s.pages s.headerPageNum := Function.update_noteq hh0 _ _
    simp only [getMeta, readPageM]
    rw [hread]
  · rw [insertEntry, if_pos hroot]
    simp only [allocatePageM, readPageM, unPinPageM, setPage]
  · intro q
    rw [insertEntry, if_pos hroot]
    simp only [allocatePageM, readPageM, unPinPageM, setPage,
      Function.update_apply]
    split_ifs <;> first | omega | (subst_vars; omega)

/-- Witness for C7 on a concrete empty-tree state. -/
theorem C7_empty_tree_bootstrap_witness :
    stExistingFile.rootPageNum = INVALID_NUMBER ∧
    stExistingFile.headerPageNum < stExistingFile.nextPage ∧
    (insertEntry stExistingFile [55] ⟨3, 1⟩).rootPageNum = 9 ∧
    (insertEntry stExistingFile [55] ⟨3, 1⟩).pages 10 =
      PageData.leaf ⟨List.replicate LEAF_NUM_KEYS emptyLeafSlot, 11⟩ :=
  ⟨rfl, by decide,
    (C7_empty_tree_bootstrap stExistingFile [55] ⟨3, 1⟩ rfl (by decide)).1,
    (C7_empty_tree_bootstrap stExistingFile [55] ⟨3, 1⟩ rfl
      (by decide)).2.2.1⟩

/-! ### Page-store frame facts -/

theorem getLeaf_readPageM (s : BTState) (p q : Nat) :
    getLeaf (readPageM s p) q = getLeaf s q := rfl

theorem getLeaf_unPinPageM (s : BTState) (p q : Nat) :
    getLeaf (unPinPageM s p) q = getLeaf s q := rfl

theorem getNonLeaf_readPageM (s : BTState) (p q : Nat) :
    getNonLeaf (readPageM s p) q = getNonLeaf s q := rfl

theorem getNonLeaf_unPinPageM (s : BTState) (p q : Nat) :
    getNonLeaf (unPinPageM s p) q = getNonLeaf s q := rfl

theorem nextPage_readPageM (s : BTState) (p : Nat) :
    (readPageM s p).nextPage = s.nextPage := rfl

/-- C3: inserting into a full leaf splits it: a new leaf is allocated at
the next page id; the upper half `[L/2, L)` of the full leaf moves to the
lower half of the new leaf with the vacated slots zero-filled; the
incoming pair is routed into the old leaf iff its key is below the first
moved key (`R.keyArray[0]`); the sibling chain is threaded
`R.rightSib = Lcur.rightSib; Lcur.rightSib = Rpid`; and the emitted split
pair is `(R.keyArray[0], Rpid)`. -/
theorem C3_leaf_split (s : BTState) (krid : RIDKeyPair) (pid : Nat)
    (hfull : isRoomyLeaf (getLeaf s pid) = false)
    (hlen : (getLeaf s pid).slots.length = LEAF_NUM_KEYS)
    (hpid : pid < s.nextPage) :
    (insertInLeaf s krid pid).2.nextPage = s.nextPage + 1 ∧
    (getLeaf (insertInLeaf s krid pid).2 s.nextPage).rightSibPageNo =
      (getLeaf s pid).rightSibPageNo ∧
    (getLeaf (insertInLeaf s krid pid).2 pid).rightSibPageNo =
      s.nextPage ∧
    (strncmp10 krid.key
        ((getLeaf s pid).slots.getD (LEAF_NUM_KEYS / 2) emptyLeafSlot).1
        < 0 →
      (getLeaf (insertInLeaf s krid pid).2 s.nextPage).slots =
        (getLeaf s pid).slots.drop (LEAF_NUM_KEYS / 2) ++
          List.replicate (LEAF_NUM_KEYS / 2) emptyLeafSlot ∧
      (getLeaf (insertInLeaf s krid pid).2 pid).slots =
        insertInRoomyLeafGo krid
          ((getLeaf s pid).slots.take (LEAF_NUM_KEYS / 2) ++
            List.replicate (LEAF_NUM_KEYS - LEAF_NUM_KEYS / 2)
              emptyLeafSlot)) ∧
    (0 ≤ strncmp10 krid.key
        ((getLeaf s pid).slots.getD (LEAF_NUM_KEYS / 2) emptyLeafSlot).1 →
      (getLeaf (insertInLeaf s krid pid).2 pid).slots =
        (getLeaf s pid).slots.take (LEAF_NUM_KEYS / 2) ++
          List.replicate (LEAF_NUM_KEYS - LEAF_NUM_KEYS / 2)
            emptyLeafSlot ∧
      (getLeaf (insertInLeaf s krid pid).2 s.nextPage).slots =
        insertInRoomyLeafGo krid
          ((getLeaf s pid).slots.drop (LEAF_NUM_KEYS / 2) ++
            List.replicate (LEAF_NUM_KEYS / 2) emptyLeafSlot)) ∧
    (insertInLeaf s krid pid).1 =
      some ⟨s.nextPage, strncpy10
        ((getLeaf (insertInLeaf s krid pid).2 s.nextPage).slots.getD 0
          emptyLeafSlot).1⟩ := by
  have hfull2 : ¬ (isRoomyLeaf (getLeaf (readPageM s pid) pid) = true) := by
    rw [getLeaf_readPageM, hfull]
    exact Bool.false_ne_true
  have hne : pid ≠ s.nextPage := by intro h; omega
  have hne2 : ¬ (s.nextPage = pid) := by intro h; omega
  rcases hsl : (getLeaf s pid).slots with _ | ⟨a, _ | ⟨b, _ | ⟨c, _ | ⟨d, rest⟩⟩⟩⟩ <;>
    rw [hsl] at hlen <;>
    simp only [List.length_cons, List.length_nil, LEAF_NUM_KEYS] at hlen <;>
    try omega
  have hrest : rest = [] := by
    cases rest with
    | nil => rfl
    | cons x xs => simp at hlen
  subst hrest
  have hLeq : getLeaf s pid = ⟨[a, b, c, d], (getLeaf s pid).rightSibPageNo⟩ := by
    cases hgl : getLeaf s pid with
    | mk s2 r2 =>
      rw [hgl] at hsl
      simp only at hsl
      rw [hsl]
  rw [insertInLeaf, if_neg hfull2]
  simp only [getLeaf_readPageM]
  rw [hLeq]
  simp only [allocatePageM, readPageM, unPinPageM, setPage,
    nextPage_readPageM, getLeaf, Function.update_apply, if_neg hne,
    if_neg hne2, if_pos rfl]
  simp only [LEAF_NUM_KEYS, List.cons_append, List.nil_append,
    List.drop_succ_cons, List.drop_zero, List.take_succ_cons,
    List.take_zero, List.getD_cons_zero, List.getD_cons_succ, hsl,
    ite_true, ite_false]
  refine ⟨?_, ?_, ?_, ?_, ?_, ?_⟩ <;>
    try intro hcmp
  · trivial
  · trivial
  · trivial
  · simp only [if_pos hcmp]
    exact ⟨trivial, rfl⟩
  · simp only [if_neg (show ¬ strncmp10 krid.key c.1 < 0 by omega)]
    exact ⟨trivial, rfl⟩
  · trivial

/-- A concrete state holding one full leaf at page 2. -/
def stFullLeaf : BTState :=
  { pages := fun p => if p = 2 then
      PageData.leaf ⟨[(strncpy10 [49], ⟨5, 0⟩), (strncpy10 [51], ⟨5, 1⟩),
        (strncpy10 [53], ⟨5, 2⟩), (strncpy10 [55], ⟨5, 3⟩)],
        INVALID_NUMBER⟩
      else PageData.unalloc
    nextPage := 3
    pins := fun _ => 0
    headerPageNum := 1
    rootPageNum := 9
    scanExecuting := false
    nextEntry := 0
    currentPageNum := 0
    lowVal := []
    highVal := []
    lowOp := Operator.GT
    highOp := Operator.LT }

/-- Witness for C3 on the concrete full leaf. -/
theorem C3_leaf_split_witness :
    isRoomyLeaf (getLeaf stFullLeaf 2) = false ∧
    (getLeaf stFullLeaf 2).slots.length = LEAF_NUM_KEYS ∧
    (2 : Nat) < stFullLeaf.nextPage ∧
    (insertInLeaf stFullLeaf ⟨⟨6, 1⟩, strncpy10 [52]⟩ 2).2.nextPage = 4 ∧
    (getLeaf (insertInLeaf stFullLeaf ⟨⟨6, 1⟩, strncpy10 [52]⟩ 2).2
      2).rightSibPageNo = 3 :=
  ⟨by decide, by decide, by decide,
    (C3_leaf_split stFullLeaf ⟨⟨6, 1⟩, strncpy10 [52]⟩ 2 (by decide)
      (by decide) (by decide)).1,
    (C3_leaf_split stFullLeaf ⟨⟨6, 1⟩, strncpy10 [52]⟩ 2 (by decide)
      (by decide) (by decide)).2.2.1⟩

/-! ### Sorted-insert view of the roomy-insert loops -/

/-- Sorted insertion of a key/rid pair before the first slot whose key
compares `≥` the new key — the effect of `insertInRoomyLeaf` on the
occupied prefix of a leaf. -/
def insLeafSorted (krid : RIDKeyPair) :
    List (Key × RecordId) → List (Key × RecordId)
  | [] => [(strncpy10 krid.key, krid.rid)]
  | (ky, rd) :: rest =>
    if 0 ≤ strncmp10 ky krid.key then
      (strncpy10 krid.key, krid.rid) :: (ky, rd) :: rest
    else (ky, rd) :: insLeafSorted krid rest

/-- Sorted insertion of a key/page pair — the effect of
`insertInRoomyNonLeaf` on the occupied prefix of an internal node. -/
def insNLSorted (pk : PageKeyPair) :
    List (Key × Nat) → List (Key × Nat)
  | [] => [(strncpy10 pk.key, pk.pageNo)]
  | (ky, pn) :: rest =>
    if 0 ≤ strncmp10 ky pk.key then
      (strncpy10 pk.key, pk.pageNo) :: (ky, pn) :: rest
    else (ky, pn) :: insNLSorted pk rest

theorem dropLast_append_replicate {α : Type} (l : List α) (m : Nat)
    (e : α) : (l ++ List.replicate (m + 1) e).dropLast =
      l ++ List.replicate m e := by
  rw [List.replicate_succ' m e, ← List.append_assoc, List.dropLast_concat]

theorem insertInRoomyLeafGo_dense (krid : RIDKeyPair)
    (front : List (Key × RecordId)) (m : Nat)
    (hocc : ∀ p ∈ front, p.2.page_number ≠ INVALID_NUMBER) :
    insertInRoomyLeafGo krid
        (front ++ List.replicate (m + 1) emptyLeafSlot) =
      insLeafSorted krid front ++ List.replicate m emptyLeafSlot := by
  induction front with
  | nil =>
    rw [List.nil_append, List.replicate_succ, insertInRoomyLeafGo]
    rw [if_pos (show emptyLeafSlot.2.page_number = INVALID_NUMBER by decide)]
    rfl
  | cons p rest ih =>
    obtain ⟨ky, rd⟩ := p
    have hp : rd.page_number ≠ INVALID_NUMBER := hocc (ky, rd) (by simp)
    rw [List.cons_append, insertInRoomyLeafGo]
    rw [if_neg hp]
    by_cases hc : 0 ≤ strncmp10 ky krid.key
    · rw [if_pos hc, insLeafSorted, if_pos hc]
      rw [← List.cons_append, dropLast_append_replicate]
      rfl
    · rw [if_neg hc, insLeafSorted, if_neg hc]
      rw [ih (fun q hq => hocc q (by simp [hq]))]
      rfl

theorem insertInRoomyNonLeafGo_dense (pk : PageKeyPair)
    (front : List (Key × Nat)) (m : Nat)
    (hocc : ∀ p ∈ front, p.2 ≠ INVALID_NUMBER) :
    insertInRoomyNonLeafGo pk
        (front ++ List.replicate (m + 1) emptyNLSlot) =
      insNLSorted pk front ++ List.replicate m emptyNLSlot := by
  induction front with
  | nil =>
    rw [List.nil_append, List.replicate_succ, insertInRoomyNonLeafGo]
    rw [if_pos (show emptyNLSlot.2 = INVALID_NUMBER by decide)]
    rfl
  | cons p rest ih =>
    obtain ⟨ky, pn⟩ := p
    have hp : pn ≠ INVALID_NUMBER := hocc (ky, pn) (by simp)
    rw [List.cons_append, insertInRoomyNonLeafGo]
    rw [if_neg hp]
    by_cases hc : 0 ≤ strncmp10 ky pk.key
    · rw [if_pos hc, insNLSorted, if_pos hc]
      rw [← List.cons_append, dropLast_append_replicate]
      rfl
    · rw [if_neg hc, insNLSorted, if_neg hc]
      rw [ih (fun q hq => hocc q (by simp [hq]))]
      rfl

theorem insLeafSorted_length (krid : RIDKeyPair)
    (front : List (Key × RecordId)) :
    (insLeafSorted krid front).length = front.length + 1 := by
  induction front with
  | nil => rfl
  | cons p rest ih =>
    obtain ⟨ky, rd⟩ := p
    rw [insLeafSorted]
    split_ifs <;> simp [ih]

theorem insNLSorted_length (pk : PageKeyPair)
    (front : List (Key × Nat)) :
    (insNLSorted pk front).length = front.length + 1 := by
  induction front with
  | nil => rfl
  | cons p rest ih =>
    obtain ⟨ky, pn⟩ := p
    rw [insNLSorted]
    split_ifs <;> simp [ih]

theorem insLeafSorted_occ (krid : RIDKeyPair)
    (front : List (Key × RecordId))
    (hocc : ∀ p ∈ front, p.2.page_number ≠ INVALID_NUMBER)
    (hrid : krid.rid.page_number ≠ INVALID_NUMBER) :
    ∀ p ∈ insLeafSorted krid front, p.2.page_number ≠ INVALID_NUMBER := by
  induction front with
  | nil =>
    intro p hp
    rw [insLeafSorted] at hp
    simp at hp
    rw [hp]
    exact hrid
  | cons q rest ih =>
    intro p hp
    obtain ⟨ky, rd⟩ := q
    rw [insLeafSorted] at hp
    split_ifs at hp with hc
    · rcases List.mem_cons.mp hp with h | h
      · rw [h]; exact hrid
      · exact hocc p h
    · rcases List.mem_cons.mp hp with h | h
      · rw [h]; exact hocc (ky, rd) (by simp)
      · exact ih (fun r hr => hocc r (by simp [hr])) p h

theorem insNLSorted_occ (pk : PageKeyPair)
    (front : List (Key × Nat))
    (hocc : ∀ p ∈ front, p.2 ≠ INVALID_NUMBER)
    (hpn : pk.pageNo ≠ INVALID_NUMBER) :
    ∀ p ∈ insNLSorted pk front, p.2 ≠ INVALID_NUMBER := by
  induction front with
  | nil =>
    intro p hp
    rw [insNLSorted] at hp
    simp at hp
    rw [hp]
    exact hpn
  | cons q rest ih =>
    intro p hp
    obtain ⟨ky, pn⟩ := q
    rw [insNLSorted] at hp
    split_ifs at hp with hc
    · rcases List.mem_cons.mp hp with h | h
      · rw [h]; exact hpn
      · exact hocc p h
    · rcases List.mem_cons.mp hp with h | h
      · rw [h]; exact hocc (ky, pn) (by simp)
      · exact ih (fun r hr => hocc r (by simp [hr])) p h

theorem set_last {α : Type} (l : List α) (v : α) (h : l ≠ []) :
    l.set (l.length - 1) v = l.dropLast ++ [v] := by
  induction l with
  | nil => exact absurd rfl h
  | cons a rest ih =>
    cases rest with
    | nil => rfl
    | cons b r2 =>
      have h2 : (a :: b :: r2).length - 1 = ((b :: r2).length - 1) + 1 := by
        simp
      rw [h2, List.set_cons_succ, ih (by simp)]
      rfl

/-- C2: splitting a full internal node that receives a promoted
`splitKey` takes exactly one of two branches, decided by comparing
`splitKey.key` with the first key of the new right node (the old
`keyArray[M/2]`).  If below: the pair is inserted into the old node (at
its sorted position, `insNLSorted`), the promoted middle key is the last
key of the old node, that slot is cleared, and the old node's trailing
child pointer becomes the new node's `pageNoArray[0]` while the new
node's slots stay the moved upper half.  Otherwise: the pair is inserted
into the new node (whose first child pointer was inherited from the old
node's last), the middle key is the new node's first key, and the new
node shifts one slot left — dropping that key, promoting its right child
to `pageNoArray[0]` and preserving the remaining child pointers — while
the old node keeps the lower half. -/
theorem C2_internal_split (cur : NonLeafNode) (sk : PageKeyPair)
    (hlen : cur.slots.length = NON_LEAF_NUM_KEYS)
    (hocc : ∀ p ∈ cur.slots, p.2 ≠ INVALID_NUMBER)
    (hpn : sk.pageNo ≠ INVALID_NUMBER) :
    (splitNonLeafNode cur sk).2.1.level = cur.level ∧
    (strncmp10 sk.key (nlKeyAt cur (NON_LEAF_NUM_KEYS / 2)) < 0 →
      (splitNonLeafNode cur sk).2.2 =
        ((insNLSorted sk (cur.slots.take (NON_LEAF_NUM_KEYS / 2))).getD
          (NON_LEAF_NUM_KEYS / 2) emptyNLSlot).1 ∧
      (splitNonLeafNode cur sk).1.slots =
        (insNLSorted sk
            (cur.slots.take (NON_LEAF_NUM_KEYS / 2))).dropLast ++
          List.replicate 2 emptyNLSlot ∧
      (splitNonLeafNode cur sk).2.1.firstPageNo =
        ((insNLSorted sk (cur.slots.take (NON_LEAF_NUM_KEYS / 2))).getD
          (NON_LEAF_NUM_KEYS / 2) emptyNLSlot).2 ∧
      (splitNonLeafNode cur sk).2.1.slots =
        cur.slots.drop (NON_LEAF_NUM_KEYS / 2) ++
          List.replicate (NON_LEAF_NUM_KEYS / 2) emptyNLSlot) ∧
    (0 ≤ strncmp10 sk.key (nlKeyAt cur (NON_LEAF_NUM_KEYS / 2)) →
      (splitNonLeafNode cur sk).2.2 =
        ((insNLSorted sk (cur.slots.drop (NON_LEAF_NUM_KEYS / 2))).getD 0
          emptyNLSlot).1 ∧
      (splitNonLeafNode cur sk).2.1.firstPageNo =
        ((insNLSorted sk (cur.slots.drop (NON_LEAF_NUM_KEYS / 2))).getD 0
          emptyNLSlot).2 ∧
      (splitNonLeafNode cur sk).2.1.slots =
        (insNLSorted sk (cur.slots.drop (NON_LEAF_NUM_KEYS / 2))).tail ++
          List.replicate 2 emptyNLSlot ∧
      (splitNonLeafNode cur sk).1.slots =
        cur.slots.take (NON_LEAF_NUM_KEYS / 2) ++
          List.replicate 2 emptyNLSlot ∧
      (splitNonLeafNode cur sk).1.firstPageNo = cur.firstPageNo) := by
  rcases hsl : cur.slots with _ | ⟨f0, _ | ⟨f1, _ | ⟨f2, _ | ⟨f3, rest⟩⟩⟩⟩ <;>
    rw [hsl] at hlen <;>
    simp only [List.length_cons, List.length_nil, NON_LEAF_NUM_KEYS]
      at hlen <;>
    try omega
  have hrest : rest = [] := by
    cases rest with
    | nil => rfl
    | cons x xs => simp at hlen
  subst hrest
  have ho0 : f0.2 ≠ INVALID_NUMBER := hocc f0 (by rw [hsl]; simp)
  have ho1 : f1.2 ≠ INVALID_NUMBER := hocc f1 (by rw [hsl]; simp)
  have ho2 : f2.2 ≠ INVALID_NUMBER := hocc f2 (by rw [hsl]; simp)
  have ho3 : f3.2 ≠ INVALID_NUMBER := hocc f3 (by rw [hsl]; simp)
  have hins1 : insertInRoomyNonLeafGo sk
      ([f0, f1] ++ List.replicate (1 + 1) emptyNLSlot) =
      insNLSorted sk [f0, f1] ++ List.replicate 1 emptyNLSlot :=
    insertInRoomyNonLeafGo_dense sk [f0, f1] 1 (by
      intro p hp
      rcases List.mem_pair.mp hp with h | h <;> rw [h]
      · exact ho0
      · exact ho1)
  have hins2 : insertInRoomyNonLeafGo sk
      ([f2, f3] ++ List.replicate (1 + 1) emptyNLSlot) =
      insNLSorted sk [f2, f3] ++ List.replicate 1 emptyNLSlot :=
    insertInRoomyNonLeafGo_dense sk [f2, f3] 1 (by
      intro p hp
      rcases List.mem_pair.mp hp with h | h <;> rw [h]
      · exact ho2
      · exact ho3)
  have hi1len : (insNLSorted sk [f0, f1]).length = 3 := by
    rw [insNLSorted_length]
    rfl
  have hi2len : (insNLSorted sk [f2, f3]).length = 3 := by
    rw [insNLSorted_length]
    rfl
  have hi1occ : ∀ p ∈ insNLSorted sk [f0, f1], p.2 ≠ INVALID_NUMBER :=
    insNLSorted_occ sk [f0, f1] (by
      intro p hp
      rcases List.mem_pair.mp hp with h | h <;> rw [h]
      · exact ho0
      · exact ho1) hpn
  have hi2occ : ∀ p ∈ insNLSorted sk [f2, f3], p.2 ≠ INVALID_NUMBER :=
    insNLSorted_occ sk [f2, f3] (by
      intro p hp
      rcases List.mem_pair.mp hp with h | h <;> rw [h]
      · exact ho2
      · exact ho3) hpn
  rcases hi1 : insNLSorted sk [f0, f1] with _ | ⟨a0, _ | ⟨a1, _ | ⟨a2, arest⟩⟩⟩ <;>
    rw [hi1] at hi1len <;>
    simp only [List.length_cons, List.length_nil] at hi1len <;>
    try omega
  have harest : arest = [] := by
    cases arest with
    | nil => rfl
    | cons x xs => simp at hi1len
  subst harest
  rcases hi2 : insNLSorted sk [f2, f3] with _ | ⟨b0, _ | ⟨b1, _ | ⟨b2, brest⟩⟩⟩ <;>
    rw [hi2] at hi2len <;>
    simp only [List.length_cons, List.length_nil] at hi2len <;>
    try omega
  have hbrest : brest = [] := by
    cases brest with
    | nil => rfl
    | cons x xs => simp at hi2len
  subst hbrest
  have ha2occ : a2.2 ≠ INVALID_NUMBER := hi1occ a2 (by rw [hi1]; simp)
  have hb0occ : b0.2 ≠ INVALID_NUMBER := hi2occ b0 (by rw [hi2]; simp)
  have ha0occ : a0.2 ≠ INVALID_NUMBER := hi1occ a0 (by rw [hi1]; simp)
  have ha1occ : a1.2 ≠ INVALID_NUMBER := hi1occ a1 (by rw [hi1]; simp)
  have hb1occ : b1.2 ≠ INVALID_NUMBER := hi2occ b1 (by rw [hi2]; simp)
  have hb2occ : b2.2 ≠ INVALID_NUMBER := hi2occ b2 (by rw [hi2]; simp)
  rw [splitNonLeafNode]
  simp only [hsl, NON_LEAF_NUM_KEYS, insertInRoomyNonLeaf, nlKeyAt]
  simp only [List.drop_succ_cons, List.drop_zero, List.take_succ_cons,
    List.take_zero, List.getD_cons_zero, List.getD_cons_succ,
    List.cons_append, List.nil_append]
  have hrepl : List.replicate (4 / 2) emptyNLSlot =
      [emptyNLSlot, emptyNLSlot] := by decide
  rw [hrepl]
  refine ⟨?_, ?_, ?_⟩
  · split_ifs <;> rfl
  · intro hlt
    rw [if_pos (show strncmp10 sk.key f2.1 < 0 from hlt)]
    have : insertInRoomyNonLeafGo sk
        [f0, f1, emptyNLSlot, emptyNLSlot] = [a0, a1, a2, emptyNLSlot] := by
      have h2 := hins1
      rw [hi1] at h2
      simpa using h2
    rw [this]
    have hgo : getNonLeafLengthGo [a0, a1, a2, emptyNLSlot] = 3 := by
      rw [show ([a0, a1, a2, emptyNLSlot] : List (Key × Nat)) =
        [a0, a1, a2] ++ List.replicate 1 emptyNLSlot by simp]
      rw [getNonLeafLengthGo_dense [a0, a1, a2] 1 (by
        intro p hp
        rcases List.mem_cons.mp hp with h | hp2
        · rw [h]; exact ha0occ
        · rcases List.mem_pair.mp hp2 with h | h <;> rw [h]
          · exact ha1occ
          · exact ha2occ)]
      rfl
    simp only [getNonLeafLength, hgo, hi1]
    refine ⟨?_, ?_, ?_, ?_⟩ <;> first | rfl | trivial
  · intro hge
    rw [if_neg (show ¬ strncmp10 sk.key f2.1 < 0 by omega)]
    have : insertInRoomyNonLeafGo sk
        [f2, f3, emptyNLSlot, emptyNLSlot] = [b0, b1, b2, emptyNLSlot] := by
      have h2 := hins2
      rw [hi2] at h2
      simpa using h2
    rw [this]
    have hgo : getNonLeafLengthGo [b0, b1, b2, emptyNLSlot] = 3 := by
      rw [show ([b0, b1, b2, emptyNLSlot] : List (Key × Nat)) =
        [b0, b1, b2] ++ List.replicate 1 emptyNLSlot by simp]
      rw [getNonLeafLengthGo_dense [b0, b1, b2] 1 (by
        intro p hp
        rcases List.mem_cons.mp hp with h | hp2
        · rw [h]; exact hb0occ
        · rcases List.mem_pair.mp hp2 with h | h <;> rw [h]
          · exact hb1occ
          · exact hb2occ)]
      rfl
    simp only [getNonLeafLength, hgo, hi2]
    refine ⟨?_, ?_, ?_, ?_, ?_⟩ <;> first | rfl | trivial

/-- Witness for C2 on a concrete full internal node. -/
theorem C2_internal_split_witness :
    (⟨1, 9, [(strncpy10 [50], 5), (strncpy10 [52], 6), (strncpy10 [54], 7),
      (strncpy10 [56], 8)]⟩ : NonLeafNode).slots.length =
        NON_LEAF_NUM_KEYS ∧
    (splitNonLeafNode
      ⟨1, 9, [(strncpy10 [50], 5), (strncpy10 [52], 6), (strncpy10 [54], 7),
        (strncpy10 [56], 8)]⟩ ⟨12, strncpy10 [51]⟩).2.1.level = 1 :=
  ⟨by decide,
    (C2_internal_split
      ⟨1, 9, [(strncpy10 [50], 5), (strncpy10 [52], 6), (strncpy10 [54], 7),
        (strncpy10 [56], 8)]⟩ ⟨12, strncpy10 [51]⟩ (by decide) (by decide)
      (by decide)).1⟩

/-! ### The round-trip claim (C1) -/

/-- Modelled from the spec's words (§3 "compared by unsigned
lexicographic byte order over exactly 10 bytes"): raw byte-wise
lexicographic comparison of two 10-byte keys, with no early stop at NUL
bytes.  This is the order the round-trip claim's "ascending lexicographic
key order" refers to; the code itself compares with `strncmp`. -/
def specLex10 : Nat → Key → Key → Ordering
  | 0, _, _ => Ordering.eq
  | n + 1, a, b =>
    if hd0 a < hd0 b then Ordering.lt
    else if hd0 b < hd0 a then Ordering.gt
    else specLex10 n a.tail b.tail

/-- The key `"a\x00\x03"` zero-padded to ten bytes. -/
def ceKeyA : Key := [97, 0, 3, 0, 0, 0, 0, 0, 0, 0]

/-- The key `"a\x00\x02"` zero-padded to ten bytes. -/
def ceKeyB : Key := [97, 0, 2, 0, 0, 0, 0, 0, 0, 0]

/-- The largest 10-byte key. -/
def maxKey : Key := List.replicate STRINGSIZE 255

/-- The index built by inserting `(ceKeyB, rid 22)` then
`(ceKeyA, rid 11)` into a fresh file. -/
def stTie : BTState :=
  initState [114] 0 [(ceKeyB, ⟨22, 2⟩), (ceKeyA, ⟨11, 1⟩)]

/-- Counterexample to C1 as stated: two distinct 10-byte keys
(`ceKeyB < ceKeyA` in the spec's raw lexicographic order, both inside the
full `GTE`/`LTE` range) are inserted, and the scan protocol emits the rid
of the *larger* key first — because `strncmp` stops at the common NUL
byte at offset 1 and treats the keys as equal, so "ascending
lexicographic key order" over the raw 10 bytes fails. -/
theorem C1_counterexample :
    ceKeyA ≠ ceKeyB ∧
    specLex10 STRINGSIZE ceKeyB ceKeyA = Ordering.lt ∧
    strncmp10 ceKeyA ceKeyB = 0 ∧
    matchRangeP zeroKey maxKey Operator.GTE Operator.LTE ceKeyA = true ∧
    matchRangeP zeroKey maxKey Operator.GTE Operator.LTE ceKeyB = true ∧
    (runScan stTie zeroKey Operator.GTE maxKey Operator.LTE).1 =
      [⟨11, 1⟩, ⟨22, 2⟩] ∧
    (runScan stTie zeroKey Operator.GTE maxKey Operator.LTE).2.1 =
      some BTError.IndexScanCompleted := by
  refine ⟨by decide, by decide, by decide, by decide, by decide, ?_, ?_⟩ <;>
    rfl

/-- Occupied prefix of a leaf (the slots before the first free one). -/
def leafRep (l : LeafNode) : List (Key × RecordId) :=
  l.slots.takeWhile (fun p => decide (p.2.page_number ≠ INVALID_NUMBER))

/-- Occupied prefix of an internal node's slots. -/
def nlRep (n : NonLeafNode) : List (Key × Nat) :=
  n.slots.takeWhile (fun p => decide (p.2 ≠ INVALID_NUMBER))

/-- A leaf whose slot array is the occupied `front` followed by
zero-filled free slots. -/
def IsDenseLeaf (l : LeafNode) (front : List (Key × RecordId)) : Prop :=
  l.slots = front ++
    List.replicate (LEAF_NUM_KEYS - front.length) emptyLeafSlot ∧
  front.length ≤ LEAF_NUM_KEYS ∧
  ∀ p ∈ front, p.2.page_number ≠ INVALID_NUMBER

/-- An internal node whose slot array is the occupied `front` followed by
zero-filled free slots. -/
def IsDenseNL (n : NonLeafNode) (front : List (Key × Nat)) : Prop :=
  n.slots = front ++
    List.replicate (NON_LEAF_NUM_KEYS - front.length) emptyNLSlot ∧
  front.length ≤ NON_LEAF_NUM_KEYS ∧
  ∀ p ∈ front, p.2 ≠ INVALID_NUMBER

/-- `lo ≤ k` for an optional lower bound. -/
def loLe : Option Key → Key → Prop
  | none, _ => True
  | some x, k => strncmp10 x k ≤ 0

/-- `lo < k` for an optional lower bound. -/
def loLt : Option Key → Key → Prop
  | none, _ => True
  | some x, k => strncmp10 x k < 0

/-- `k < hi` for an optional upper bound. -/
def hiGt : Key → Option Key → Prop
  | _, none => True
  | k, some y => strncmp10 k y < 0

/-- A leaf key within its subtree's half-open range, stored normalized. -/
def goodLeafKey (lo hi : Option Key) (k : Key) : Prop :=
  loLe lo k ∧ hiGt k hi ∧ k = strncpy10 k

/-- A router key strictly inside its node's range, stored normalized. -/
def goodRouterKey (lo hi : Option Key) (k : Key) : Prop :=
  loLt lo k ∧ hiGt k hi ∧ k = strncpy10 k

/-- A run of children separated by router keys: child `c` covers
`[lo, k₁)`, the child after router `kᵢ` covers `[kᵢ, kᵢ₊₁)`, the last
covers `[kₙ, hi)`.  `P c lo hi` is the subtree property of one child. -/
def WfSegP (P : Nat → Option Key → Option Key → Prop) :
    Option Key → Nat → List (Key × Nat) → Option Key → Prop
  | lo, c, [], hi => P c lo hi
  | lo, c, (k, c2) :: rest, hi =>
    P c lo (some k) ∧ goodRouterKey lo hi k ∧ WfSegP P (some k) c2 rest hi

/-- Well-formedness of the subtree rooted at page `pid`, `h` levels above
the leaves, with every key in `[lo, hi)`: correct page typing and levels,
dense occupancy, strictly sorted keys, and separation. -/
def WfTree (s : BTState) : Nat → Nat → Option Key → Option Key → Prop
  | 0, pid, lo, hi =>
    ∃ l front, s.pages pid = PageData.leaf l ∧ IsDenseLeaf l front ∧
      List.Pairwise (fun a b => strncmp10 a.1 b.1 < 0) front ∧
      ∀ p ∈ front, goodLeafKey lo hi p.1
  | h + 1, pid, lo, hi =>
    ∃ n front, s.pages pid = PageData.nonleaf n ∧ n.level = h + 1 ∧
      IsDenseNL n front ∧ 1 ≤ front.length ∧
      WfSegP (WfTree s h) lo n.firstPageNo front hi

/-- The leaf pages of a subtree, leftmost first. -/
def leafSeq (s : BTState) : Nat → Nat → List Nat
  | 0, pid => [pid]
  | h + 1, pid =>
    ((getNonLeaf s pid).firstPageNo ::
        (nlRep (getNonLeaf s pid)).map (fun p => p.2)).flatMap
      (leafSeq s h)

/-- All pages of a subtree. -/
def treePids (s : BTState) : Nat → Nat → List Nat
  | 0, pid => [pid]
  | h + 1, pid =>
    pid :: (((getNonLeaf s pid).firstPageNo ::
        (nlRep (getNonLeaf s pid)).map (fun p => p.2)).flatMap
      (treePids s h))

/-- The in-order key/rid entries of a subtree. -/
def entriesOf (s : BTState) (h pid : Nat) : List (Key × RecordId) :=
  (leafSeq s h pid).flatMap (fun p => leafRep (getLeaf s p))

/-- The leaves `ls` are chained left to right by `rightSibPageNo`, with
the last one pointing at `next`. -/
def ChainTo (s : BTState) : List Nat → Nat → Prop
  | [], _ => True
  | [p], next => (getLeaf s p).rightSibPageNo = next
  | p :: q :: rest, next =>
    (getLeaf s p).rightSibPageNo = q ∧ ChainTo s (q :: rest) next

/-- The global well-formedness invariant of a nonempty index at height
`h`: the root's subtree is well-formed with open bounds, its pages are
distinct, allocated, and distinct from the meta page, the leaf chain runs
left to right ending at `INVALID_NUMBER`, and every leaf except possibly
the leftmost is nonempty. -/
structure BTInv (s : BTState) (h : Nat) : Prop where
  wf : WfTree s h s.rootPageNum none none
  nodup : (treePids s h s.rootPageNum).Nodup
  fresh : ∀ p ∈ treePids s h s.rootPageNum,
    p ≠ INVALID_NUMBER ∧ p < s.nextPage ∧ p ≠ s.headerPageNum
  chain : ChainTo s (leafSeq s h s.rootPageNum) INVALID_NUMBER
  tailNE : ∀ p ∈ (leafSeq s h s.rootPageNum).drop 1,
    leafRep (getLeaf s p) ≠ []
  hdrlt : s.headerPageNum < s.nextPage

theorem takeWhile_front {α : Type} (p : α → Bool) (front : List α)
    (m : Nat) (e : α) (hf : ∀ x ∈ front, p x = true) (he : p e = false) :
    (front ++ List.replicate m e).takeWhile p = front := by
  induction front with
  | nil =>
    cases m with
    | zero => rfl
    | succ m =>
      rw [List.nil_append, List.replicate_succ, List.takeWhile_cons, he]
      rfl
  | cons a rest ih =>
    rw [List.cons_append, List.takeWhile_cons, hf a (by simp)]
    rw [if_pos rfl, ih (fun x hx => hf x (by simp [hx]))]

theorem leafRep_dense (l : LeafNode) (front : List (Key × RecordId))
    (hd : IsDenseLeaf l front) : leafRep l = front := by
  obtain ⟨hsl, hle, hocc⟩ := hd
  rw [leafRep, hsl]
  apply takeWhile_front
  · intro x hx
    simpa using hocc x hx
  · simp [emptyLeafSlot, invalidRid]

theorem nlRep_dense (n : NonLeafNode) (front : List (Key × Nat))
    (hd : IsDenseNL n front) : nlRep n = front := by
  obtain ⟨hsl, hle, hocc⟩ := hd
  rw [nlRep, hsl]
  apply takeWhile_front
  · intro x hx
    simpa using hocc x hx
  · simp [emptyNLSlot]

theorem getLeafLength_dense (l : LeafNode) (front : List (Key × RecordId))
    (hd : IsDenseLeaf l front) : getLeafLength l = front.length := by
  obtain ⟨hsl, hle, hocc⟩ := hd
  rw [getLeafLength, hsl]
  exact getLeafLengthGo_dense front _ hocc

theorem getNonLeafLength_dense (n : NonLeafNode)
    (front : List (Key × Nat)) (hd : IsDenseNL n front) :
    getNonLeafLength n = front.length := by
  obtain ⟨hsl, hle, hocc⟩ := hd
  rw [getNonLeafLength, hsl]
  exact getNonLeafLengthGo_dense front _ hocc

theorem getD_front_replicate {α : Type} (front : List α) (m i : Nat)
    (e : α) :
    (front ++ List.replicate m e).getD i e =
      if i < front.length then front.getD i e else e := by
  by_cases h : i < front.length
  · rw [if_pos h, List.getD_append _ _ _ _ h]
  · rw [if_neg h]
    rw [List.getD_append_right _ _ _ _ (by omega)]
    by_cases h2 : i - front.length < m
    · rw [List.getD_eq_getElem _ _ (by simp only [List.length_replicate]; omega)]
      simp
    · exact List.getD_eq_default _ _ (by simp only [List.length_replicate]; omega)

theorem isRoomyLeaf_dense (l : LeafNode) (front : List (Key × RecordId))
    (hd : IsDenseLeaf l front) :
    isRoomyLeaf l = true ↔ front.length < LEAF_NUM_KEYS := by
  obtain ⟨hsl, hle, hocc⟩ := hd
  by_cases hlen : front.length < LEAF_NUM_KEYS
  · have hgd : l.slots.getD (LEAF_NUM_KEYS - 1) emptyLeafSlot =
        emptyLeafSlot := by
      rw [hsl, getD_front_replicate, if_neg (by
        simp only [LEAF_NUM_KEYS] at hlen ⊢; omega)]
    rw [isRoomyLeaf, hgd]
    simp [hlen, emptyLeafSlot, invalidRid]
  · have hlt : LEAF_NUM_KEYS - 1 < front.length := by
      simp only [LEAF_NUM_KEYS] at hle hlen ⊢
      omega
    have hgd : l.slots.getD (LEAF_NUM_KEYS - 1) emptyLeafSlot =
        front.getD (LEAF_NUM_KEYS - 1) emptyLeafSlot := by
      rw [hsl, getD_front_replicate, if_pos hlt]
    have hmem : front.getD (LEAF_NUM_KEYS - 1) emptyLeafSlot ∈ front := by
      rw [List.getD_eq_getElem _ _ hlt]
      exact List.getElem_mem _
    have hocc2 := hocc _ hmem
    rw [isRoomyLeaf, hgd, decide_eq_true_eq]
    constructor
    · intro h
      exact absurd h hocc2
    · intro h
      exact absurd h hlen

theorem isRoomyNonLeaf_dense (n : NonLeafNode)
    (front : List (Key × Nat)) (hd : IsDenseNL n front) :
    isRoomyNonLeaf n = true ↔ front.length < NON_LEAF_NUM_KEYS := by
  obtain ⟨hsl, hle, hocc⟩ := hd
  by_cases hlen : front.length < NON_LEAF_NUM_KEYS
  · have hgd : n.slots.getD (LEAF_NUM_KEYS - 1) emptyNLSlot =
        emptyNLSlot := by
      rw [hsl, getD_front_replicate, if_neg (by
        simp only [LEAF_NUM_KEYS, NON_LEAF_NUM_KEYS] at hlen ⊢; omega)]
    rw [isRoomyNonLeaf, hgd]
    simp [hlen, emptyNLSlot]
  · have hlt : LEAF_NUM_KEYS - 1 < front.length := by
      simp only [LEAF_NUM_KEYS, NON_LEAF_NUM_KEYS] at hle hlen ⊢
      omega
    have hgd : n.slots.getD (LEAF_NUM_KEYS - 1) emptyNLSlot =
        front.getD (LEAF_NUM_KEYS - 1) emptyNLSlot := by
      rw [hsl, getD_front_replicate, if_pos hlt]
    have hmem : front.getD (LEAF_NUM_KEYS - 1) emptyNLSlot ∈ front := by
      rw [List.getD_eq_getElem _ _ hlt]
      exact List.getElem_mem _
    have hocc2 := hocc _ hmem
    rw [isRoomyNonLeaf, hgd, decide_eq_true_eq]
    constructor
    · intro h
      exact absurd h hocc2
    · intro h
      exact absurd h hlen

/-! ### Properties of the sorted-insert spec functions -/

theorem strncmp10_norm_left (a b : Key) :
    strncmp10 (strncpy10 a) b = strncmp10 a b := by
  rw [strncmp10, strncmp10, strncpy10, strncmpN_norm_left]

theorem strncmp10_norm_right (a b : Key) :
    strncmp10 a (strncpy10 b) = strncmp10 a b := by
  rw [strncmp10, strncmp10, strncpy10, strncmpN_norm_right]

theorem strncmp10_flip (a b : Key) : strncmp10 b a = -strncmp10 a b := by
  rw [strncmp10, strncmp10, strncmpN_flip]

theorem strncmp10_le_trans (a b c : Key) (h1 : strncmp10 a b ≤ 0)
    (h2 : strncmp10 b c ≤ 0) : strncmp10 a c ≤ 0 :=
  strncmpN_le_trans STRINGSIZE a b c h1 h2

theorem strncmp10_lt_of_lt_of_le (a b c : Key) (h1 : strncmp10 a b < 0)
    (h2 : strncmp10 b c ≤ 0) : strncmp10 a c < 0 :=
  strncmpN_lt_of_lt_of_le STRINGSIZE a b c h1 h2

theorem strncmp10_lt_of_le_of_lt (a b c : Key) (h1 : strncmp10 a b ≤ 0)
    (h2 : strncmp10 b c < 0) : strncmp10 a c < 0 :=
  strncmpN_lt_of_le_of_lt STRINGSIZE a b c h1 h2

theorem loLe_norm (lo : Option Key) (k : Key) (h : loLe lo k) :
    loLe lo (strncpy10 k) := by
  cases lo with
  | none => trivial
  | some x =>
    simp only [loLe] at h ⊢
    rw [strncmp10_norm_right]
    exact h

theorem hiGt_norm (k : Key) (hi : Option Key) (h : hiGt k hi) :
    hiGt (strncpy10 k) hi := by
  cases hi with
  | none => trivial
  | some y =>
    simp only [hiGt] at h ⊢
    rw [strncmp10_norm_left]
    exact h

theorem insLeafSorted_perm (krid : RIDKeyPair)
    (front : List (Key × RecordId)) :
    (insLeafSorted krid front).Perm
      ((strncpy10 krid.key, krid.rid) :: front) := by
  induction front with
  | nil => exact List.Perm.refl _
  | cons p rest ih =>
    obtain ⟨ky, rd⟩ := p
    rw [insLeafSorted]
    split_ifs with hc
    · exact List.Perm.refl _
    · exact ((ih.cons (ky, rd)).trans (List.Perm.swap _ _ _))

theorem insLeafSorted_mem (krid : RIDKeyPair)
    (front : List (Key × RecordId)) (p : Key × RecordId)
    (hp : p ∈ insLeafSorted krid front) :
    p = (strncpy10 krid.key, krid.rid) ∨ p ∈ front :=
  List.mem_cons.mp ((insLeafSorted_perm krid front).mem_iff.mp hp)

theorem insLeafSorted_sorted (krid : RIDKeyPair)
    (front : List (Key × RecordId))
    (hs : List.Pairwise (fun a b => strncmp10 a.1 b.1 < 0) front)
    (hd : ∀ p ∈ front, strncmp10 p.1 krid.key ≠ 0) :
    List.Pairwise (fun a b => strncmp10 a.1 b.1 < 0)
      (insLeafSorted krid front) := by
  induction front with
  | nil =>
    rw [insLeafSorted]
    exact List.pairwise_singleton _ _
  | cons p rest ih =>
    obtain ⟨ky, rd⟩ := p
    rw [List.pairwise_cons] at hs
    obtain ⟨hall, hrest⟩ := hs
    have hne : strncmp10 ky krid.key ≠ 0 := hd (ky, rd) (by simp)
    rw [insLeafSorted]
    split_ifs with hc
    · have hlt : 0 < strncmp10 ky krid.key := by omega
      have hkn : strncmp10 (strncpy10 krid.key) ky < 0 := by
        rw [strncmp10_norm_left]
        have := strncmp10_flip ky krid.key
        omega
      rw [List.pairwise_cons]
      refine ⟨?_, List.pairwise_cons.mpr ⟨hall, hrest⟩⟩
      intro q hq
      rcases List.mem_cons.mp hq with h | h
      · rw [h]
        exact hkn
      · exact strncmp10_lt_of_lt_of_le _ _ _ hkn (le_of_lt (hall q h))
    · have hlt : strncmp10 ky krid.key < 0 := by omega
      rw [List.pairwise_cons]
      constructor
      · intro q hq
        rcases insLeafSorted_mem krid rest q hq with h | h
        · rw [h]
          show strncmp10 ky (strncpy10 krid.key) < 0
          rw [strncmp10_norm_right]
          exact hlt
        · exact hall q h
      · exact ih hrest (fun q hq => hd q (by simp [hq]))

theorem insLeafSorted_good (krid : RIDKeyPair)
    (front : List (Key × RecordId)) (lo hi : Option Key)
    (hg : ∀ p ∈ front, goodLeafKey lo hi p.1)
    (hlo : loLe lo krid.key) (hhi : hiGt krid.key hi) :
    ∀ p ∈ insLeafSorted krid front, goodLeafKey lo hi p.1 := by
  intro p hp
  rcases insLeafSorted_mem krid front p hp with h | h
  · rw [h]
    refine ⟨loLe_norm _ _ hlo, hiGt_norm _ _ hhi, ?_⟩
    show strncpy10 krid.key = strncpy10 (strncpy10 krid.key)
    rw [strncpy10, strncpy10, strncpyN_idem]
  · exact hg p h

theorem insLeafSorted_append_left (krid : RIDKeyPair)
    (left : List (Key × RecordId)) (h0 : Key × RecordId)
    (right : List (Key × RecordId))
    (hlt : strncmp10 krid.key h0.1 < 0) :
    insLeafSorted krid (left ++ h0 :: right) =
      insLeafSorted krid left ++ h0 :: right := by
  induction left with
  | nil =>
    obtain ⟨ky, rd⟩ := h0
    have hlt2 : strncmp10 krid.key ky < 0 := hlt
    have h1 : 0 ≤ strncmp10 ky krid.key := by
      have := strncmp10_flip krid.key ky
      omega
    rw [List.nil_append]
    show insLeafSorted krid ((ky, rd) :: right) =
      insLeafSorted krid [] ++ (ky, rd) :: right
    simp only [insLeafSorted, if_pos h1]
    rfl
  | cons p rest ih =>
    obtain ⟨ky, rd⟩ := p
    rw [List.cons_append, insLeafSorted, insLeafSorted]
    split_ifs with hc
    · rfl
    · rw [ih]
      rfl

theorem insLeafSorted_append_right (krid : RIDKeyPair)
    (left right : List (Key × RecordId))
    (hall : ∀ p ∈ left, strncmp10 p.1 krid.key < 0) :
    insLeafSorted krid (left ++ right) =
      left ++ insLeafSorted krid right := by
  induction left with
  | nil => rfl
  | cons p rest ih =>
    obtain ⟨ky, rd⟩ := p
    have h1 : strncmp10 ky krid.key < 0 := hall (ky, rd) (by simp)
    rw [List.cons_append, insLeafSorted]
    rw [if_neg (by omega)]
    rw [ih (fun q hq => hall q (by simp [hq]))]
    rfl

/-! ### Pin-independence of the scan operations

The scan-side functions read pages, cursor fields and the stored range;
the pin counters influence none of their results.  `EqModPins` relates two
states that agree on everything except the pin counters, and the
congruence lemmas below transport every scan result across it. -/

/-- Two states agreeing on every field except the pin counters. -/
def EqModPins (s t : BTState) : Prop :=
  s.pages = t.pages ∧ s.nextPage = t.nextPage ∧
  s.headerPageNum = t.headerPageNum ∧ s.rootPageNum = t.rootPageNum ∧
  s.scanExecuting = t.scanExecuting ∧ s.nextEntry = t.nextEntry ∧
  s.currentPageNum = t.currentPageNum ∧ s.lowVal = t.lowVal ∧
  s.highVal = t.highVal ∧ s.lowOp = t.lowOp ∧ s.highOp = t.highOp

theorem eqModPins_mk {s t : BTState} (h1 : s.pages = t.pages)
    (h2 : s.nextPage = t.nextPage) (h3 : s.headerPageNum = t.headerPageNum)
    (h4 : s.rootPageNum = t.rootPageNum)
    (h5 : s.scanExecuting = t.scanExecuting) (h6 : s.nextEntry = t.nextEntry)
    (h7 : s.currentPageNum = t.currentPageNum) (h8 : s.lowVal = t.lowVal)
    (h9 : s.highVal = t.highVal) (h10 : s.lowOp = t.lowOp)
    (h11 : s.highOp = t.highOp) : EqModPins s t :=
  ⟨h1, h2, h3, h4, h5, h6, h7, h8, h9, h10, h11⟩

theorem EqModPins.refl (s : BTState) : EqModPins s s :=
  ⟨rfl, rfl, rfl, rfl, rfl, rfl, rfl, rfl, rfl, rfl, rfl⟩

theorem EqModPins.trans {s t u : BTState} (h1 : EqModPins s t)
    (h2 : EqModPins t u) : EqModPins s u := by
  obtain ⟨a1, a2, a3, a4, a5, a6, a7, a8, a9, a10, a11⟩ := h1
  obtain ⟨b1, b2, b3, b4, b5, b6, b7, b8, b9, b10, b11⟩ := h2
  exact ⟨a1.trans b1, a2.trans b2, a3.trans b3, a4.trans b4, a5.trans b5,
    a6.trans b6, a7.trans b7, a8.trans b8, a9.trans b9, a10.trans b10,
    a11.trans b11⟩

theorem EqModPins.symm {s t : BTState} (h : EqModPins s t) :
    EqModPins t s := by
  obtain ⟨a1, a2, a3, a4, a5, a6, a7, a8, a9, a10, a11⟩ := h
  exact ⟨a1.symm, a2.symm, a3.symm, a4.symm, a5.symm, a6.symm, a7.symm,
    a8.symm, a9.symm, a10.symm, a11.symm⟩

theorem EqModPins.unPin (s : BTState) (p : Nat) :
    EqModPins (unPinPageM s p) s := EqModPins.refl _

theorem EqModPins.readPage (s : BTState) (p : Nat) :
    EqModPins (readPageM s p) s := EqModPins.refl _

theorem getLeaf_congr {s t : BTState} (h : EqModPins s t) (p : Nat) :
    getLeaf s p = getLeaf t p := by
  rw [getLeaf, getLeaf, h.1]

theorem getNonLeaf_congr {s t : BTState} (h : EqModPins s t) (p : Nat) :
    getNonLeaf s p = getNonLeaf t p := by
  rw [getNonLeaf, getNonLeaf, h.1]

theorem matchRange_congr {s t : BTState} (h : EqModPins s t) (k : Key) :
    matchRange s k = matchRange t k := by
  obtain ⟨a1, a2, a3, a4, a5, a6, a7, a8, a9, a10, a11⟩ := h
  rw [matchRange, matchRange, a8, a9, a10, a11]

theorem findInLeafScan_congr {s t : BTState} (h : EqModPins s t)
    (l : LeafNode) (i rem : Nat) :
    findInLeafScan s l i rem = findInLeafScan t l i rem := by
  induction rem generalizing i with
  | zero => rfl
  | succ rem ih =>
    rw [findInLeafScan, findInLeafScan]
    simp only [matchRange_congr h, h.2.2.2.2.2.2.2.2.1, ih]

theorem endScan_congr {s t : BTState} (h : EqModPins s t) :
    (endScan s).1 = (endScan t).1 ∧ EqModPins (endScan s).2 (endScan t).2 := by
  obtain ⟨a1, a2, a3, a4, a5, a6, a7, a8, a9, a10, a11⟩ := h
  simp only [endScan, unPinPageM, a5, a7]
  split_ifs with h1 h2
  · exact ⟨rfl, eqModPins_mk a1 a2 a3 a4 a5 a6 a7 a8 a9 a10 a11⟩
  · exact ⟨rfl, eqModPins_mk a1 a2 a3 a4 rfl a6 rfl a8 a9 a10 a11⟩
  · exact ⟨rfl, eqModPins_mk a1 a2 a3 a4 rfl a6 rfl a8 a9 a10 a11⟩

theorem findInLeaf_congr (fuel : Nat) : ∀ {s t : BTState},
    EqModPins s t → ∀ (p : Nat) (r : RecordId),
    (findInLeaf fuel s p r).1 = (findInLeaf fuel t p r).1 ∧
    EqModPins (findInLeaf fuel s p r).2 (findInLeaf fuel t p r).2 := by
  induction fuel with
  | zero => exact fun h _ _ => ⟨rfl, h⟩
  | succ fuel ih =>
    intro s t h p r
    obtain ⟨a1, a2, a3, a4, a5, a6, a7, a8, a9, a10, a11⟩ := h
    rw [findInLeaf, findInLeaf]
    rw [getLeaf_congr (eqModPins_mk a1 a2 a3 a4 a5 a6 a7 a8 a9 a10 a11), a7]
    rw [findInLeafScan_congr (eqModPins_mk a1 a2 a3 a4 a5 a6 a7 a8 a9 a10 a11)]
    split
    · exact ⟨rfl, eqModPins_mk a1 a2 a3 a4 a5 rfl rfl a8 a9 a10 a11⟩
    · exact ⟨rfl, eqModPins_mk a1 a2 a3 a4 a5 a6 a7 a8 a9 a10 a11⟩
    · split_ifs with hsib
      · refine ih ?_ _ r
        exact eqModPins_mk a1 a2 a3 a4 a5 a6 rfl a8 a9 a10 a11
      · exact ⟨rfl, eqModPins_mk a1 a2 a3 a4 a5 a6 a7 a8 a9 a10 a11⟩

theorem scanLeafPhase_congr {s t : BTState} (h : EqModPins s t)
    (cp cp' lp : Nat) :
    (scanLeafPhase s cp lp).1 = (scanLeafPhase t cp' lp).1 ∧
    EqModPins (scanLeafPhase s cp lp).2 (scanLeafPhase t cp' lp).2 := by
  obtain ⟨a1, a2, a3, a4, a5, a6, a7, a8, a9, a10, a11⟩ := h
  rw [scanLeafPhase, scanLeafPhase]
  simp only
  have hmid : EqModPins
      (readPageM (unPinPageM { s with currentPageNum := lp } cp) lp)
      (readPageM (unPinPageM { t with currentPageNum := lp } cp') lp) :=
    eqModPins_mk a1 a2 a3 a4 a5 a6 rfl a8 a9 a10 a11
  have hnp : (readPageM (unPinPageM { s with currentPageNum := lp } cp) lp).nextPage
      = (readPageM (unPinPageM { t with currentPageNum := lp } cp') lp).nextPage := a2
  rw [hnp]
  obtain ⟨hv, hst⟩ := findInLeaf_congr _ hmid lp invalidRid
  rw [hv]
  cases hfl : findInLeaf
      (readPageM (unPinPageM { t with currentPageNum := lp } cp') lp).nextPage
      (readPageM (unPinPageM { t with currentPageNum := lp } cp') lp) lp
      invalidRid with
  | mk res s2 =>
    cases hfl' : findInLeaf
        (readPageM (unPinPageM { t with currentPageNum := lp } cp') lp).nextPage
        (readPageM (unPinPageM { s with currentPageNum := lp } cp) lp) lp
        invalidRid with
    | mk res' s1 =>
      rw [hfl, hfl'] at hv hst
      simp only at hv hst
      rw [hv]
      split_ifs with hres
      · obtain ⟨he, hes⟩ := endScan_congr hst
        cases he1 : endScan s1 with
        | mk e1 u1 =>
          cases he2 : endScan s2 with
          | mk e2 u2 =>
            rw [he1, he2] at hes
            exact ⟨rfl, hes⟩
      · exact ⟨rfl, hst⟩

theorem scanNext_congr {s t : BTState} (h : EqModPins s t) :
    (scanNext s).1 = (scanNext t).1 ∧
    EqModPins (scanNext s).2 (scanNext t).2 := by
  obtain ⟨a1, a2, a3, a4, a5, a6, a7, a8, a9, a10, a11⟩ := h
  rw [scanNext, scanNext, a5]
  rw [getLeaf_congr (eqModPins_mk a1 a2 a3 a4 a5 a6 a7 a8 a9 a10 a11), a7]
  simp only [matchRange_congr (eqModPins_mk a1 a2 a3 a4 a5 a6 a7 a8 a9 a10 a11)]
  rw [a6]
  simp only [readPageM, unPinPageM]
  split_ifs with h1 h2 h3 h4
  · exact ⟨rfl, eqModPins_mk a1 a2 a3 a4 a5 a6 a7 a8 a9 a10 a11⟩
  · exact ⟨rfl, eqModPins_mk a1 a2 a3 a4 rfl rfl rfl a8 a9 a10 a11⟩
  · exact ⟨rfl, eqModPins_mk a1 a2 a3 a4 rfl rfl rfl a8 a9 a10 a11⟩
  · exact ⟨rfl, eqModPins_mk a1 a2 a3 a4 rfl rfl rfl a8 a9 a10 a11⟩
  · obtain ⟨he, hes⟩ :=
      endScan_congr (eqModPins_mk a1 a2 a3 a4 a5 a6 a7 a8 a9 a10 a11)
    cases he1 : endScan s with
    | mk e1 u1 =>
      cases he2 : endScan t with
      | mk e2 u2 =>
        rw [he1, he2] at hes
        exact ⟨rfl, hes⟩

theorem runScanGo_congr (fuel : Nat) : ∀ {s t : BTState}, EqModPins s t →
    ∀ acc, (runScanGo fuel s acc).1 = (runScanGo fuel t acc).1 ∧
      (runScanGo fuel s acc).2.1 = (runScanGo fuel t acc).2.1 := by
  induction fuel with
  | zero => exact fun _ _ => ⟨rfl, rfl⟩
  | succ fuel ih =>
    intro s t h acc
    rw [runScanGo, runScanGo]
    obtain ⟨hv, hs⟩ := scanNext_congr h
    cases h1 : scanNext s with
    | mk r1 s1 =>
      cases h2 : scanNext t with
      | mk r2 s2 =>
        rw [h1, h2] at hv hs
        simp only at hv hs
        cases hv
        cases r1 with
        | ok rd => exact ih hs (rd :: acc)
        | error e => exact ⟨rfl, rfl⟩

/-! ### Frame lemmas: subtree structure depends only on the subtree's pages -/

theorem flatMap_congr {α β : Type} {l : List α} {f g : α → List β}
    (h : ∀ a ∈ l, f a = g a) : l.flatMap f = l.flatMap g := by
  induction l with
  | nil => rfl
  | cons a rest ih =>
    rw [List.flatMap_cons, List.flatMap_cons, h a (by simp),
      ih (fun x hx => h x (by simp [hx]))]

theorem mem_treePids_self (s : BTState) (h pid : Nat) :
    pid ∈ treePids s h pid := by
  cases h with
  | zero => simp [treePids]
  | succ h => simp [treePids]

theorem mem_treePids_child (s : BTState) (h pid c q : Nat)
    (hc : c ∈ (getNonLeaf s pid).firstPageNo ::
      (nlRep (getNonLeaf s pid)).map (fun p => p.2))
    (hq : q ∈ treePids s h c) : q ∈ treePids s (h + 1) pid := by
  rw [treePids]
  exact List.mem_cons_of_mem _ (List.mem_flatMap.mpr ⟨c, hc, hq⟩)

theorem leafSeq_subset_treePids (h : Nat) : ∀ (s : BTState) (pid q : Nat),
    q ∈ leafSeq s h pid → q ∈ treePids s h pid := by
  induction h with
  | zero => intro s pid q hq; exact hq
  | succ h ih =>
    intro s pid q hq
    rw [leafSeq] at hq
    obtain ⟨c, hc, hq⟩ := List.mem_flatMap.mp hq
    exact mem_treePids_child s h pid c q hc (ih s c q hq)

theorem wfSegP_congr (P Q : Nat → Option Key → Option Key → Prop)
    (front : List (Key × Nat)) :
    ∀ (lo : Option Key) (c : Nat) (hi : Option Key),
    (∀ x ∈ c :: front.map (fun p => p.2), ∀ lo' hi', P x lo' hi' → Q x lo' hi') →
    WfSegP P lo c front hi → WfSegP Q lo c front hi := by
  induction front with
  | nil => exact fun lo c hi hx hw => hx c (by simp) _ _ hw
  | cons p rest ih =>
    intro lo c hi hx hw
    obtain ⟨ky, c2⟩ := p
    obtain ⟨h1, h2, h3⟩ := hw
    refine ⟨hx c (by simp) _ _ h1, h2, ih _ _ _ ?_ h3⟩
    intro x hxm lo' hi' hp
    refine hx x ?_ lo' hi' hp
    rcases List.mem_cons.mp hxm with h | h
    · simp [h]
    · simp only [List.map_cons, List.mem_cons]
      exact Or.inr (Or.inr h)

theorem tree_frame (h : Nat) : ∀ (s s' : BTState) (pid : Nat),
    (∀ q ∈ treePids s h pid, s'.pages q = s.pages q) →
    treePids s' h pid = treePids s h pid ∧
    leafSeq s' h pid = leafSeq s h pid ∧
    (∀ lo hi, WfTree s h pid lo hi → WfTree s' h pid lo hi) := by
  induction h with
  | zero =>
    intro s s' pid hag
    refine ⟨rfl, rfl, ?_⟩
    intro lo hi hw
    obtain ⟨l, front, hp, hrest⟩ := hw
    exact ⟨l, front, (hag pid (by simp [treePids])).trans hp, hrest⟩
  | succ h ih =>
    intro s s' pid hag
    have hpid : s'.pages pid = s.pages pid :=
      hag pid (mem_treePids_self s (h + 1) pid)
    have hnode : getNonLeaf s' pid = getNonLeaf s pid := by
      rw [getNonLeaf, getNonLeaf, hpid]
    have hchild : ∀ c, c ∈ (getNonLeaf s pid).firstPageNo ::
        (nlRep (getNonLeaf s pid)).map (fun p => p.2) →
        treePids s' h c = treePids s h c ∧
        leafSeq s' h c = leafSeq s h c ∧
        (∀ lo hi, WfTree s h c lo hi → WfTree s' h c lo hi) := by
      intro c hc
      exact ih s s' c (fun q hq => hag q (mem_treePids_child s h pid c q hc hq))
    refine ⟨?_, ?_, ?_⟩
    · rw [treePids, treePids, hnode]
      refine congrArg _ (flatMap_congr ?_)
      exact fun c hc => (hchild c hc).1
    · rw [leafSeq, leafSeq, hnode]
      exact flatMap_congr (fun c hc => (hchild c hc).2.1)
    · intro lo hi hw
      obtain ⟨n, front, hp, hlev, hdn, hlen, hseg⟩ := hw
      refine ⟨n, front, hpid.trans hp, hlev, hdn, hlen, ?_⟩
      refine wfSegP_congr _ _ front _ _ _ ?_ hseg
      intro x hx lo' hi' hpx
      refine ((hchild x ?_).2.2 lo' hi' hpx)
      have hn : getNonLeaf s pid = n := by
        rw [getNonLeaf, hp]
      rw [hn, nlRep_dense n front hdn]
      exact hx

theorem entriesOf_frame (s s' : BTState) (h pid : Nat)
    (hag : ∀ q ∈ treePids s h pid, s'.pages q = s.pages q) :
    entriesOf s' h pid = entriesOf s h pid := by
  rw [entriesOf, entriesOf, (tree_frame h s s' pid hag).2.1]
  refine flatMap_congr ?_
  intro lp hlp
  have : getLeaf s' lp = getLeaf s lp := by
    rw [getLeaf, getLeaf, hag lp (leafSeq_subset_treePids h s pid lp hlp)]
  rw [this]

/-! ### Entries of a well-formed subtree: decomposition, order, bounds -/

/-- Entries of one internal-node segment: the leading child followed by
the children after each router. -/
def segEntries (s : BTState) (h c : Nat) (front : List (Key × Nat)) :
    List (Key × RecordId) :=
  entriesOf s h c ++ front.flatMap (fun p => entriesOf s h p.2)

theorem leafSeq_nonleaf (s : BTState) (h pid : Nat) (n : NonLeafNode)
    (front : List (Key × Nat)) (hp : s.pages pid = .nonleaf n)
    (hdn : IsDenseNL n front) :
    leafSeq s (h + 1) pid =
      leafSeq s h n.firstPageNo ++
        front.flatMap (fun p => leafSeq s h p.2) := by
  rw [leafSeq]
  have hn : getNonLeaf s pid = n := by rw [getNonLeaf, hp]
  rw [hn, nlRep_dense n front hdn, List.flatMap_cons,
    List.flatMap_map (fun p => p.2) (leafSeq s h) front]

theorem entriesOf_nonleaf (s : BTState) (h pid : Nat) (n : NonLeafNode)
    (front : List (Key × Nat)) (hp : s.pages pid = .nonleaf n)
    (hdn : IsDenseNL n front) :
    entriesOf s (h + 1) pid = segEntries s h n.firstPageNo front := by
  rw [entriesOf, leafSeq_nonleaf s h pid n front hp hdn, segEntries,
    List.flatMap_append, entriesOf]
  refine congrArg _ ?_
  rw [List.bind_assoc]
  refine congrArg _ ?_
  funext p
  rw [entriesOf]

theorem entriesOf_leaf (s : BTState) (pid : Nat) (l : LeafNode)
    (hp : s.pages pid = .leaf l) :
    entriesOf s 0 pid = leafRep l := by
  rw [entriesOf, leafSeq, List.flatMap_cons, List.flatMap_nil,
    List.append_nil, getLeaf, hp]

theorem segEntries_cons (s : BTState) (h c : Nat) (k : Key) (c2 : Nat)
    (rest : List (Key × Nat)) :
    segEntries s h c ((k, c2) :: rest) =
      entriesOf s h c ++ segEntries s h c2 rest := by
  rw [segEntries, segEntries, List.flatMap_cons]

theorem segP_entries (h : Nat) (s : BTState)
    (IH : ∀ c lo hi, WfTree s h c lo hi →
      List.Pairwise (fun a b => strncmp10 a.1 b.1 < 0) (entriesOf s h c) ∧
      ∀ e ∈ entriesOf s h c, goodLeafKey lo hi e.1) :
    ∀ (front : List (Key × Nat)) (lo : Option Key) (c : Nat) (hi : Option Key),
    WfSegP (WfTree s h) lo c front hi →
    List.Pairwise (fun a b => strncmp10 a.1 b.1 < 0) (segEntries s h c front) ∧
    ∀ e ∈ segEntries s h c front, goodLeafKey lo hi e.1 := by
  intro front
  induction front with
  | nil =>
    intro lo c hi hw
    rw [segEntries, List.flatMap_nil, List.append_nil]
    exact IH c lo hi hw
  | cons p rest ih =>
    intro lo c hi hw
    obtain ⟨ky, c2⟩ := p
    obtain ⟨hc, hr, hseg⟩ := hw
    obtain ⟨hcs, hcg⟩ := IH c lo (some ky) hc
    obtain ⟨hrs, hrg⟩ := ih (some ky) c2 hi hseg
    rw [segEntries_cons]
    constructor
    · rw [List.pairwise_append]
      refine ⟨hcs, hrs, ?_⟩
      intro a ha b hb
      have h1 : strncmp10 a.1 ky < 0 := (hcg a ha).2.1
      have h2 : strncmp10 ky b.1 ≤ 0 := (hrg b hb).1
      exact strncmp10_lt_of_lt_of_le _ _ _ h1 h2
    · intro e he
      rcases List.mem_append.mp he with hl | hrr
      · obtain ⟨g1, g2, g3⟩ := hcg e hl
        refine ⟨g1, ?_, g3⟩
        have hkhi : hiGt ky hi := hr.2.1
        cases hi with
        | none => trivial
        | some y =>
          exact strncmp10_lt_of_lt_of_le _ _ _ g2 (le_of_lt hkhi)
      · obtain ⟨g1, g2, g3⟩ := hrg e hrr
        refine ⟨?_, g2, g3⟩
        have hlk : loLt lo ky := hr.1
        cases lo with
        | none => trivial
        | some x =>
          exact le_of_lt (strncmp10_lt_of_lt_of_le _ _ _ hlk g1)

theorem entriesOf_good (h : Nat) : ∀ (s : BTState) (pid : Nat)
    (lo hi : Option Key), WfTree s h pid lo hi →
    List.Pairwise (fun a b => strncmp10 a.1 b.1 < 0) (entriesOf s h pid) ∧
    ∀ e ∈ entriesOf s h pid, goodLeafKey lo hi e.1 := by
  induction h with
  | zero =>
    intro s pid lo hi hw
    obtain ⟨l, front, hp, hdn, hsort, hgood⟩ := hw
    rw [entriesOf_leaf s pid l hp, leafRep_dense l front hdn]
    exact ⟨hsort, fun e he => hgood e he⟩
  | succ h ih =>
    intro s pid lo hi hw
    obtain ⟨n, front, hp, hlev, hdn, hlen, hseg⟩ := hw
    rw [entriesOf_nonleaf s h pid n front hp hdn]
    exact segP_entries h s (fun c lo' hi' hc => ih s c lo' hi' hc)
      front lo n.firstPageNo hi hseg

/-! ### The leaf chain: concatenation, framing, nonemptiness -/

theorem leafSeq_ne_nil (h : Nat) : ∀ (s : BTState) (pid : Nat),
    leafSeq s h pid ≠ [] := by
  induction h with
  | zero => intro s pid; simp [leafSeq]
  | succ h ih =>
    intro s pid
    rw [leafSeq, List.flatMap_cons]
    intro hc
    exact ih s (getNonLeaf s pid).firstPageNo (List.append_eq_nil.mp hc).1

theorem chainTo_append (s : BTState) : ∀ (l1 l2 : List Nat) (nxt : Nat),
    ChainTo s (l1 ++ l2) nxt ↔
      ChainTo s l1 (l2.headD nxt) ∧ ChainTo s l2 nxt := by
  intro l1
  induction l1 with
  | nil => intro l2 nxt; simp [ChainTo]
  | cons p l1 ih =>
    intro l2 nxt
    cases l1 with
    | nil =>
      cases l2 with
      | nil => simp [ChainTo]
      | cons q l2 =>
        show (getLeaf s p).rightSibPageNo = q ∧ ChainTo s (q :: l2) nxt ↔ _
        rw [List.headD_cons]
        show _ ↔ (getLeaf s p).rightSibPageNo = q ∧ ChainTo s (q :: l2) nxt
        exact Iff.rfl
    | cons q l1 =>
      show (getLeaf s p).rightSibPageNo = q ∧
        ChainTo s ((q :: l1) ++ l2) nxt ↔ _
      rw [ih l2 nxt]
      show _ ↔ ((getLeaf s p).rightSibPageNo = q ∧
        ChainTo s (q :: l1) (l2.headD nxt)) ∧ ChainTo s l2 nxt
      rw [and_assoc]

theorem chainTo_congr (s s' : BTState) : ∀ (l : List Nat) (nxt : Nat),
    (∀ p ∈ l, getLeaf s' p = getLeaf s p) →
    ChainTo s l nxt → ChainTo s' l nxt := by
  intro l
  induction l with
  | nil => intro nxt _ _; trivial
  | cons p l ih =>
    intro nxt hag hc
    cases l with
    | nil =>
      show (getLeaf s' p).rightSibPageNo = nxt
      rw [hag p (by simp)]
      exact hc
    | cons q l =>
      obtain ⟨h1, h2⟩ := hc
      exact ⟨by rw [hag p (by simp)]; exact h1,
        ih nxt (fun x hx => hag x (by simp [hx])) h2⟩

/-- Every leaf of `ls` from position `k` on holds at least one entry. -/
def NEFrom (s : BTState) (ls : List Nat) (k : Nat) : Prop :=
  ∀ p ∈ ls.drop k, leafRep (getLeaf s p) ≠ []

theorem NEFrom_congr (s s' : BTState) (ls : List Nat) (k : Nat)
    (hag : ∀ p ∈ ls, getLeaf s' p = getLeaf s p) (h : NEFrom s ls k) :
    NEFrom s' ls k := by
  intro p hp
  rw [hag p (List.mem_of_mem_drop hp)]
  exact h p hp

theorem NEFrom_append_split (s : BTState) (A B : List Nat) (k : Nat)
    (hk : k ≤ A.length) (h : NEFrom s (A ++ B) k) :
    NEFrom s A k ∧ NEFrom s B 0 := by
  constructor
  · intro p hp
    refine h p ?_
    rw [List.drop_append_of_le_length hk]
    exact List.mem_append_left _ hp
  · intro p hp
    refine h p ?_
    rw [List.drop_append_of_le_length hk]
    exact List.mem_append_right _ (by simpa using hp)

theorem NEFrom_append_intro (s : BTState) (A B : List Nat) (k : Nat)
    (hk : k ≤ A.length) (hA : NEFrom s A k) (hB : NEFrom s B 0) :
    NEFrom s (A ++ B) k := by
  intro p hp
  rw [List.drop_append_of_le_length hk] at hp
  rcases List.mem_append.mp hp with h | h
  · exact hA p h
  · exact hB p (by simpa using h)

/-! ### The descent crossing point -/

theorem exists_crossing (P : Nat → Prop) (m : Nat)
    (h0 : ¬ P 0) (hm : P m) : ∃ i, i < m ∧ ¬ P i ∧ P (i + 1) := by
  induction m with
  | zero => exact absurd hm h0
  | succ m ih =>
    by_cases hPm : P m
    · obtain ⟨i, hi, hni, hpi⟩ := ih hPm
      exact ⟨i, Nat.lt_succ_of_lt hi, hni, hpi⟩
    · exact ⟨m, Nat.lt_succ_self m, hPm, hm⟩

theorem wfSegP_routers (P : Nat → Option Key → Option Key → Prop) :
    ∀ (front : List (Key × Nat)) (lo : Option Key) (c : Nat) (hi : Option Key),
    WfSegP P lo c front hi →
    List.Pairwise (fun a b => strncmp10 a.1 b.1 < 0) front ∧
    ∀ p ∈ front, goodRouterKey lo hi p.1 := by
  intro front
  induction front with
  | nil => exact fun lo c hi _ => ⟨List.Pairwise.nil, by simp⟩
  | cons p rest ih =>
    intro lo c hi hw
    obtain ⟨ky, c2⟩ := p
    obtain ⟨h1, h2, h3⟩ := hw
    obtain ⟨hs, hg⟩ := ih (some ky) c2 hi h3
    constructor
    · rw [List.pairwise_cons]
      refine ⟨?_, hs⟩
      intro q hq
      exact (hg q hq).1
    · intro q hq
      rcases List.mem_cons.mp hq with h | h
      · rw [h]; exact h2
      · obtain ⟨g1, g2, g3⟩ := hg q h
        refine ⟨?_, g2, g3⟩
        cases lo with
        | none => trivial
        | some x => exact strncmp10_lt_of_lt_of_le _ _ _ h2.1 (le_of_lt g1)

/-- The descent rule of `insertInSubtree` (btree.cpp:241-274) always picks
a child slot `j ≤ numKeys` with `keyArray[j-1] ≤ key < keyArray[j]` at the
existing ends. -/
theorem descend_child (n : NonLeafNode) (k : Key)
    (hlen : 1 ≤ getNonLeafLength n) :
    ∃ j, j ≤ getNonLeafLength n ∧
      (if strncmp10 k (nlKeyAt n 0) < 0 then some n.firstPageNo
       else if 0 ≤ strncmp10 k (nlKeyAt n (getNonLeafLength n - 1)) then
         some (pageNoAt n (getNonLeafLength n))
       else
         ((List.range (getNonLeafLength n - 1)).find? (fun i =>
             decide (strncmp10 (nlKeyAt n i) k ≤ 0) &&
             decide (strncmp10 k (nlKeyAt n (i + 1)) < 0))).map
           (fun i => pageNoAt n (i + 1))) = some (pageNoAt n j) ∧
      (0 < j → strncmp10 (nlKeyAt n (j - 1)) k ≤ 0) ∧
      (j < getNonLeafLength n → strncmp10 k (nlKeyAt n j) < 0) := by
  by_cases h1 : strncmp10 k (nlKeyAt n 0) < 0
  · refine ⟨0, Nat.zero_le _, ?_, ?_, ?_⟩
    · rw [if_pos h1, pageNoAt, if_pos rfl]
    · intro h; omega
    · intro _; exact h1
  · rw [if_neg h1]
    by_cases h2 : 0 ≤ strncmp10 k (nlKeyAt n (getNonLeafLength n - 1))
    · refine ⟨getNonLeafLength n, le_refl _, ?_, ?_, ?_⟩
      · rw [if_pos h2]
      · intro _
        have := strncmp10_flip k (nlKeyAt n (getNonLeafLength n - 1))
        omega
      · intro h; omega
    · rw [if_neg h2]
      have hk0 : 0 ≤ strncmp10 k (nlKeyAt n 0) := by omega
      have hke : strncmp10 k (nlKeyAt n (getNonLeafLength n - 1)) < 0 := by
        omega
      have hm2 : 2 ≤ getNonLeafLength n := by
        rcases Nat.lt_or_ge (getNonLeafLength n) 2 with h | h
        · exfalso
          have : getNonLeafLength n - 1 = 0 := by omega
          rw [this] at hke
          omega
        · exact h
      obtain ⟨i, hi, hni, hpi⟩ := exists_crossing
        (fun i => strncmp10 k (nlKeyAt n i) < 0) (getNonLeafLength n - 1)
        (by omega) hke
      have hfind : ((List.range (getNonLeafLength n - 1)).find? (fun i =>
          decide (strncmp10 (nlKeyAt n i) k ≤ 0) &&
          decide (strncmp10 k (nlKeyAt n (i + 1)) < 0))).isSome := by
        refine List.find?_isSome.mpr ⟨i, List.mem_range.mpr hi, ?_⟩
        have hflip := strncmp10_flip (nlKeyAt n i) k
        simp only [Bool.and_eq_true, decide_eq_true_eq]
        constructor
        · omega
        · exact hpi
      obtain ⟨i0, hi0⟩ := Option.isSome_iff_exists.mp hfind
      have hpred := List.find?_some hi0
      have hmem := List.mem_range.mp (List.mem_of_find?_eq_some hi0)
      simp only [Bool.and_eq_true, decide_eq_true_eq] at hpred
      refine ⟨i0 + 1, by omega, ?_, ?_, ?_⟩
      · rw [hi0]
        rfl
      · intro _
        simpa using hpred.1
      · intro _
        exact hpred.2

/-! ### Sorted router insertion: order and bounds -/

theorem insNLSorted_perm (pk : PageKeyPair) (front : List (Key × Nat)) :
    (insNLSorted pk front).Perm ((strncpy10 pk.key, pk.pageNo) :: front) := by
  induction front with
  | nil => exact List.Perm.refl _
  | cons p rest ih =>
    obtain ⟨ky, pn⟩ := p
    rw [insNLSorted]
    split_ifs with hc
    · exact List.Perm.refl _
    · exact ((ih.cons (ky, pn)).trans (List.Perm.swap _ _ _))

theorem insNLSorted_mem (pk : PageKeyPair) (front : List (Key × Nat))
    (p : Key × Nat) (hp : p ∈ insNLSorted pk front) :
    p = (strncpy10 pk.key, pk.pageNo) ∨ p ∈ front :=
  List.mem_cons.mp ((insNLSorted_perm pk front).mem_iff.mp hp)

theorem insNLSorted_sorted (pk : PageKeyPair) (front : List (Key × Nat))
    (hs : List.Pairwise (fun a b => strncmp10 a.1 b.1 < 0) front)
    (hd : ∀ p ∈ front, strncmp10 p.1 pk.key ≠ 0) :
    List.Pairwise (fun a b => strncmp10 a.1 b.1 < 0)
      (insNLSorted pk front) := by
  induction front with
  | nil =>
    rw [insNLSorted]
    exact List.pairwise_singleton _ _
  | cons p rest ih =>
    obtain ⟨ky, pn⟩ := p
    rw [List.pairwise_cons] at hs
    obtain ⟨hall, hrest⟩ := hs
    have hne : strncmp10 ky pk.key ≠ 0 := hd (ky, pn) (by simp)
    rw [insNLSorted]
    split_ifs with hc
    · have hlt : 0 < strncmp10 ky pk.key := by omega
      have hkn : strncmp10 (strncpy10 pk.key) ky < 0 := by
        rw [strncmp10_norm_left]
        have := strncmp10_flip ky pk.key
        omega
      rw [List.pairwise_cons]
      refine ⟨?_, List.pairwise_cons.mpr ⟨hall, hrest⟩⟩
      intro q hq
      rcases List.mem_cons.mp hq with h | h
      · rw [h]
        exact hkn
      · exact strncmp10_lt_of_lt_of_le _ _ _ hkn (le_of_lt (hall q h))
    · have hlt : strncmp10 ky pk.key < 0 := by omega
      rw [List.pairwise_cons]
      constructor
      · intro q hq
        rcases insNLSorted_mem pk rest q hq with h | h
        · rw [h]
          show strncmp10 ky (strncpy10 pk.key) < 0
          rw [strncmp10_norm_right]
          exact hlt
        · exact hall q h
      · exact ih hrest (fun q hq => hd q (by simp [hq]))

theorem insNLSorted_good (pk : PageKeyPair) (front : List (Key × Nat))
    (lo hi : Option Key) (hg : ∀ p ∈ front, goodRouterKey lo hi p.1)
    (hlo : loLt lo pk.key) (hhi : hiGt pk.key hi) :
    ∀ p ∈ insNLSorted pk front, goodRouterKey lo hi p.1 := by
  intro p hp
  rcases insNLSorted_mem pk front p hp with h | h
  · rw [h]
    refine ⟨?_, hiGt_norm _ _ hhi, ?_⟩
    · cases lo with
      | none => trivial
      | some x =>
        show strncmp10 x (strncpy10 pk.key) < 0
        rw [strncmp10_norm_right]
        exact hlo
    · show strncpy10 pk.key = strncpy10 (strncpy10 pk.key)
      rw [strncpy10, strncpy10, strncpyN_idem]
  · exact hg p h

theorem insNLSorted_append_left (pk : PageKeyPair)
    (left : List (Key × Nat)) (h0 : Key × Nat) (right : List (Key × Nat))
    (hlt : strncmp10 pk.key h0.1 < 0) :
    insNLSorted pk (left ++ h0 :: right) =
      insNLSorted pk left ++ h0 :: right := by
  induction left with
  | nil =>
    obtain ⟨ky, pn⟩ := h0
    have hlt2 : strncmp10 pk.key ky < 0 := hlt
    have h1 : 0 ≤ strncmp10 ky pk.key := by
      have := strncmp10_flip pk.key ky
      omega
    rw [List.nil_append]
    show insNLSorted pk ((ky, pn) :: right) =
      insNLSorted pk [] ++ (ky, pn) :: right
    simp only [insNLSorted, if_pos h1]
    rfl
  | cons p rest ih =>
    obtain ⟨ky, pn⟩ := p
    rw [List.cons_append, insNLSorted, insNLSorted]
    split_ifs with hc
    · rfl
    · rw [ih]
      rfl

theorem insNLSorted_append_right (pk : PageKeyPair)
    (left right : List (Key × Nat))
    (hall : ∀ p ∈ left, strncmp10 p.1 pk.key < 0) :
    insNLSorted pk (left ++ right) =
      left ++ insNLSorted pk right := by
  induction left with
  | nil => rfl
  | cons p rest ih =>
    obtain ⟨ky, pn⟩ := p
    have h1 : strncmp10 ky pk.key < 0 := hall (ky, pn) (by simp)
    rw [List.cons_append, insNLSorted]
    rw [if_neg (by omega)]
    rw [ih (fun q hq => hall q (by simp [hq]))]
    rfl

/-! ### `insertInLeaf` on a dense leaf: full characterization -/

theorem insertInLeaf_roomy (s : BTState) (krid : RIDKeyPair) (lp : Nat)
    (l : LeafNode) (front : List (Key × RecordId))
    (hp : s.pages lp = PageData.leaf l) (hdn : IsDenseLeaf l front)
    (hroom : front.length < LEAF_NUM_KEYS) :
    insertInLeaf s krid lp =
      (none,
       { s with
          pages := Function.update s.pages lp (PageData.leaf
            { l with slots := (insLeafSorted krid front ++
                List.replicate (LEAF_NUM_KEYS - front.length - 1)
                  emptyLeafSlot) })
          pins := (insertInLeaf s krid lp).2.pins }) := by
  have hgl : getLeaf s lp = l := by rw [getLeaf, hp]
  have hro : isRoomyLeaf (getLeaf (readPageM s lp) lp) = true := by
    rw [getLeaf_readPageM, hgl]
    exact (isRoomyLeaf_dense l front hdn).mpr hroom
  have hslots : insertInRoomyLeafGo krid l.slots =
      insLeafSorted krid front ++
        List.replicate (LEAF_NUM_KEYS - front.length - 1) emptyLeafSlot := by
    rw [hdn.1]
    have hm : LEAF_NUM_KEYS - front.length =
        (LEAF_NUM_KEYS - front.length - 1) + 1 := by
      simp only [LEAF_NUM_KEYS] at hroom ⊢
      omega
    rw [hm, insertInRoomyLeafGo_dense krid front _ hdn.2.2]
    simp only [Nat.add_sub_cancel]
  rw [insertInLeaf, if_pos hro]
  simp only [getLeaf_readPageM]
  rw [hgl]
  rw [insertInRoomyLeaf]
  rw [hslots]
  rfl

theorem insertInLeaf_split (s : BTState) (krid : RIDKeyPair) (lp : Nat)
    (l : LeafNode) (front : List (Key × RecordId))
    (hp : s.pages lp = PageData.leaf l) (hdn : IsDenseLeaf l front)
    (hfull : front.length = LEAF_NUM_KEYS)
    (hsort : List.Pairwise (fun a b => strncmp10 a.1 b.1 < 0) front)
    (hd : ∀ p ∈ front, strncmp10 p.1 krid.key ≠ 0)
    (hnorm : (front.getD 2 emptyLeafSlot).1 =
      strncpy10 (front.getD 2 emptyLeafSlot).1)
    (hlt : lp < s.nextPage) :
    ∃ cfront nfront,
      insertInLeaf s krid lp =
        (some ⟨s.nextPage, (front.getD 2 emptyLeafSlot).1⟩,
         { s with
            pages := Function.update (Function.update (Function.update
                s.pages s.nextPage (PageData.leaf emptyLeaf)) lp
                (PageData.leaf ⟨cfront ++ List.replicate
                  (LEAF_NUM_KEYS - cfront.length) emptyLeafSlot,
                  s.nextPage⟩))
              s.nextPage
              (PageData.leaf ⟨nfront ++ List.replicate
                  (LEAF_NUM_KEYS - nfront.length) emptyLeafSlot,
                  l.rightSibPageNo⟩)
            nextPage := s.nextPage + 1
            pins := (insertInLeaf s krid lp).2.pins }) ∧
      cfront ++ nfront = insLeafSorted krid front ∧
      cfront.length + nfront.length = LEAF_NUM_KEYS + 1 ∧
      2 ≤ cfront.length ∧ cfront.length ≤ 3 ∧
      (∀ e ∈ cfront, strncmp10 e.1 (front.getD 2 emptyLeafSlot).1 < 0) ∧
      (∀ e ∈ nfront, strncmp10 (front.getD 2 emptyLeafSlot).1 e.1 ≤ 0) := by
  have hgl : getLeaf s lp = l := by rw [getLeaf, hp]
  have hfull2 : ¬ (isRoomyLeaf (getLeaf (readPageM s lp) lp) = true) := by
    rw [getLeaf_readPageM, hgl, isRoomyLeaf_dense l front hdn, hfull]
    simp
  have hne : lp ≠ s.nextPage := by omega
  have hne2 : ¬ (s.nextPage = lp) := by omega
  rcases front with _ | ⟨a, _ | ⟨b, _ | ⟨c, _ | ⟨d, rest⟩⟩⟩⟩ <;>
    simp only [List.length_cons, List.length_nil, LEAF_NUM_KEYS] at hfull <;>
    try omega
  have hrest : rest = [] := by
    cases rest with
    | nil => rfl
    | cons x xs => simp at hfull
  subst hrest
  obtain ⟨ha, hsort⟩ := List.pairwise_cons.mp hsort
  obtain ⟨hb, hsort⟩ := List.pairwise_cons.mp hsort
  obtain ⟨hc2, _⟩ := List.pairwise_cons.mp hsort
  have hac : strncmp10 a.1 c.1 < 0 := ha c (by simp)
  have hbc : strncmp10 b.1 c.1 < 0 := hb c (by simp)
  have hcd : strncmp10 c.1 d.1 < 0 := hc2 d (by simp)
  have hnormc : c.1 = strncpy10 c.1 := hnorm
  have hLeq : getLeaf s lp = ⟨[a, b, c, d], l.rightSibPageNo⟩ := by
    rw [hgl]
    have : l.slots = [a, b, c, d] := by
      have h1 := hdn.1
      simpa using h1
    cases l with
    | mk sl rs =>
      simp only at this ⊢
      rw [this]
  have hocc : ∀ p ∈ [a, b, c, d], p.2.page_number ≠ INVALID_NUMBER :=
    hdn.2.2
  have hoccab : ∀ p ∈ [a, b], p.2.page_number ≠ INVALID_NUMBER := by
    intro p hp2
    refine hocc p ?_
    rcases List.mem_cons.mp hp2 with h | h
    · simp [h]
    · simp at h
      simp [h]
  have hocccd : ∀ p ∈ [c, d], p.2.page_number ≠ INVALID_NUMBER := by
    intro p hp2
    refine hocc p ?_
    rcases List.mem_cons.mp hp2 with h | h
    · simp [h]
    · simp at h
      simp [h]
  have hcurL : insertInRoomyLeafGo krid
      ([a, b] ++ List.replicate 2 emptyLeafSlot) =
      insLeafSorted krid [a, b] ++ List.replicate 1 emptyLeafSlot :=
    insertInRoomyLeafGo_dense krid [a, b] 1 hoccab
  have hcurR : insertInRoomyLeafGo krid
      ([c, d] ++ List.replicate 2 emptyLeafSlot) =
      insLeafSorted krid [c, d] ++ List.replicate 1 emptyLeafSlot :=
    insertInRoomyLeafGo_dense krid [c, d] 1 hocccd
  rw [insertInLeaf, if_neg hfull2]
  simp only [getLeaf_readPageM]
  rw [hLeq]
  simp only [allocatePageM, readPageM, unPinPageM, setPage,
    Function.update_apply, LEAF_NUM_KEYS, List.cons_append,
    List.nil_append, List.drop_succ_cons, List.drop_zero,
    List.take_succ_cons, List.take_zero, List.getD_cons_zero,
    List.getD_cons_succ]
  by_cases hcmp : strncmp10 krid.key c.1 < 0
  · refine ⟨insLeafSorted krid [a, b], [c, d], ?_, ?_, ?_, ?_, ?_, ?_, ?_⟩
    · simp only [if_pos hcmp, insertInRoomyLeaf]
      simp only [List.cons_append, List.nil_append] at hcurL
      rw [hcurL]
      simp only [insLeafSorted_length, List.length_cons, List.length_nil,
        List.getD_cons_zero, List.getD_cons_succ, ← hnormc]
      rfl
    · have h5 : insLeafSorted krid ([a, b] ++ c :: [d]) =
          insLeafSorted krid [a, b] ++ c :: [d] :=
        insLeafSorted_append_left krid [a, b] c [d] hcmp
      simpa using h5.symm
    · simp only [insLeafSorted_length, List.length_cons, List.length_nil]
    · simp only [insLeafSorted_length, List.length_cons, List.length_nil]
      omega
    · simp only [insLeafSorted_length, List.length_cons, List.length_nil]
      omega
    · intro e he
      rcases insLeafSorted_mem krid [a, b] e he with h | h
      · rw [h]
        show strncmp10 (strncpy10 krid.key) c.1 < 0
        rw [strncmp10_norm_left]
        exact hcmp
      · rcases List.mem_cons.mp h with h2 | h2
        · rw [h2]; exact hac
        · simp at h2
          rw [h2]; exact hbc
    · intro e he
      rcases List.mem_cons.mp he with h | h
      · rw [h]
        exact le_of_eq (strncmpN_refl STRINGSIZE c.1)
      · simp at h
        rw [h]
        exact le_of_lt hcd
  · have hkc : strncmp10 c.1 krid.key < 0 := by
      have hne3 := hd c (by simp)
      have := strncmp10_flip krid.key c.1
      omega
    have hins : insLeafSorted krid [c, d] =
        c :: insLeafSorted krid [d] := by
      rw [insLeafSorted, if_neg (by omega)]
    refine ⟨[a, b], insLeafSorted krid [c, d], ?_, ?_, ?_, ?_, ?_, ?_, ?_⟩
    · simp only [if_neg hcmp, insertInRoomyLeaf]
      simp only [List.cons_append, List.nil_append] at hcurR
      rw [hcurR]
      simp only [insLeafSorted_length, List.length_cons, List.length_nil,
        hins, List.cons_append, List.nil_append, List.getD_cons_zero,
        List.getD_cons_succ]
      rw [← hnormc]
    · have h1 : insLeafSorted krid ([a, b] ++ [c, d]) =
          [a, b] ++ insLeafSorted krid [c, d] := by
        refine insLeafSorted_append_right krid [a, b] [c, d] ?_
        intro p hp2
        rcases List.mem_cons.mp hp2 with h | h
        · rw [h]
          exact strncmp10_lt_of_lt_of_le _ _ _ hac (le_of_lt hkc)
        · simp at h
          rw [h]
          exact strncmp10_lt_of_lt_of_le _ _ _ hbc (le_of_lt hkc)
      simpa using h1.symm
    · simp only [insLeafSorted_length, List.length_cons, List.length_nil]
    · exact Nat.le_refl 2
    · exact Nat.le_succ 2
    · intro e he
      rcases List.mem_cons.mp he with h | h
      · rw [h]; exact hac
      · simp at h
        rw [h]; exact hbc
    · intro e he
      rcases insLeafSorted_mem krid [c, d] e he with h | h
      · rw [h]
        show strncmp10 c.1 (strncpy10 krid.key) ≤ 0
        rw [strncmp10_norm_right]
        exact le_of_lt hkc
      · rcases List.mem_cons.mp h with h2 | h2
        · rw [h2]
          exact le_of_eq (strncmpN_refl STRINGSIZE c.1)
        · simp at h2
          rw [h2]
          exact le_of_lt hcd

/-- `splitNonLeafNode` on a full dense sorted node: the old node keeps the
first two of the five sorted routers, the third is promoted with its child
becoming the new node's first child, and the new node keeps the last
two. -/
theorem splitNonLeafNode_dense (n : NonLeafNode) (sk : PageKeyPair)
    (front : List (Key × Nat)) (hdn : IsDenseNL n front)
    (hfull : front.length = NON_LEAF_NUM_KEYS)
    (hsort : List.Pairwise (fun a b => strncmp10 a.1 b.1 < 0) front)
    (hdist : ∀ p ∈ front, strncmp10 p.1 sk.key ≠ 0)
    (hpn : sk.pageNo ≠ INVALID_NUMBER) :
    splitNonLeafNode n sk =
      ({ level := n.level, firstPageNo := n.firstPageNo,
         slots := ((insNLSorted sk front).take 2 ++
           List.replicate 2 emptyNLSlot) },
       { level := n.level,
         firstPageNo := ((insNLSorted sk front).getD 2 emptyNLSlot).2,
         slots := ((insNLSorted sk front).drop 3 ++
           List.replicate 2 emptyNLSlot) },
       ((insNLSorted sk front).getD 2 emptyNLSlot).1) := by
  rcases front with _ | ⟨f0, _ | ⟨f1, _ | ⟨f2, _ | ⟨f3, rest⟩⟩⟩⟩ <;>
    simp only [List.length_cons, List.length_nil, NON_LEAF_NUM_KEYS]
      at hfull <;>
    try omega
  have hrest : rest = [] := by
    cases rest with
    | nil => rfl
    | cons x xs => simp at hfull
  subst hrest
  have hsl : n.slots = [f0, f1, f2, f3] := by simpa using hdn.1
  obtain ⟨h0s, hsort⟩ := List.pairwise_cons.mp hsort
  obtain ⟨h1s, _⟩ := List.pairwise_cons.mp hsort
  have h02 : strncmp10 f0.1 f2.1 < 0 := h0s f2 (by simp)
  have h12 : strncmp10 f1.1 f2.1 < 0 := h1s f2 (by simp)
  have hocc := hdn.2.2
  have ho0 : f0.2 ≠ INVALID_NUMBER := hocc f0 (by simp)
  have ho1 : f1.2 ≠ INVALID_NUMBER := hocc f1 (by simp)
  have ho2 : f2.2 ≠ INVALID_NUMBER := hocc f2 (by simp)
  have ho3 : f3.2 ≠ INVALID_NUMBER := hocc f3 (by simp)
  have hins1 : insertInRoomyNonLeafGo sk
      ([f0, f1] ++ List.replicate (1 + 1) emptyNLSlot) =
      insNLSorted sk [f0, f1] ++ List.replicate 1 emptyNLSlot :=
    insertInRoomyNonLeafGo_dense sk [f0, f1] 1 (by
      intro p hp
      rcases List.mem_pair.mp hp with h | h <;> rw [h]
      · exact ho0
      · exact ho1)
  have hins2 : insertInRoomyNonLeafGo sk
      ([f2, f3] ++ List.replicate (1 + 1) emptyNLSlot) =
      insNLSorted sk [f2, f3] ++ List.replicate 1 emptyNLSlot :=
    insertInRoomyNonLeafGo_dense sk [f2, f3] 1 (by
      intro p hp
      rcases List.mem_pair.mp hp with h | h <;> rw [h]
      · exact ho2
      · exact ho3)
  have hi1len : (insNLSorted sk [f0, f1]).length = 3 := by
    rw [insNLSorted_length]
    rfl
  have hi2len : (insNLSorted sk [f2, f3]).length = 3 := by
    rw [insNLSorted_length]
    rfl
  have hi1occ : ∀ p ∈ insNLSorted sk [f0, f1], p.2 ≠ INVALID_NUMBER :=
    insNLSorted_occ sk [f0, f1] (by
      intro p hp
      rcases List.mem_pair.mp hp with h | h <;> rw [h]
      · exact ho0
      · exact ho1) hpn
  have hi2occ : ∀ p ∈ insNLSorted sk [f2, f3], p.2 ≠ INVALID_NUMBER :=
    insNLSorted_occ sk [f2, f3] (by
      intro p hp
      rcases List.mem_pair.mp hp with h | h <;> rw [h]
      · exact ho2
      · exact ho3) hpn
  rcases hi1 : insNLSorted sk [f0, f1] with _ | ⟨a0, _ | ⟨a1, _ | ⟨a2, arest⟩⟩⟩ <;>
    rw [hi1] at hi1len <;>
    simp only [List.length_cons, List.length_nil] at hi1len <;>
    try omega
  have harest : arest = [] := by
    cases arest with
    | nil => rfl
    | cons x xs => simp at hi1len
  subst harest
  rcases hi2 : insNLSorted sk [f2, f3] with _ | ⟨b0, _ | ⟨b1, _ | ⟨b2, brest⟩⟩⟩ <;>
    rw [hi2] at hi2len <;>
    simp only [List.length_cons, List.length_nil] at hi2len <;>
    try omega
  have hbrest : brest = [] := by
    cases brest with
    | nil => rfl
    | cons x xs => simp at hi2len
  subst hbrest
  have ha0occ : a0.2 ≠ INVALID_NUMBER := hi1occ a0 (by rw [hi1]; simp)
  have ha1occ : a1.2 ≠ INVALID_NUMBER := hi1occ a1 (by rw [hi1]; simp)
  have ha2occ : a2.2 ≠ INVALID_NUMBER := hi1occ a2 (by rw [hi1]; simp)
  have hb0occ : b0.2 ≠ INVALID_NUMBER := hi2occ b0 (by rw [hi2]; simp)
  have hb1occ : b1.2 ≠ INVALID_NUMBER := hi2occ b1 (by rw [hi2]; simp)
  have hb2occ : b2.2 ≠ INVALID_NUMBER := hi2occ b2 (by rw [hi2]; simp)
  rw [splitNonLeafNode]
  simp only [hsl, NON_LEAF_NUM_KEYS, insertInRoomyNonLeaf, nlKeyAt]
  simp only [List.drop_succ_cons, List.drop_zero, List.take_succ_cons,
    List.take_zero, List.getD_cons_zero, List.getD_cons_succ,
    List.cons_append, List.nil_append]
  have hrepl : List.replicate (4 / 2) emptyNLSlot =
      [emptyNLSlot, emptyNLSlot] := by decide
  rw [hrepl]
  by_cases hcmp : strncmp10 sk.key f2.1 < 0
  · have hfive : insNLSorted sk [f0, f1, f2, f3] =
        [a0, a1, a2, f2, f3] := by
      have h5 : insNLSorted sk ([f0, f1] ++ f2 :: [f3]) =
          insNLSorted sk [f0, f1] ++ f2 :: [f3] :=
        insNLSorted_append_left sk [f0, f1] f2 [f3] hcmp
      rw [hi1] at h5
      simpa using h5
    rw [if_pos hcmp]
    have hgo1 : insertInRoomyNonLeafGo sk
        [f0, f1, emptyNLSlot, emptyNLSlot] = [a0, a1, a2, emptyNLSlot] := by
      have h2 := hins1
      rw [hi1] at h2
      simpa using h2
    rw [hgo1]
    have hlen3 : getNonLeafLengthGo [a0, a1, a2, emptyNLSlot] = 3 := by
      rw [show ([a0, a1, a2, emptyNLSlot] : List (Key × Nat)) =
        [a0, a1, a2] ++ List.replicate 1 emptyNLSlot by simp]
      rw [getNonLeafLengthGo_dense [a0, a1, a2] 1 (by
        intro p hp
        rcases List.mem_cons.mp hp with h | hp2
        · rw [h]; exact ha0occ
        · rcases List.mem_pair.mp hp2 with h | h <;> rw [h]
          · exact ha1occ
          · exact ha2occ)]
      rfl
    simp only [getNonLeafLength, hlen3, hfive]
    simp only [List.take_succ_cons, List.take_zero, List.drop_succ_cons,
      List.drop_zero, List.getD_cons_succ, List.getD_cons_zero,
      List.cons_append, List.nil_append]
    rfl
  · have hf2k : strncmp10 f2.1 sk.key < 0 := by
      have hne := hdist f2 (by simp)
      have := strncmp10_flip sk.key f2.1
      omega
    have hb0f2 : b0 = f2 := by
      have : insNLSorted sk [f2, f3] = f2 :: insNLSorted sk [f3] := by
        rw [insNLSorted, if_neg (by omega)]
      rw [this] at hi2
      exact (List.cons.injEq _ _ _ _ ▸ hi2).1.symm ▸ rfl
    have hfive : insNLSorted sk [f0, f1, f2, f3] =
        [f0, f1, b0, b1, b2] := by
      have h5 : insNLSorted sk ([f0, f1] ++ [f2, f3]) =
          [f0, f1] ++ insNLSorted sk [f2, f3] := by
        refine insNLSorted_append_right sk [f0, f1] [f2, f3] ?_
        intro p hp
        rcases List.mem_pair.mp hp with h | h <;> rw [h]
        · exact strncmp10_lt_of_lt_of_le _ _ _ h02 (le_of_lt hf2k)
        · exact strncmp10_lt_of_lt_of_le _ _ _ h12 (le_of_lt hf2k)
      rw [hi2] at h5
      simpa using h5
    rw [if_neg hcmp]
    have hgo2 : insertInRoomyNonLeafGo sk
        [f2, f3, emptyNLSlot, emptyNLSlot] = [b0, b1, b2, emptyNLSlot] := by
      have h2 := hins2
      rw [hi2] at h2
      simpa using h2
    rw [hgo2]
    have hlen3 : getNonLeafLengthGo [b0, b1, b2, emptyNLSlot] = 3 := by
      rw [show ([b0, b1, b2, emptyNLSlot] : List (Key × Nat)) =
        [b0, b1, b2] ++ List.replicate 1 emptyNLSlot by simp]
      rw [getNonLeafLengthGo_dense [b0, b1, b2] 1 (by
        intro p hp
        rcases List.mem_cons.mp hp with h | hp2
        · rw [h]; exact hb0occ
        · rcases List.mem_pair.mp hp2 with h | h <;> rw [h]
          · exact hb1occ
          · exact hb2occ)]
      rfl
    simp only [getNonLeafLength, hlen3, hfive]
    simp only [List.take_succ_cons, List.take_zero, List.drop_succ_cons,
      List.drop_zero, List.getD_cons_succ, List.getD_cons_zero,
      List.cons_append, List.nil_append]

/-! ### Positional view of an internal node's children -/

/-- Child `j` of a node: `pageNoArray[j]` in the paired representation. -/
def childAt (c : Nat) (front : List (Key × Nat)) : Nat → Nat
  | 0 => c
  | i + 1 => (front.getD i emptyNLSlot).2

/-- Lower bound of child `j`'s key range. -/
def bLo (lo : Option Key) (front : List (Key × Nat)) : Nat → Option Key
  | 0 => lo
  | i + 1 => some (front.getD i emptyNLSlot).1

/-- Upper bound of child `j`'s key range. -/
def bHi (hi : Option Key) (front : List (Key × Nat)) (j : Nat) : Option Key :=
  if j < front.length then some (front.getD j emptyNLSlot).1 else hi

theorem childAt_cons (c : Nat) (k : Key) (c2 : Nat)
    (rest : List (Key × Nat)) (j : Nat) :
    childAt c ((k, c2) :: rest) (j + 1) = childAt c2 rest j := by
  cases j with
  | zero => rfl
  | succ i => rfl

theorem bLo_cons (lo : Option Key) (k : Key) (c2 : Nat)
    (rest : List (Key × Nat)) (j : Nat) :
    bLo lo ((k, c2) :: rest) (j + 1) = bLo (some k) rest j := by
  cases j with
  | zero => rfl
  | succ i => rfl

theorem bHi_cons (hi : Option Key) (k : Key) (c2 : Nat)
    (rest : List (Key × Nat)) (j : Nat) :
    bHi hi ((k, c2) :: rest) (j + 1) = bHi hi rest j := by
  rw [bHi, bHi, List.length_cons]
  by_cases h : j < rest.length
  · rw [if_pos (by omega), if_pos h, List.getD_cons_succ]
  · rw [if_neg (by omega), if_neg h]

theorem pageNoAt_dense (n : NonLeafNode) (front : List (Key × Nat))
    (hdn : IsDenseNL n front) (j : Nat) (hj : j ≤ front.length) :
    pageNoAt n j = childAt n.firstPageNo front j := by
  cases j with
  | zero => rfl
  | succ i =>
    rw [pageNoAt, if_neg (by omega), childAt, hdn.1, getD_front_replicate,
      if_pos (by omega)]
    rfl

theorem nlKeyAt_dense (n : NonLeafNode) (front : List (Key × Nat))
    (hdn : IsDenseNL n front) (i : Nat) (hi : i < front.length) :
    nlKeyAt n i = (front.getD i emptyNLSlot).1 := by
  rw [nlKeyAt, hdn.1, getD_front_replicate, if_pos hi]

theorem wfSegP_at (P : Nat → Option Key → Option Key → Prop) :
    ∀ (front : List (Key × Nat)) (lo : Option Key) (c : Nat)
      (hi : Option Key) (j : Nat),
    WfSegP P lo c front hi → j ≤ front.length →
    P (childAt c front j) (bLo lo front j) (bHi hi front j) := by
  intro front
  induction front with
  | nil =>
    intro lo c hi j hw hj
    have hj0 : j = 0 := by simpa using hj
    subst hj0
    exact hw
  | cons p rest ih =>
    intro lo c hi j hw hj
    obtain ⟨ky, c2⟩ := p
    obtain ⟨h1, h2, h3⟩ := hw
    cases j with
    | zero =>
      rw [bHi, if_pos (by simp), List.getD_cons_zero]
      exact h1
    | succ j =>
      rw [childAt_cons, bLo_cons, bHi_cons]
      exact ih (some ky) c2 hi j h3 (by
        rw [List.length_cons] at hj
        omega)

theorem wfSegP_pos_mono (P Q : Nat → Option Key → Option Key → Prop) :
    ∀ (front : List (Key × Nat)) (lo : Option Key) (c : Nat)
      (hi : Option Key),
    WfSegP P lo c front hi →
    (∀ i, i ≤ front.length → ∀ lo' hi',
      P (childAt c front i) lo' hi' → Q (childAt c front i) lo' hi') →
    WfSegP Q lo c front hi := by
  intro front
  induction front with
  | nil =>
    intro lo c hi hw ht
    exact ht 0 (by simp) lo hi hw
  | cons p rest ih =>
    intro lo c hi hw ht
    obtain ⟨ky, c2⟩ := p
    obtain ⟨h1, h2, h3⟩ := hw
    refine ⟨ht 0 (by simp) lo (some ky) h1, h2, ?_⟩
    refine ih (some ky) c2 hi h3 ?_
    intro i hile lo' hi' hp
    have := ht (i + 1) (by rw [List.length_cons]; omega) lo' hi'
    rw [childAt_cons] at this
    exact this hp

theorem wfSegP_update (P Q : Nat → Option Key → Option Key → Prop) :
    ∀ (front : List (Key × Nat)) (lo : Option Key) (c : Nat)
      (hi : Option Key) (j : Nat),
    WfSegP P lo c front hi → j ≤ front.length →
    Q (childAt c front j) (bLo lo front j) (bHi hi front j) →
    (∀ i, i ≤ front.length → i ≠ j → ∀ lo' hi',
      P (childAt c front i) lo' hi' → Q (childAt c front i) lo' hi') →
    WfSegP Q lo c front hi := by
  intro front
  induction front with
  | nil =>
    intro lo c hi j hw hj hq ht
    have hj0 : j = 0 := by simpa using hj
    subst hj0
    exact hq
  | cons p rest ih =>
    intro lo c hi j hw hj hq ht
    obtain ⟨ky, c2⟩ := p
    obtain ⟨h1, h2, h3⟩ := hw
    cases j with
    | zero =>
      rw [bHi, if_pos (by simp), List.getD_cons_zero] at hq
      refine ⟨hq, h2, ?_⟩
      refine wfSegP_pos_mono P Q rest (some ky) c2 hi h3 ?_
      intro i hile lo' hi' hp
      have := ht (i + 1) (by rw [List.length_cons]; omega)
        (by omega) lo' hi'
      rw [childAt_cons] at this
      exact this hp
    | succ j =>
      rw [childAt_cons, bLo_cons, bHi_cons] at hq
      refine ⟨?_, h2, ?_⟩
      · have := ht 0 (by simp) (by omega) lo (some ky)
        exact this h1
      · refine ih (some ky) c2 hi j h3 (by
          rw [List.length_cons] at hj
          omega) hq ?_
        intro i hile hij lo' hi' hp
        have := ht (i + 1) (by rw [List.length_cons]; omega)
          (by omega) lo' hi'
        rw [childAt_cons] at this
        exact this hp

theorem wfSegP_split (P Q : Nat → Option Key → Option Key → Prop)
    (sk : PageKeyPair) (hskn : strncpy10 sk.key = sk.key) :
    ∀ (front : List (Key × Nat)) (lo : Option Key) (c : Nat)
      (hi : Option Key) (j : Nat),
    WfSegP P lo c front hi →
    List.Pairwise (fun a b => strncmp10 a.1 b.1 < 0) front →
    j ≤ front.length →
    loLt (bLo lo front j) sk.key →
    hiGt sk.key (bHi hi front j) →
    Q (childAt c front j) (bLo lo front j) (some sk.key) →
    Q sk.pageNo (some sk.key) (bHi hi front j) →
    (∀ i, i ≤ front.length → i ≠ j → ∀ lo' hi',
      P (childAt c front i) lo' hi' → Q (childAt c front i) lo' hi') →
    WfSegP Q lo c (insNLSorted sk front) hi := by
  intro front
  induction front with
  | nil =>
    intro lo c hi j hw hsort hj hlo hhi hqL hqR ht
    have hj0 : j = 0 := by simpa using hj
    subst hj0
    show WfSegP Q lo c [(strncpy10 sk.key, sk.pageNo)] hi
    rw [hskn]
    exact ⟨hqL, ⟨hlo, hhi, hskn.symm⟩, hqR⟩
  | cons p rest ih =>
    intro lo c hi j hw hsort hj hlo hhi hqL hqR ht
    obtain ⟨ky, c2⟩ := p
    obtain ⟨h1, hr, h3⟩ := hw
    obtain ⟨hshead, hsrest⟩ := List.pairwise_cons.mp hsort
    cases j with
    | zero =>
      have hhi' : strncmp10 sk.key ky < 0 := by
        have h2 := hhi
        rw [bHi, if_pos (by simp), List.getD_cons_zero] at h2
        exact h2
      have hqR' : Q sk.pageNo (some sk.key) (some ky) := by
        have h2 := hqR
        rw [bHi, if_pos (by simp), List.getD_cons_zero] at h2
        exact h2
      have hky : 0 < strncmp10 ky sk.key := by
        have := strncmp10_flip sk.key ky
        omega
      show WfSegP Q lo c (insNLSorted sk ((ky, c2) :: rest)) hi
      rw [insNLSorted, if_pos (by omega), hskn]
      refine ⟨hqL, ⟨hlo, ?_, hskn.symm⟩, hqR', ⟨hhi', hr.2.1, hr.2.2⟩, ?_⟩
      · cases hi with
        | none => trivial
        | some y =>
          exact strncmp10_lt_of_lt_of_le _ _ _ hhi' (le_of_lt hr.2.1)
      · refine wfSegP_pos_mono P Q rest (some ky) c2 hi h3 ?_
        intro i hile lo' hi' hp
        have h4 := ht (i + 1) (by rw [List.length_cons]; omega)
          (by omega) lo' hi'
        rw [childAt_cons] at h4
        exact h4 hp
    | succ j =>
      have hlo' : loLt (bLo (some ky) rest j) sk.key := by
        have h2 := hlo
        rw [bLo_cons] at h2
        exact h2
      have hky : strncmp10 ky sk.key < 0 := by
        cases j with
        | zero => exact hlo'
        | succ i =>
          have hilen : i < rest.length := by
            rw [List.length_cons] at hj
            omega
          have hmem : rest.getD i emptyNLSlot ∈ rest := by
            rw [List.getD_eq_getElem rest emptyNLSlot hilen]
            exact List.getElem_mem hilen
          have h5 : strncmp10 ky (rest.getD i emptyNLSlot).1 < 0 :=
            hshead _ hmem
          have h6 : strncmp10 (rest.getD i emptyNLSlot).1 sk.key < 0 := by
            have h2 := hlo'
            rw [bLo] at h2
            exact h2
          exact strncmp10_lt_of_lt_of_le _ _ _ h5 (le_of_lt h6)
      show WfSegP Q lo c (insNLSorted sk ((ky, c2) :: rest)) hi
      rw [insNLSorted, if_neg (by omega)]
      refine ⟨ht 0 (by simp) (by omega) lo (some ky) h1, hr, ?_⟩
      refine ih (some ky) c2 hi j h3 hsrest (by
        rw [List.length_cons] at hj
        omega) hlo' (by
        have h2 := hhi
        rw [bHi_cons] at h2
        exact h2) (by
        have h2 := hqL
        rw [childAt_cons, bLo_cons] at h2
        exact h2) (by
        have h2 := hqR
        rw [bHi_cons] at h2
        exact h2) ?_
      intro i hile hij lo' hi' hp
      have h4 := ht (i + 1) (by rw [List.length_cons]; omega)
        (by omega) lo' hi'
      rw [childAt_cons] at h4
      exact h4 hp

theorem segEntries_eq_flatMap (s : BTState) (h c : Nat)
    (front : List (Key × Nat)) :
    segEntries s h c front =
      ((c :: front.map (fun p => p.2)).flatMap (entriesOf s h)) := by
  rw [segEntries, List.flatMap_cons,
    List.flatMap_map (fun p => p.2) (entriesOf s h) front]

theorem segEntries_good (h : Nat) (s : BTState)
    (front : List (Key × Nat)) (lo : Option Key) (c : Nat)
    (hi : Option Key) (hw : WfSegP (WfTree s h) lo c front hi) :
    List.Pairwise (fun a b => strncmp10 a.1 b.1 < 0)
      (segEntries s h c front) ∧
    ∀ e ∈ segEntries s h c front, goodLeafKey lo hi e.1 :=
  segP_entries h s (fun c' lo' hi' hc => entriesOf_good h s c' lo' hi' hc)
    front lo c hi hw

theorem flatMap_eq_take_drop {α β : Type} (f : α → List β) (l : List α)
    (j : Nat) (hj : j < l.length) (d : α) :
    l.flatMap f = (l.take j).flatMap f ++ (f (l.getD j d) ++
      (l.drop (j + 1)).flatMap f) := by
  conv_lhs => rw [← List.take_append_drop j l]
  rw [List.flatMap_append, List.drop_eq_getElem_cons hj,
    List.flatMap_cons, List.getD_eq_getElem l d hj]

theorem entries_before_lt (h : Nat) (s : BTState) :
    ∀ (front : List (Key × Nat)) (lo : Option Key) (c : Nat)
      (hi : Option Key) (j : Nat),
    WfSegP (WfTree s h) lo c front hi → j ≤ front.length → 0 < j →
    ∀ e ∈ (((c :: front.map (fun p => p.2)).take j).flatMap
        (entriesOf s h)),
      strncmp10 e.1 (front.getD (j - 1) emptyNLSlot).1 < 0 := by
  intro front
  induction front with
  | nil =>
    intro lo c hi j hw hj hj0
    rw [List.length_nil] at hj
    omega
  | cons p rest ih =>
    intro lo c hi j hw hj hj0 e he
    obtain ⟨ky, c2⟩ := p
    obtain ⟨h1, hr, h3⟩ := hw
    cases j with
    | zero => omega
    | succ j =>
      rw [List.map_cons, List.take_succ_cons, List.flatMap_cons] at he
      have heky : ∀ e2 ∈ entriesOf s h c, strncmp10 e2.1 ky < 0 := by
        intro e2 he2
        exact ((entriesOf_good h s c lo (some ky) h1).2 e2 he2).2.1
      cases j with
      | zero =>
        simp only [List.take_zero, List.flatMap_nil, List.append_nil] at he
        rw [Nat.add_sub_cancel, List.getD_cons_zero]
        exact heky e he
      | succ i =>
        have hilen : i < rest.length := by
          rw [List.length_cons] at hj
          omega
        have htarget : ((ky, c2) :: rest).getD (i + 1 + 1 - 1) emptyNLSlot =
            rest.getD i emptyNLSlot := by
          rw [Nat.add_sub_cancel, List.getD_cons_succ]
        rw [htarget]
        have hkylt : strncmp10 ky (rest.getD i emptyNLSlot).1 < 0 := by
          have hmem : rest.getD i emptyNLSlot ∈ rest := by
            rw [List.getD_eq_getElem rest emptyNLSlot hilen]
            exact List.getElem_mem hilen
          exact ((wfSegP_routers (WfTree s h) rest (some ky) c2 hi h3).2
            _ hmem).1
        rcases List.mem_append.mp he with hl | hrr
        · exact strncmp10_lt_of_lt_of_le _ _ _ (heky e hl)
            (le_of_lt hkylt)
        · have := ih (some ky) c2 hi (i + 1) h3 (by
            rw [List.length_cons] at hj
            omega) (by omega) e hrr
          rw [Nat.add_sub_cancel] at this
          exact this

theorem entries_after_ge (h : Nat) (s : BTState) :
    ∀ (front : List (Key × Nat)) (lo : Option Key) (c : Nat)
      (hi : Option Key) (j : Nat),
    WfSegP (WfTree s h) lo c front hi → j < front.length →
    ∀ e ∈ (((c :: front.map (fun p => p.2)).drop (j + 1)).flatMap
        (entriesOf s h)),
      strncmp10 (front.getD j emptyNLSlot).1 e.1 ≤ 0 := by
  intro front
  induction front with
  | nil =>
    intro lo c hi j hw hj
    simp at hj
  | cons p rest ih =>
    intro lo c hi j hw hj e he
    obtain ⟨ky, c2⟩ := p
    obtain ⟨h1, hr, h3⟩ := hw
    cases j with
    | zero =>
      rw [List.map_cons, List.drop_succ_cons, List.drop_zero] at he
      rw [List.getD_cons_zero]
      have hseg : e ∈ segEntries s h c2 rest := by
        rw [segEntries_eq_flatMap]
        exact he
      exact ((segEntries_good h s rest (some ky) c2 hi h3).2 e hseg).1
    | succ j =>
      rw [List.map_cons, List.drop_succ_cons] at he
      rw [List.getD_cons_succ]
      exact ih (some ky) c2 hi j h3 (by
        rw [List.length_cons] at hj
        omega) e he

theorem headD_append_left {α : Type} (A B : List α) (d : α)
    (hA : A ≠ []) : (A ++ B).headD d = A.headD d := by
  cases A with
  | nil => exact absurd rfl hA
  | cons a A => rfl

theorem childAt_mem (c : Nat) (front : List (Key × Nat)) (j : Nat)
    (hj : j ≤ front.length) :
    childAt c front j ∈ c :: front.map (fun p => p.2) := by
  cases j with
  | zero => simp [childAt]
  | succ i =>
    rw [childAt]
    refine List.mem_cons_of_mem _ ?_
    rw [List.getD_eq_getElem front emptyNLSlot (by omega)]
    exact List.mem_map_of_mem _ (List.getElem_mem (by omega))

theorem nodup_of_flatMap_mem {α β : Type} (f : α → List β) :
    ∀ (l : List α), (l.flatMap f).Nodup → ∀ a ∈ l, (f a).Nodup := by
  intro l
  induction l with
  | nil => intro _ a ha; simp at ha
  | cons x rest ih =>
    intro hnd a ha
    rw [List.flatMap_cons, List.nodup_append] at hnd
    rcases List.mem_cons.mp ha with h | h
    · rw [h]; exact hnd.1
    · exact ih hnd.2.1 a h

theorem treePids_children (s : BTState) (h pid : Nat) (n : NonLeafNode)
    (front : List (Key × Nat)) (hp : s.pages pid = .nonleaf n)
    (hdn : IsDenseNL n front) :
    treePids s (h + 1) pid =
      pid :: (n.firstPageNo :: front.map (fun p => p.2)).flatMap
        (treePids s h) := by
  have hn : getNonLeaf s pid = n := by rw [getNonLeaf, hp]
  rw [treePids, hn, nlRep_dense n front hdn]

theorem leafSeq_children (s : BTState) (h pid : Nat) (n : NonLeafNode)
    (front : List (Key × Nat)) (hp : s.pages pid = .nonleaf n)
    (hdn : IsDenseNL n front) :
    leafSeq s (h + 1) pid =
      (n.firstPageNo :: front.map (fun p => p.2)).flatMap
        (leafSeq s h) := by
  have hn : getNonLeaf s pid = n := by rw [getNonLeaf, hp]
  rw [leafSeq, hn, nlRep_dense n front hdn]

theorem entriesOf_children (s : BTState) (h pid : Nat) (n : NonLeafNode)
    (front : List (Key × Nat)) (hp : s.pages pid = .nonleaf n)
    (hdn : IsDenseNL n front) :
    entriesOf s (h + 1) pid =
      (n.firstPageNo :: front.map (fun p => p.2)).flatMap
        (entriesOf s h) := by
  rw [entriesOf_nonleaf s h pid n front hp hdn, segEntries_eq_flatMap]

/-! ### The contract of one insertion step -/

/-- All scan-cursor fields agree (insertion never touches them). -/
def ScanFieldsEq (s t : BTState) : Prop :=
  s.scanExecuting = t.scanExecuting ∧ s.nextEntry = t.nextEntry ∧
  s.currentPageNum = t.currentPageNum ∧ s.lowVal = t.lowVal ∧
  s.highVal = t.highVal ∧ s.lowOp = t.lowOp ∧ s.highOp = t.highOp

/-- State-level facts common to every outcome of an insertion into the
subtree at `pid` (height `h`). -/
def CommonOut (s s' : BTState) (h pid : Nat) : Prop :=
  ScanFieldsEq s' s ∧ s'.headerPageNum = s.headerPageNum ∧
  s.nextPage ≤ s'.nextPage ∧
  (∀ q, q ∉ treePids s h pid → q ≠ s.headerPageNum → q < s.nextPage →
    s'.pages q = s.pages q)

/-- Outcome of an insertion absorbed inside the subtree at `pid`. -/
def AbsorbOut (krid : RIDKeyPair) (s s' : BTState) (h pid : Nat)
    (lo hi : Option Key) : Prop :=
  WfTree s' h pid lo hi ∧
  entriesOf s' h pid = insLeafSorted krid (entriesOf s h pid) ∧
  (∀ p ∈ treePids s' h pid,
    p ∈ treePids s h pid ∨ (s.nextPage ≤ p ∧ p < s'.nextPage)) ∧
  (treePids s' h pid).Nodup ∧
  (leafSeq s' h pid).headD 0 = (leafSeq s h pid).headD 0 ∧
  (∀ nxt, ChainTo s (leafSeq s h pid) nxt →
    ChainTo s' (leafSeq s' h pid) nxt) ∧
  (∀ k, k ≤ 1 → NEFrom s (leafSeq s h pid) k →
    NEFrom s' (leafSeq s' h pid) k)

/-- Outcome of an insertion that split the subtree at `pid`, promoting
the router `sk` to the caller. -/
def SplitOut (krid : RIDKeyPair) (s s' : BTState) (h pid : Nat)
    (lo hi : Option Key) (sk : PageKeyPair) : Prop :=
  s.nextPage ≤ sk.pageNo ∧ sk.pageNo < s'.nextPage ∧
  sk.pageNo ≠ INVALID_NUMBER ∧
  sk.key = strncpy10 sk.key ∧ goodRouterKey lo hi sk.key ∧
  WfTree s' h pid lo (some sk.key) ∧
  WfTree s' h sk.pageNo (some sk.key) hi ∧
  entriesOf s' h pid ++ entriesOf s' h sk.pageNo =
    insLeafSorted krid (entriesOf s h pid) ∧
  (∀ p ∈ treePids s' h pid ++ treePids s' h sk.pageNo,
    p ∈ treePids s h pid ∨ (s.nextPage ≤ p ∧ p < s'.nextPage)) ∧
  (treePids s' h pid ++ treePids s' h sk.pageNo).Nodup ∧
  (leafSeq s' h pid).headD 0 = (leafSeq s h pid).headD 0 ∧
  (∀ nxt, ChainTo s (leafSeq s h pid) nxt →
    ChainTo s' (leafSeq s' h pid ++ leafSeq s' h sk.pageNo) nxt) ∧
  (∀ k, k ≤ 1 → NEFrom s (leafSeq s h pid) k →
    NEFrom s' (leafSeq s' h pid ++ leafSeq s' h sk.pageNo) k)

/-- The full contract of one insertion call on the subtree at `pid`. -/
def ChildOut (krid : RIDKeyPair) (s : BTState) (h pid : Nat)
    (lo hi : Option Key) (res : Option PageKeyPair × BTState) : Prop :=
  CommonOut s res.2 h pid ∧
  (res.1 = none → res.2.rootPageNum = s.rootPageNum ∧
    AbsorbOut krid s res.2 h pid lo hi) ∧
  (∀ sk, res.1 = some sk → res.2.rootPageNum = s.rootPageNum ∧
    SplitOut krid s res.2 h pid lo hi sk)


theorem child_out_leaf (s : BTState) (krid : RIDKeyPair) (lp : Nat)
    (lo hi : Option Key) (hw : WfTree s 0 lp lo hi)
    (hlo : loLe lo krid.key) (hhi : hiGt krid.key hi)
    (hrid : krid.rid.page_number ≠ INVALID_NUMBER)
    (hd : ∀ e ∈ entriesOf s 0 lp, strncmp10 e.1 krid.key ≠ 0)
    (hlp : lp ≠ INVALID_NUMBER) (hlt : lp < s.nextPage) :
    ChildOut krid s 0 lp lo hi (insertInLeaf s krid lp) := by
  obtain ⟨l, front, hp, hdn, hsort, hgood⟩ := hw
  have hlp0 : lp ≠ 0 := hlp
  have hfe : entriesOf s 0 lp = front := by
    rw [entriesOf_leaf s lp l hp, leafRep_dense l front hdn]
  have hdf : ∀ e ∈ front, strncmp10 e.1 krid.key ≠ 0 := by
    rw [← hfe]; exact hd
  have hlen4 := hdn.2.1
  by_cases hroom : front.length < LEAF_NUM_KEYS
  · -- the leaf absorbs the pair
    have heq := insertInLeaf_roomy s krid lp l front hp hdn hroom
    have hres1 : (insertInLeaf s krid lp).1 = none := by rw [heq]
    have hres2 : (insertInLeaf s krid lp).2 =
        { s with
          pages := Function.update s.pages lp (PageData.leaf
            { l with slots := (insLeafSorted krid front ++
                List.replicate (LEAF_NUM_KEYS - front.length - 1)
                  emptyLeafSlot) })
          pins := (insertInLeaf s krid lp).2.pins } := by
      conv_lhs => rw [heq]
    have hp' : (insertInLeaf s krid lp).2.pages lp = PageData.leaf
        { l with slots := (insLeafSorted krid front ++
            List.replicate (LEAF_NUM_KEYS - front.length - 1)
              emptyLeafSlot) } := by
      rw [hres2]
      exact Function.update_same lp _ s.pages
    have hdn' : IsDenseLeaf
        { l with slots := (insLeafSorted krid front ++
            List.replicate (LEAF_NUM_KEYS - front.length - 1)
              emptyLeafSlot) } (insLeafSorted krid front) := by
      refine ⟨?_, ?_, insLeafSorted_occ krid front hdn.2.2 hrid⟩
      · show (insLeafSorted krid front ++
            List.replicate (LEAF_NUM_KEYS - front.length - 1)
              emptyLeafSlot) = _
        rw [insLeafSorted_length, Nat.sub_sub]
      · rw [insLeafSorted_length]
        omega
    have hfe' : entriesOf (insertInLeaf s krid lp).2 0 lp =
        insLeafSorted krid front := by
      rw [entriesOf_leaf _ lp _ hp', leafRep_dense _ _ hdn']
    refine ⟨⟨?_, ?_, ?_, ?_⟩, ?_, ?_⟩
    · rw [hres2]
      exact ⟨rfl, rfl, rfl, rfl, rfl, rfl, rfl⟩
    · rw [hres2]
    · rw [hres2]
    · intro q hq hqh hqlt
      rw [hres2]
      show Function.update s.pages lp _ q = s.pages q
      rw [Function.update_noteq (by
        intro hqe
        exact hq (by rw [hqe]; exact List.mem_singleton.mpr rfl)) _ _]
    · intro _
      refine ⟨by rw [hres2], ?_, ?_, ?_, ?_, ?_, ?_, ?_⟩
      · exact ⟨_, insLeafSorted krid front, hp', hdn',
          insLeafSorted_sorted krid front hsort hdf,
          insLeafSorted_good krid front lo hi hgood hlo hhi⟩
      · rw [hfe', hfe]
      · intro p hpm
        exact Or.inl hpm
      · exact List.nodup_singleton lp
      · rfl
      · intro nxt hc
        show (getLeaf (insertInLeaf s krid lp).2 lp).rightSibPageNo = nxt
        rw [getLeaf, hp']
        show l.rightSibPageNo = nxt
        have h2 : (getLeaf s lp).rightSibPageNo = nxt := hc
        rw [getLeaf, hp] at h2
        exact h2
      · intro k hk hne p hpm
        have hpm2 : p ∈ ([lp] : List Nat) := by
          have h4 : p ∈ (leafSeq (insertInLeaf s krid lp).2 0 lp).drop k :=
            hpm
          rw [leafSeq] at h4
          exact List.mem_of_mem_drop h4
        have hpl : p = lp := by simpa using hpm2
        rw [hpl]
        show leafRep (getLeaf (insertInLeaf s krid lp).2 lp) ≠ []
        rw [getLeaf, hp', leafRep_dense _ _ hdn']
        intro hnil
        have h3 := insLeafSorted_length krid front
        rw [hnil] at h3
        simp at h3
    · intro sk hsk
      rw [hres1] at hsk
      exact absurd hsk (by simp)
  · -- the leaf is full: split
    have hfull : front.length = LEAF_NUM_KEYS := by omega
    have hky2mem : front.getD 2 emptyLeafSlot ∈ front := by
      rw [List.getD_eq_getElem front emptyLeafSlot (by
        rw [hfull]; decide)]
      exact List.getElem_mem (by rw [hfull]; decide)
    have hky2good := hgood _ hky2mem
    obtain ⟨cfront, nfront, heq, happ, hsum, h2le, hle3, hcb, hnb⟩ :=
      insertInLeaf_split s krid lp l front hp hdn hfull hsort hdf
        hky2good.2.2 hlt
    have hres1 : (insertInLeaf s krid lp).1 =
        some ⟨s.nextPage, (front.getD 2 emptyLeafSlot).1⟩ := by rw [heq]
    have hres2 : (insertInLeaf s krid lp).2 =
        { s with
          pages := Function.update (Function.update (Function.update
              s.pages s.nextPage (PageData.leaf emptyLeaf)) lp
              (PageData.leaf ⟨cfront ++ List.replicate
                (LEAF_NUM_KEYS - cfront.length) emptyLeafSlot,
                s.nextPage⟩))
            s.nextPage
            (PageData.leaf ⟨nfront ++ List.replicate
                (LEAF_NUM_KEYS - nfront.length) emptyLeafSlot,
                l.rightSibPageNo⟩)
          nextPage := s.nextPage + 1
          pins := (insertInLeaf s krid lp).2.pins } := by
      conv_lhs => rw [heq]
    have hnelp : lp ≠ s.nextPage := by omega
    have hpc : (insertInLeaf s krid lp).2.pages lp = PageData.leaf
        ⟨cfront ++ List.replicate (LEAF_NUM_KEYS - cfront.length)
          emptyLeafSlot, s.nextPage⟩ := by
      rw [hres2]
      show Function.update _ s.nextPage _ lp = _
      rw [Function.update_noteq hnelp, Function.update_same]
    have hpn : (insertInLeaf s krid lp).2.pages s.nextPage = PageData.leaf
        ⟨nfront ++ List.replicate (LEAF_NUM_KEYS - nfront.length)
          emptyLeafSlot, l.rightSibPageNo⟩ := by
      rw [hres2]
      exact Function.update_same _ _ _
    have hoccins : ∀ p ∈ insLeafSorted krid front,
        p.2.page_number ≠ INVALID_NUMBER :=
      insLeafSorted_occ krid front hdn.2.2 hrid
    have hsortins : List.Pairwise (fun a b => strncmp10 a.1 b.1 < 0)
        (insLeafSorted krid front) :=
      insLeafSorted_sorted krid front hsort hdf
    have hgoodins : ∀ p ∈ insLeafSorted krid front,
        goodLeafKey lo hi p.1 :=
      insLeafSorted_good krid front lo hi hgood hlo hhi
    have hcsub : ∀ p ∈ cfront, p ∈ insLeafSorted krid front := by
      intro p hpm
      rw [← happ]
      exact List.mem_append_left _ hpm
    have hnsub : ∀ p ∈ nfront, p ∈ insLeafSorted krid front := by
      intro p hpm
      rw [← happ]
      exact List.mem_append_right _ hpm
    have hclen4 : cfront.length ≤ LEAF_NUM_KEYS := by
      show cfront.length ≤ 4
      omega
    have hnlen4 : nfront.length ≤ LEAF_NUM_KEYS := by
      show nfront.length ≤ 4
      have h4 : cfront.length + nfront.length = 4 + 1 := hsum
      omega
    have hdnc : IsDenseLeaf
        ⟨cfront ++ List.replicate (LEAF_NUM_KEYS - cfront.length)
          emptyLeafSlot, s.nextPage⟩ cfront :=
      ⟨rfl, hclen4, fun p hpm => hoccins p (hcsub p hpm)⟩
    have hdnn : IsDenseLeaf
        ⟨nfront ++ List.replicate (LEAF_NUM_KEYS - nfront.length)
          emptyLeafSlot, l.rightSibPageNo⟩ nfront :=
      ⟨rfl, hnlen4, fun p hpm => hoccins p (hnsub p hpm)⟩
    have hsortc : List.Pairwise (fun a b => strncmp10 a.1 b.1 < 0)
        cfront := by
      have h2 := hsortins
      rw [← happ, List.pairwise_append] at h2
      exact h2.1
    have hsortn : List.Pairwise (fun a b => strncmp10 a.1 b.1 < 0)
        nfront := by
      have h2 := hsortins
      rw [← happ, List.pairwise_append] at h2
      exact h2.2.1
    have hnfne : nfront ≠ [] := by
      intro hnil
      rw [hnil] at hsum
      simp only [List.length_nil] at hsum
      omega
    have hcfne : cfront ≠ [] := by
      intro hnil
      rw [hnil] at h2le
      simp at h2le
    have hpg : (insertInLeaf s krid lp).2.pages =
        Function.update (Function.update (Function.update
            s.pages s.nextPage (PageData.leaf emptyLeaf)) lp
            (PageData.leaf ⟨cfront ++ List.replicate
              (LEAF_NUM_KEYS - cfront.length) emptyLeafSlot,
              s.nextPage⟩))
          s.nextPage
          (PageData.leaf ⟨nfront ++ List.replicate
              (LEAF_NUM_KEYS - nfront.length) emptyLeafSlot,
              l.rightSibPageNo⟩) := by
      rw [hres2]
    have hfec : entriesOf (insertInLeaf s krid lp).2 0 lp = cfront := by
      rw [entriesOf_leaf _ lp _ hpc, leafRep_dense _ _ hdnc]
    have hfen : entriesOf (insertInLeaf s krid lp).2 0 s.nextPage =
        nfront := by
      rw [entriesOf_leaf _ _ _ hpn, leafRep_dense _ _ hdnn]
    refine ⟨⟨?_, ?_, ?_, ?_⟩, ?_, ?_⟩
    · rw [hres2]
      exact ⟨rfl, rfl, rfl, rfl, rfl, rfl, rfl⟩
    · rw [hres2]
    · rw [hres2]
      show s.nextPage ≤ s.nextPage + 1
      omega
    · intro q hq hqh hqlt
      have hqn : q ≠ s.nextPage := by omega
      have hql : q ≠ lp := by
        intro hqe
        exact hq (by rw [hqe]; exact List.mem_singleton.mpr rfl)
      rw [hpg, Function.update_noteq hqn, Function.update_noteq hql,
        Function.update_noteq hqn]
    · intro hnone
      rw [hres1] at hnone
      exact absurd hnone (by simp)
    · intro sk hsk
      rw [hres1] at hsk
      have hskv : (⟨s.nextPage, (front.getD 2 emptyLeafSlot).1⟩ :
          PageKeyPair) = sk := Option.some_inj.mp hsk
      subst hskv
      have hnp' : (insertInLeaf s krid lp).2.nextPage = s.nextPage + 1 := by
        rw [hres2]
      have hnn0 : s.nextPage ≠ 0 := by omega
      have hfresh2 : s.nextPage < (insertInLeaf s krid lp).2.nextPage := by
        rw [hnp']
        omega
      refine ⟨by rw [hres2], le_refl _, hfresh2, hnn0,
        hky2good.2.2, ⟨?_, hky2good.2.1, hky2good.2.2⟩, ?_, ?_, ?_, ?_,
        ?_, ?_, ?_, ?_⟩
    -- loLt lo ky2: the first slot of the left half sits between them
      · obtain ⟨e0, cfront2, he0⟩ : ∃ e0 cfront2, cfront = e0 :: cfront2 := by
          cases cfront with
          | nil => exact absurd rfl hcfne
          | cons e0 cf2 => exact ⟨e0, cf2, rfl⟩
        have he0mem : e0 ∈ cfront := by rw [he0]; simp
        have he0good := hgoodins e0 (hcsub e0 he0mem)
        have he0lt := hcb e0 he0mem
        cases lo with
        | none => trivial
        | some x =>
          exact strncmp10_lt_of_le_of_lt _ _ _ he0good.1 he0lt
      · exact ⟨_, cfront, hpc, hdnc, hsortc, fun p hpm =>
          ⟨(hgoodins p (hcsub p hpm)).1, hcb p hpm,
           (hgoodins p (hcsub p hpm)).2.2⟩⟩
      · exact ⟨_, nfront, hpn, hdnn, hsortn, fun p hpm =>
          ⟨hnb p hpm, (hgoodins p (hnsub p hpm)).2.1,
           (hgoodins p (hnsub p hpm)).2.2⟩⟩
      · rw [hfec]
        show cfront ++ entriesOf (insertInLeaf s krid lp).2 0 s.nextPage =
          _
        rw [hfen, happ, hfe]
      · intro p hpm
        rcases List.mem_append.mp hpm with hm | hm
        · exact Or.inl hm
        · have hps : p = s.nextPage := by
            have h4 : p ∈ ([s.nextPage] : List Nat) := hm
            simpa using h4
          rw [hps]
          exact Or.inr ⟨le_refl _, hfresh2⟩
      · show ([lp] ++ [s.nextPage]).Nodup
        simp [hnelp]
      · rfl
      · intro nxt hc
        have hcl : (getLeaf s lp).rightSibPageNo = nxt := hc
        rw [getLeaf, hp] at hcl
        show ChainTo (insertInLeaf s krid lp).2 [lp, s.nextPage] nxt
        refine ⟨?_, ?_⟩
        · rw [getLeaf, hpc]
        · show (getLeaf (insertInLeaf s krid lp).2 s.nextPage).rightSibPageNo
            = nxt
          rw [getLeaf, hpn]
          exact hcl
      · intro k hk hne p hpm
        have hpm2 : p ∈ ([lp] ++ [s.nextPage] : List Nat) := by
          have h4 : p ∈ ((leafSeq (insertInLeaf s krid lp).2 0 lp ++
              leafSeq (insertInLeaf s krid lp).2 0 s.nextPage).drop k) :=
            hpm
          rw [leafSeq, leafSeq] at h4
          exact List.mem_of_mem_drop h4
        rcases List.mem_append.mp hpm2 with hm | hm
        · have hpl : p = lp := by simpa using hm
          rw [hpl]
          show leafRep (getLeaf (insertInLeaf s krid lp).2 lp) ≠ []
          rw [getLeaf, hpc, leafRep_dense _ _ hdnc]
          intro hnil
          exact hcfne hnil
        · have hpn2 : p = s.nextPage := by simpa using hm
          rw [hpn2]
          show leafRep (getLeaf (insertInLeaf s krid lp).2 s.nextPage) ≠ []
          rw [getLeaf, hpn, leafRep_dense _ _ hdnn]
          intro hnil
          exact hnfne hnil

/-! ### Routers on either side of the descent position -/

theorem mem_take_getElem {α : Type} (l : List α) (x : α) (j : Nat)
    (hx : x ∈ l.take j) : ∃ i, i < j ∧ ∃ hi : i < l.length, l[i] = x := by
  obtain ⟨i, hi, hget⟩ := List.mem_iff_getElem.mp hx
  have hlen := List.length_take j l
  have h1 : i < j := by omega
  have h2 : i < l.length := by omega
  refine ⟨i, h1, h2, ?_⟩
  rw [← hget]
  exact (List.getElem_take _).symm

theorem mem_drop_getElem {α : Type} (l : List α) (x : α) (j : Nat)
    (hx : x ∈ l.drop j) : ∃ i, j ≤ i ∧ ∃ hi : i < l.length, l[i] = x := by
  obtain ⟨i, hi, hget⟩ := List.mem_iff_getElem.mp hx
  have hlen := List.length_drop j l
  refine ⟨j + i, by omega, by omega, ?_⟩
  rw [← hget]
  exact (List.getElem_drop _).symm

theorem routers_take_le (front : List (Key × Nat)) (k : Key) (j : Nat)
    (hsort : List.Pairwise (fun a b => strncmp10 a.1 b.1 < 0) front)
    (hj : j ≤ front.length)
    (hjlo : 0 < j → strncmp10 (front.getD (j - 1) emptyNLSlot).1 k ≤ 0) :
    ∀ r ∈ front.take j, strncmp10 r.1 k ≤ 0 := by
  intro r hr
  obtain ⟨i, hij, hi, hget⟩ := mem_take_getElem front r j hr
  have hj0 : 0 < j := by omega
  have hle := hjlo hj0
  rw [List.getD_eq_getElem front emptyNLSlot (by omega)] at hle
  by_cases hieq : i = j - 1
  · subst hieq
    rw [← hget]
    exact hle
  · have hlt : i < j - 1 := by omega
    have hrel := List.pairwise_iff_getElem.mp hsort i (j - 1) hi
      (by omega) hlt
    rw [← hget]
    exact le_of_lt (strncmp10_lt_of_lt_of_le _ _ _ hrel hle)

theorem routers_take_lt (front : List (Key × Nat)) (k : Key) (j : Nat)
    (hsort : List.Pairwise (fun a b => strncmp10 a.1 b.1 < 0) front)
    (hj : j ≤ front.length)
    (hjlo : 0 < j → strncmp10 (front.getD (j - 1) emptyNLSlot).1 k < 0) :
    ∀ r ∈ front.take j, strncmp10 r.1 k < 0 := by
  intro r hr
  obtain ⟨i, hij, hi, hget⟩ := mem_take_getElem front r j hr
  have hj0 : 0 < j := by omega
  have hle := hjlo hj0
  rw [List.getD_eq_getElem front emptyNLSlot (by omega)] at hle
  by_cases hieq : i = j - 1
  · subst hieq
    rw [← hget]
    exact hle
  · have hlt : i < j - 1 := by omega
    have hrel := List.pairwise_iff_getElem.mp hsort i (j - 1) hi
      (by omega) hlt
    rw [← hget]
    exact strncmp10_lt_of_lt_of_le _ _ _ hrel (le_of_lt hle)

theorem routers_drop_gt (front : List (Key × Nat)) (k : Key) (j : Nat)
    (hsort : List.Pairwise (fun a b => strncmp10 a.1 b.1 < 0) front)
    (hjhi : j < front.length → strncmp10 k (front.getD j emptyNLSlot).1 < 0) :
    ∀ r ∈ front.drop j, strncmp10 k r.1 < 0 := by
  intro r hr
  obtain ⟨i, hij, hi, hget⟩ := mem_drop_getElem front r j hr
  have hjlen : j < front.length := by omega
  have hlt := hjhi hjlen
  rw [List.getD_eq_getElem front emptyNLSlot hjlen] at hlt
  by_cases hieq : i = j
  · subst hieq
    rw [← hget]
    exact hlt
  · have hrel := List.pairwise_iff_getElem.mp hsort j i hjlen hi
      (by omega)
    rw [← hget]
    exact strncmp10_lt_of_lt_of_le _ _ _ hlt (le_of_lt hrel)

/-- Sorted router insertion at a known position: the new pair lands
exactly between the routers below and above the descent position. -/
theorem insNLSorted_at (sk : PageKeyPair) (front : List (Key × Nat))
    (j : Nat)
    (hsort : List.Pairwise (fun a b => strncmp10 a.1 b.1 < 0) front)
    (hj : j ≤ front.length)
    (hjlo : 0 < j → strncmp10 (front.getD (j - 1) emptyNLSlot).1 sk.key < 0)
    (hjhi : j < front.length →
      strncmp10 sk.key (front.getD j emptyNLSlot).1 < 0) :
    insNLSorted sk front =
      front.take j ++ (strncpy10 sk.key, sk.pageNo) :: front.drop j := by
  have htake := routers_take_lt front sk.key j hsort hj hjlo
  conv_lhs => rw [← List.take_append_drop j front]
  rw [insNLSorted_append_right sk (front.take j) (front.drop j) htake]
  refine congrArg _ ?_
  cases hdr : front.drop j with
  | nil => rw [insNLSorted]
  | cons d0 drest =>
    have hd0 : strncmp10 sk.key d0.1 < 0 := by
      refine routers_drop_gt front sk.key j hsort hjhi d0 ?_
      rw [hdr]
      simp
    obtain ⟨dk, dp⟩ := d0
    rw [insNLSorted]
    rw [if_pos (by
      have := strncmp10_flip sk.key dk
      have h2 : strncmp10 sk.key dk < 0 := hd0
      omega)]

/-! ### Nodup bookkeeping for families of subtrees -/

theorem flatMap_nodup_intro (f : Nat → List Nat) :
    ∀ (l : List Nat),
    (∀ a ∈ l, (f a).Nodup) →
    (∀ a ∈ l, ∀ b ∈ l, a ≠ b → ∀ x ∈ f a, x ∉ f b) →
    l.Nodup →
    (l.flatMap f).Nodup := by
  intro l
  induction l with
  | nil => intro _ _ _; simp
  | cons x rest ih =>
    intro hn hd hnd
    rw [List.flatMap_cons, List.nodup_append]
    obtain ⟨hx, hrest⟩ := List.nodup_cons.mp hnd
    refine ⟨hn x (by simp), ih (fun a ha => hn a (by simp [ha]))
      (fun a ha b hb hab => hd a (by simp [ha]) b (by simp [hb]) hab)
      hrest, ?_⟩
    intro q hq hq2
    obtain ⟨b, hb, hqb⟩ := List.mem_flatMap.mp hq2
    have hxb : x ≠ b := by
      intro hxe
      exact hx (hxe ▸ hb)
    exact hd x (by simp) b (by simp [hb]) hxb q hq hqb

theorem flatMap_nodup_disjoint (f : Nat → List Nat) :
    ∀ (l : List Nat), (l.flatMap f).Nodup →
    ∀ a ∈ l, ∀ b ∈ l, a ≠ b → ∀ x ∈ f a, x ∉ f b := by
  intro l
  induction l with
  | nil => intro _ a ha; simp at ha
  | cons y rest ih =>
    intro hnd a ha b hb hab x hxa hxb
    rw [List.flatMap_cons, List.nodup_append] at hnd
    obtain ⟨h1, h2, h3⟩ := hnd
    rcases List.mem_cons.mp ha with hay | har
    · rcases List.mem_cons.mp hb with hby | hbr
      · exact hab (hay.trans hby.symm)
      · exact h3 (hay ▸ hxa) (List.mem_flatMap.mpr ⟨b, hbr, hxb⟩)
    · rcases List.mem_cons.mp hb with hby | hbr
      · exact h3 (hby ▸ hxb) (List.mem_flatMap.mpr ⟨a, har, hxa⟩)
      · exact ih h2 a har b hbr hab x hxa hxb

theorem nodup_base_of_flatMap (f : Nat → List Nat) :
    ∀ (l : List Nat), (l.flatMap f).Nodup → (∀ a ∈ l, a ∈ f a) →
    l.Nodup := by
  intro l
  induction l with
  | nil => intro _ _; simp
  | cons x rest ih =>
    intro hnd hself
    rw [List.flatMap_cons, List.nodup_append] at hnd
    obtain ⟨h1, h2, h3⟩ := hnd
    rw [List.nodup_cons]
    constructor
    · intro hxr
      exact h3 (hself x (by simp)) (List.mem_flatMap.mpr
        ⟨x, hxr, hself x (by simp)⟩)
    · exact ih h2 (fun a ha => hself a (by simp [ha]))

theorem childrenList_getD (c : Nat) (front : List (Key × Nat)) (i : Nat)
    (hi : i ≤ front.length) :
    (c :: front.map (fun p => p.2)).getD i 0 = childAt c front i := by
  cases i with
  | zero => rfl
  | succ i2 =>
    rw [List.getD_cons_succ, childAt]
    have hlt : i2 < front.length := by omega
    rw [List.getD_eq_getElem (front.map _) 0 (by
      rw [List.length_map]; omega)]
    rw [List.getD_eq_getElem front emptyNLSlot hlt]
    rw [List.getElem_map]

theorem childAt_inj (c : Nat) (front : List (Key × Nat))
    (hnd : (c :: front.map (fun p => p.2)).Nodup) (i i' : Nat)
    (hi : i ≤ front.length) (hi' : i' ≤ front.length) (hne : i ≠ i') :
    childAt c front i ≠ childAt c front i' := by
  rw [← childrenList_getD c front i hi, ← childrenList_getD c front i' hi']
  have hlen : (c :: front.map (fun p => p.2)).length = front.length + 1 := by
    rw [List.length_cons, List.length_map]
  rw [List.getD_eq_getElem _ 0 (by omega), List.getD_eq_getElem _ 0 (by omega)]
  intro heq
  exact hne ((List.Nodup.getElem_inj_iff hnd).mp heq)

theorem nodup_take_ne_getD (l : List Nat) (hnd : l.Nodup) (j : Nat)
    (hj : j < l.length) : ∀ a ∈ l.take j, a ≠ l.getD j 0 := by
  intro a ha heq
  have hsplit : l = l.take j ++ l.drop j := (List.take_append_drop j l).symm
  have hnd2 : (l.take j ++ l.drop j).Nodup := by rw [← hsplit]; exact hnd
  rw [List.nodup_append] at hnd2
  have hmem : l.getD j 0 ∈ l.drop j := by
    rw [List.getD_eq_getElem l 0 hj, List.drop_eq_getElem_cons hj]
    exact List.mem_cons_self _ _
  exact hnd2.2.2 ha (heq ▸ hmem)

theorem nodup_drop_ne_getD (l : List Nat) (hnd : l.Nodup) (j : Nat)
    (hj : j < l.length) : ∀ a ∈ l.drop (j + 1), a ≠ l.getD j 0 := by
  intro a ha heq
  have hdj : l.drop j = l.getD j 0 :: l.drop (j + 1) := by
    rw [List.drop_eq_getElem_cons hj, List.getD_eq_getElem l 0 hj]
  have hnd2 : (l.drop j).Nodup := hnd.sublist (List.drop_sublist j l)
  rw [hdj, List.nodup_cons] at hnd2
  exact hnd2.1 (heq ▸ ha)

theorem flatMap_ne_nil {α : Type} (f : α → List Nat) (l : List α)
    (hl : l ≠ []) (hf : ∀ a ∈ l, f a ≠ []) : l.flatMap f ≠ [] := by
  cases l with
  | nil => exact absurd rfl hl
  | cons a rest =>
    rw [List.flatMap_cons]
    intro hc
    exact hf a (by simp) (List.append_eq_nil.mp hc).1

theorem headD_default_eq {α : Type} (l : List α) (d d' : α)
    (hl : l ≠ []) : l.headD d = l.headD d' := by
  cases l with
  | nil => exact absurd rfl hl
  | cons a rest => rfl

theorem other_children_frame (h : Nat) (pid : Nat) (s t s₂ : BTState)
    (n : NonLeafNode) (front : List (Key × Nat)) (j : Nat)
    (hj : j ≤ front.length)
    (hp : s.pages pid = PageData.nonleaf n) (hdn : IsDenseNL n front)
    (hnodup : (treePids s (h + 1) pid).Nodup)
    (hfresh : ∀ p ∈ treePids s (h + 1) pid,
      p ≠ INVALID_NUMBER ∧ p < s.nextPage ∧ p ≠ s.headerPageNum)
    (hcf : ∀ q, q ∉ treePids s h (childAt n.firstPageNo front j) →
      q ≠ s.headerPageNum → q < s.nextPage → t.pages q = s.pages q)
    (hnpt : s.nextPage ≤ t.nextPage)
    (hagQ : ∀ q, q < t.nextPage → q ≠ pid → q ≠ s.headerPageNum →
      s₂.pages q = t.pages q) :
    ∀ a ∈ (n.firstPageNo :: front.map (fun p => p.2)),
      a ≠ childAt n.firstPageNo front j →
      ∀ q ∈ treePids s h a, s₂.pages q = s.pages q := by
  intro a ha hacp q hq
  have htp := treePids_children s h pid n front hp hdn
  have hqin : q ∈ treePids s (h + 1) pid := by
    rw [htp]
    exact List.mem_cons_of_mem _ (List.mem_flatMap.mpr ⟨a, ha, hq⟩)
  obtain ⟨hq0, hqlt, hqh⟩ := hfresh q hqin
  have hnd2 : ((n.firstPageNo :: front.map (fun p => p.2)).flatMap
      (treePids s h)).Nodup := by
    have := hnodup
    rw [htp, List.nodup_cons] at this
    exact this.2
  have hpidnot : pid ∉ ((n.firstPageNo :: front.map (fun p => p.2)).flatMap
      (treePids s h)) := by
    have := hnodup
    rw [htp, List.nodup_cons] at this
    exact this.1
  have hqp : q ≠ pid := by
    intro hqe
    exact hpidnot (hqe ▸ List.mem_flatMap.mpr ⟨a, ha, hq⟩)
  have hqcp : q ∉ treePids s h (childAt n.firstPageNo front j) := by
    refine flatMap_nodup_disjoint (treePids s h) _ hnd2 a ha
      (childAt n.firstPageNo front j)
      (childAt_mem n.firstPageNo front j hj) hacp q hq
  rw [hagQ q (by omega) hqp hqh]
  exact hcf q hqcp hqh hqlt

theorem new_subtree_frame (h : Nat) (pid : Nat) (s t s₂ : BTState)
    (r : Nat) (old : List Nat)
    (hold : ∀ p ∈ old, p < s.nextPage ∧ p ≠ s.headerPageNum ∧ p ≠ pid)
    (hext : ∀ p ∈ treePids t h r,
      p ∈ old ∨ (s.nextPage ≤ p ∧ p < t.nextPage))
    (hpidlt : pid < s.nextPage) (hhdr : s.headerPageNum < s.nextPage)
    (hagQ : ∀ q, q < t.nextPage → q ≠ pid → q ≠ s.headerPageNum →
      s₂.pages q = t.pages q) (hnpt : s.nextPage ≤ t.nextPage) :
    ∀ q ∈ treePids t h r, s₂.pages q = t.pages q := by
  intro q hq
  rcases hext q hq with hqo | ⟨hq1, hq2⟩
  · obtain ⟨ha, hb, hc⟩ := hold q hqo
    exact hagQ q (by omega) hc hb
  · refine hagQ q hq2 (by omega) (by omega)

set_option maxHeartbeats 1000000 in
theorem seg_after_absorb (h : Nat) (krid : RIDKeyPair) (pid : Nat)
    (s t s₂ : BTState) (lo hi : Option Key) (n : NonLeafNode)
    (front : List (Key × Nat)) (j : Nat)
    (hp : s.pages pid = PageData.nonleaf n)
    (hdn : IsDenseNL n front)
    (hseg : WfSegP (WfTree s h) lo n.firstPageNo front hi)
    (hj : j ≤ front.length)
    (hnodup : (treePids s (h + 1) pid).Nodup)
    (hfresh : ∀ p ∈ treePids s (h + 1) pid,
      p ≠ INVALID_NUMBER ∧ p < s.nextPage ∧ p ≠ s.headerPageNum)
    (hcf : ∀ q, q ∉ treePids s h (childAt n.firstPageNo front j) →
      q ≠ s.headerPageNum → q < s.nextPage → t.pages q = s.pages q)
    (hnpt : s.nextPage ≤ t.nextPage)
    (habs : AbsorbOut krid s t h (childAt n.firstPageNo front j)
      (bLo lo front j) (bHi hi front j))
    (hjlo : loLe (bLo lo front j) krid.key)
    (hjhi : hiGt krid.key (bHi hi front j))
    (hagQ : ∀ q, q < t.nextPage → q ≠ pid → q ≠ s.headerPageNum →
      s₂.pages q = t.pages q)
    (hnp2 : t.nextPage ≤ s₂.nextPage)
    (hhdr : s.headerPageNum < s.nextPage) :
    WfSegP (WfTree s₂ h) lo n.firstPageNo front hi ∧
    ((n.firstPageNo :: front.map (fun p => p.2)).flatMap (entriesOf s₂ h))
      = insLeafSorted krid
        ((n.firstPageNo :: front.map (fun p => p.2)).flatMap
          (entriesOf s h)) ∧
    (∀ p ∈ (n.firstPageNo :: front.map (fun p => p.2)).flatMap
        (treePids s₂ h),
      p ∈ (n.firstPageNo :: front.map (fun p => p.2)).flatMap
        (treePids s h) ∨ (s.nextPage ≤ p ∧ p < t.nextPage)) ∧
    ((n.firstPageNo :: front.map (fun p => p.2)).flatMap
      (treePids s₂ h)).Nodup ∧
    ((n.firstPageNo :: front.map (fun p => p.2)).flatMap
        (leafSeq s₂ h)).headD 0 =
      ((n.firstPageNo :: front.map (fun p => p.2)).flatMap
        (leafSeq s h)).headD 0 ∧
    (∀ nxt, ChainTo s ((n.firstPageNo :: front.map (fun p => p.2)).flatMap
        (leafSeq s h)) nxt →
      ChainTo s₂ ((n.firstPageNo :: front.map (fun p => p.2)).flatMap
        (leafSeq s₂ h)) nxt) ∧
    (∀ k, k ≤ 1 →
      NEFrom s ((n.firstPageNo :: front.map (fun p => p.2)).flatMap
        (leafSeq s h)) k →
      NEFrom s₂ ((n.firstPageNo :: front.map (fun p => p.2)).flatMap
        (leafSeq s₂ h)) k) := by
  obtain ⟨hwfv, hentv, hextv, hndv, hheadv, hchainv, hnev⟩ := habs
  set c0 := n.firstPageNo with hc0
  set cp := childAt c0 front j with hcp
  set children : List Nat := c0 :: front.map (fun p => p.2) with hchildren
  have hchlen : children.length = front.length + 1 := by
    rw [hchildren, List.length_cons, List.length_map]
  have htp := treePids_children s h pid n front hp hdn
  have hnd2 : (children.flatMap (treePids s h)).Nodup := by
    have h2 := hnodup
    rw [htp, List.nodup_cons] at h2
    exact h2.2
  have hpidnot : pid ∉ children.flatMap (treePids s h) := by
    have h2 := hnodup
    rw [htp, List.nodup_cons] at h2
    exact h2.1
  have hchnd : children.Nodup :=
    nodup_base_of_flatMap (treePids s h) children hnd2
      (fun a _ => mem_treePids_self s h a)
  have hcpmem : cp ∈ children := childAt_mem c0 front j hj
  have hfresh2 : ∀ a ∈ children, ∀ q ∈ treePids s h a,
      q ≠ INVALID_NUMBER ∧ q < s.nextPage ∧ q ≠ s.headerPageNum := by
    intro a ha q hq
    refine hfresh q ?_
    rw [htp]
    exact List.mem_cons_of_mem _ (List.mem_flatMap.mpr ⟨a, ha, hq⟩)
  have hpidlt : pid < s.nextPage :=
    (hfresh pid (mem_treePids_self s (h + 1) pid)).2.1
  have hother := other_children_frame h pid s t s₂ n front j hj hp hdn
    hnodup hfresh hcf hnpt hagQ
  have hvis : ∀ q ∈ treePids t h cp, s₂.pages q = t.pages q := by
    refine new_subtree_frame h pid s t s₂ cp (treePids s h cp) ?_ hextv
      hpidlt hhdr hagQ hnpt
    intro p hpm
    obtain ⟨h1, h2, h3⟩ := hfresh2 cp hcpmem p hpm
    refine ⟨h2, h3, ?_⟩
    intro hpe
    exact hpidnot (hpe ▸ List.mem_flatMap.mpr ⟨cp, hcpmem, hpm⟩)
  -- structure transfer for unvisited children
  have hoth3 : ∀ a ∈ children, a ≠ cp →
      treePids s₂ h a = treePids s h a ∧
      leafSeq s₂ h a = leafSeq s h a ∧
      (∀ lo' hi', WfTree s h a lo' hi' → WfTree s₂ h a lo' hi') ∧
      entriesOf s₂ h a = entriesOf s h a ∧
      (∀ lp ∈ leafSeq s h a, getLeaf s₂ lp = getLeaf s lp) := by
    intro a ha hacp
    obtain ⟨h1, h2, h3⟩ := tree_frame h s s₂ a (hother a ha hacp)
    refine ⟨h1, h2, h3, entriesOf_frame s s₂ h a (hother a ha hacp), ?_⟩
    intro lp hlp
    rw [getLeaf, getLeaf,
      hother a ha hacp lp (leafSeq_subset_treePids h s a lp hlp)]
  have hvis3 : treePids s₂ h cp = treePids t h cp ∧
      leafSeq s₂ h cp = leafSeq t h cp ∧
      (∀ lo' hi', WfTree t h cp lo' hi' → WfTree s₂ h cp lo' hi') ∧
      entriesOf s₂ h cp = entriesOf t h cp ∧
      (∀ lp ∈ leafSeq t h cp, getLeaf s₂ lp = getLeaf t lp) := by
    obtain ⟨h1, h2, h3⟩ := tree_frame h t s₂ cp hvis
    refine ⟨h1, h2, h3, entriesOf_frame t s₂ h cp hvis, ?_⟩
    intro lp hlp
    rw [getLeaf, getLeaf, hvis lp (leafSeq_subset_treePids h t cp lp hlp)]
  -- take/drop views
  have hjch : j < children.length := by omega
  have hgetj : children.getD j 0 = cp := childrenList_getD c0 front j hj
  have htake_ne : ∀ a ∈ children.take j, a ≠ cp := by
    intro a ha
    rw [← hgetj]
    exact nodup_take_ne_getD children hchnd j hjch a ha
  have hdrop_ne : ∀ a ∈ children.drop (j + 1), a ≠ cp := by
    intro a ha
    rw [← hgetj]
    exact nodup_drop_ne_getD children hchnd j hjch a ha
  have htake_mem : ∀ a ∈ children.take j, a ∈ children := by
    intro a ha
    exact List.mem_of_mem_take ha
  have hdrop_mem : ∀ a ∈ children.drop (j + 1), a ∈ children := by
    intro a ha
    exact List.mem_of_mem_drop ha
  -- decompositions of the leaf sequences
  have hdecL := flatMap_eq_take_drop (leafSeq s h) children j hjch 0
  have hdecL2 := flatMap_eq_take_drop (leafSeq s₂ h) children j hjch 0
  rw [hgetj] at hdecL hdecL2
  have hLB : (children.take j).flatMap (leafSeq s₂ h) =
      (children.take j).flatMap (leafSeq s h) :=
    flatMap_congr (fun a ha => (hoth3 a (htake_mem a ha) (htake_ne a ha)).2.1)
  have hLA : (children.drop (j + 1)).flatMap (leafSeq s₂ h) =
      (children.drop (j + 1)).flatMap (leafSeq s h) :=
    flatMap_congr (fun a ha => (hoth3 a (hdrop_mem a ha) (hdrop_ne a ha)).2.1)
  have hLcp2 : leafSeq s₂ h cp = leafSeq t h cp := hvis3.2.1
  have hLgB : ∀ lp ∈ (children.take j).flatMap (leafSeq s h),
      getLeaf s₂ lp = getLeaf s lp := by
    intro lp hlp
    obtain ⟨a, ha, hlpa⟩ := List.mem_flatMap.mp hlp
    exact (hoth3 a (htake_mem a ha) (htake_ne a ha)).2.2.2.2 lp hlpa
  have hLgA : ∀ lp ∈ (children.drop (j + 1)).flatMap (leafSeq s h),
      getLeaf s₂ lp = getLeaf s lp := by
    intro lp hlp
    obtain ⟨a, ha, hlpa⟩ := List.mem_flatMap.mp hlp
    exact (hoth3 a (hdrop_mem a ha) (hdrop_ne a ha)).2.2.2.2 lp hlpa
  have hLgV : ∀ lp ∈ leafSeq t h cp, getLeaf s₂ lp = getLeaf t lp :=
    hvis3.2.2.2.2
  have hLcpne : leafSeq s h cp ≠ [] := leafSeq_ne_nil h s cp
  have hLcpne2 : leafSeq t h cp ≠ [] := leafSeq_ne_nil h t cp
  have hLBne : 0 < j → (children.take j).flatMap (leafSeq s h) ≠ [] := by
    intro hj0
    refine flatMap_ne_nil _ _ ?_ (fun a _ => leafSeq_ne_nil h s a)
    rw [hchildren]
    cases j with
    | zero => omega
    | succ j2 => simp
  have hheadpres :
      ((children.take j).flatMap (leafSeq s h) ++
        (leafSeq s₂ h cp ++
          (children.drop (j + 1)).flatMap (leafSeq s h))).headD 0 =
      ((children.take j).flatMap (leafSeq s h) ++
        (leafSeq s h cp ++
          (children.drop (j + 1)).flatMap (leafSeq s h))).headD 0 := by
    cases Nat.eq_zero_or_pos j with
    | inl hj0 =>
      have hjt : children.take j = [] := by rw [hj0]; rfl
      rw [hjt, List.flatMap_nil, List.nil_append, List.nil_append]
      rw [headD_append_left _ _ _ (by rw [hLcp2]; exact hLcpne2),
        headD_append_left _ _ _ hLcpne, hLcp2]
      calc (leafSeq t h cp).headD 0
          = (leafSeq t h cp).headD 0 := rfl
        _ = (leafSeq s h cp).headD 0 := hheadv
    | inr hj0 =>
      rw [headD_append_left _ _ _ (hLBne hj0),
        headD_append_left _ _ _ (hLBne hj0)]
  refine ⟨?_, ?_, ?_, ?_, ?_, ?_, ?_⟩
  · -- the segment predicate survives
    refine wfSegP_update (WfTree s h) (WfTree s₂ h) front lo c0 hi j hseg
      hj ?_ ?_
    · exact hvis3.2.2.1 _ _ hwfv
    · intro i hile hij lo' hi' hpw
      refine (hoth3 (childAt c0 front i) (childAt_mem c0 front i hile)
        ?_).2.2.1 lo' hi' hpw
      exact childAt_inj c0 front hchnd i j hile hj hij
  · -- the entries absorb the new pair at its sorted position
    have hdecS := flatMap_eq_take_drop (entriesOf s h) children j hjch 0
    have hdecS2 := flatMap_eq_take_drop (entriesOf s₂ h) children j hjch 0
    rw [hgetj] at hdecS hdecS2
    have hBeq : (children.take j).flatMap (entriesOf s₂ h) =
        (children.take j).flatMap (entriesOf s h) :=
      flatMap_congr (fun a ha =>
        (hoth3 a (htake_mem a ha) (htake_ne a ha)).2.2.2.1)
    have hAeq : (children.drop (j + 1)).flatMap (entriesOf s₂ h) =
        (children.drop (j + 1)).flatMap (entriesOf s h) :=
      flatMap_congr (fun a ha =>
        (hoth3 a (hdrop_mem a ha) (hdrop_ne a ha)).2.2.2.1)
    have hEcp : entriesOf s₂ h cp =
        insLeafSorted krid (entriesOf s h cp) := by
      rw [hvis3.2.2.2.1, hentv]
    have hBlt : ∀ e ∈ (children.take j).flatMap (entriesOf s h),
        strncmp10 e.1 krid.key < 0 := by
      intro e he
      have hj0 : 0 < j := by
        cases Nat.eq_zero_or_pos j with
        | inl hj00 =>
          rw [hj00] at he
          simp at he
        | inr hj0 => exact hj0
      have hblt := entries_before_lt h s front lo c0 hi j hseg hj hj0 e he
      have hloj : strncmp10 (front.getD (j - 1) emptyNLSlot).1
          krid.key ≤ 0 := by
        have h2 := hjlo
        have hj1 : j = (j - 1) + 1 := by omega
        rw [hj1] at h2
        exact h2
      exact strncmp10_lt_of_lt_of_le _ _ _ hblt hloj
    have hAgt : ∀ e ∈ (children.drop (j + 1)).flatMap (entriesOf s h),
        strncmp10 krid.key e.1 < 0 := by
      intro e he
      have hjlt : j < front.length := by
        by_contra hge
        have hde : children.drop (j + 1) = [] :=
          List.drop_eq_nil_of_le (by omega)
        rw [hde] at he
        simp at he
      have hage := entries_after_ge h s front lo c0 hi j hseg hjlt e he
      have hhij : strncmp10 krid.key (front.getD j emptyNLSlot).1 < 0 := by
        have h2 := hjhi
        rw [bHi, if_pos hjlt] at h2
        exact h2
      exact strncmp10_lt_of_lt_of_le _ _ _ hhij hage
    rw [hdecS2, hdecS, hBeq, hAeq, hEcp]
    rw [insLeafSorted_append_right krid _ _ hBlt]
    refine congrArg _ ?_
    cases hA : (children.drop (j + 1)).flatMap (entriesOf s h) with
    | nil =>
      rw [List.append_nil, List.append_nil]
    | cons a0 arest =>
      rw [insLeafSorted_append_left krid _ a0 arest
        (hAgt a0 (by rw [hA]; simp))]
  · -- every page of the new family is old or freshly allocated
    intro p hpm
    obtain ⟨a, ha, hpa⟩ := List.mem_flatMap.mp hpm
    by_cases hacp : a = cp
    · rw [hacp, hvis3.1] at hpa
      rcases hextv p hpa with hold | hfr
      · exact Or.inl (List.mem_flatMap.mpr ⟨cp, hcpmem, hold⟩)
      · exact Or.inr hfr
    · rw [(hoth3 a ha hacp).1] at hpa
      exact Or.inl (List.mem_flatMap.mpr ⟨a, ha, hpa⟩)
  · -- distinctness of the new family
    refine flatMap_nodup_intro (treePids s₂ h) children ?_ ?_ hchnd
    · intro a ha
      by_cases hacp : a = cp
      · rw [hacp, hvis3.1]
        exact hndv
      · rw [(hoth3 a ha hacp).1]
        exact nodup_of_flatMap_mem (treePids s h) children hnd2 a ha
    · intro a ha b hb hab x hxa hxb
      by_cases hacp : a = cp
      · have hbcp : b ≠ cp := by
          intro hbe
          exact hab (hacp.trans hbe.symm)
        rw [hacp, hvis3.1] at hxa
        rw [(hoth3 b hb hbcp).1] at hxb
        rcases hextv x hxa with hold | ⟨hf1, hf2⟩
        · exact flatMap_nodup_disjoint (treePids s h) children hnd2 cp
            hcpmem b hb (by
              intro hce
              exact hab (hacp.trans hce)) x hold hxb
        · obtain ⟨_, hxlt, _⟩ := hfresh2 b hb x hxb
          omega
      · by_cases hbcp : b = cp
        · rw [(hoth3 a ha hacp).1] at hxa
          rw [hbcp, hvis3.1] at hxb
          rcases hextv x hxb with hold | ⟨hf1, hf2⟩
          · exact flatMap_nodup_disjoint (treePids s h) children hnd2 a
              ha cp hcpmem (by
                intro hce
                exact hacp hce) x hxa hold
          · obtain ⟨_, hxlt, _⟩ := hfresh2 a ha x hxa
            omega
        · rw [(hoth3 a ha hacp).1] at hxa
          rw [(hoth3 b hb hbcp).1] at hxb
          exact flatMap_nodup_disjoint (treePids s h) children hnd2 a ha
            b hb hab x hxa hxb
  · -- the leftmost leaf is unchanged
    rw [hdecL2, hdecL, hLB, hLA, hLcp2]
    rw [← hLcp2]
    exact hheadpres
  · -- the sibling chain survives
    intro nxt hc
    rw [hdecL] at hc
    rw [hdecL2, hLB, hLA]
    rw [chainTo_append] at hc
    obtain ⟨hcB, hcRest⟩ := hc
    rw [chainTo_append] at hcRest
    obtain ⟨hcV, hcA⟩ := hcRest
    rw [chainTo_append]
    constructor
    · refine chainTo_congr s s₂ _ _ hLgB ?_
      have hhd : ((leafSeq s₂ h cp ++
          (children.drop (j + 1)).flatMap (leafSeq s h)).headD nxt) =
          ((leafSeq s h cp ++
          (children.drop (j + 1)).flatMap (leafSeq s h)).headD nxt) := by
        rw [headD_append_left _ _ _ (by rw [hLcp2]; exact hLcpne2),
          headD_append_left _ _ _ hLcpne, hLcp2]
        rw [headD_default_eq _ _ 0 hLcpne2,
          headD_default_eq (leafSeq s h cp) _ 0 hLcpne]
        exact hheadv
      rw [hhd]
      exact hcB
    · rw [chainTo_append]
      constructor
      · rw [hLcp2]
        refine chainTo_congr t s₂ _ _ hLgV ?_
        exact hchainv _ hcV
      · exact chainTo_congr s s₂ _ _ hLgA hcA
  · -- leaves other than the leftmost stay nonempty
    intro k hk hne
    rw [hdecL] at hne
    rw [hdecL2, hLB, hLA, hLcp2]
    cases Nat.eq_zero_or_pos j with
    | inl hj0 =>
      have hjt : children.take j = [] := by rw [hj0]; rfl
      rw [hjt, List.flatMap_nil, List.nil_append] at hne ⊢
      have hkle : k ≤ (leafSeq s h cp).length := by
        have : 1 ≤ (leafSeq s h cp).length := by
          cases hsc : leafSeq s h cp with
          | nil => exact absurd hsc hLcpne
          | cons x xs => simp
        omega
      obtain ⟨hV, hA⟩ := NEFrom_append_split s _ _ k hkle hne
      have hV2 : NEFrom t (leafSeq t h cp) k := hnev k hk hV
      refine NEFrom_append_intro s₂ _ _ k (by
        have : 1 ≤ (leafSeq t h cp).length := by
          cases hsc : leafSeq t h cp with
          | nil => exact absurd hsc hLcpne2
          | cons x xs => simp
        omega) ?_ ?_
      · refine NEFrom_congr t s₂ _ k hLgV hV2
      · refine NEFrom_congr s s₂ _ 0 ?_ hA
        exact fun p hp => hLgA p hp
    | inr hj0 =>
      have hkle : k ≤ ((children.take j).flatMap (leafSeq s h)).length := by
        have h1 : 1 ≤ ((children.take j).flatMap (leafSeq s h)).length := by
          cases hsc : (children.take j).flatMap (leafSeq s h) with
          | nil => exact absurd hsc (hLBne hj0)
          | cons x xs => simp
        omega
      obtain ⟨hB, hRest⟩ := NEFrom_append_split s _ _ k hkle hne
      obtain ⟨hV, hA⟩ := NEFrom_append_split s _ _ 0 (by omega) hRest
      have hV2 : NEFrom t (leafSeq t h cp) 0 := hnev 0 (by omega) hV
      refine NEFrom_append_intro s₂ _ _ k hkle ?_ ?_
      · exact NEFrom_congr s s₂ _ k hLgB hB
      · refine NEFrom_append_intro s₂ _ _ 0 (by omega) ?_ ?_
        · exact NEFrom_congr t s₂ _ 0 hLgV hV2
        · exact NEFrom_congr s s₂ _ 0 hLgA hA

theorem take_succ_getD (l : List Nat) (j : Nat) (hj : j < l.length) :
    l.take (j + 1) = l.take j ++ [l.getD j 0] := by
  rw [List.getD_eq_getElem l 0 hj]
  rw [List.take_succ]
  rw [List.getElem?_eq_getElem hj]
  rfl

set_option maxHeartbeats 1000000 in
theorem seg_after_split (h : Nat) (krid : RIDKeyPair) (pid : Nat)
    (s t s₂ : BTState) (lo hi : Option Key) (n : NonLeafNode)
    (front : List (Key × Nat)) (j : Nat) (sk : PageKeyPair)
    (hp : s.pages pid = PageData.nonleaf n)
    (hdn : IsDenseNL n front)
    (hseg : WfSegP (WfTree s h) lo n.firstPageNo front hi)
    (hj : j ≤ front.length)
    (hnodup : (treePids s (h + 1) pid).Nodup)
    (hfresh : ∀ p ∈ treePids s (h + 1) pid,
      p ≠ INVALID_NUMBER ∧ p < s.nextPage ∧ p ≠ s.headerPageNum)
    (hcf : ∀ q, q ∉ treePids s h (childAt n.firstPageNo front j) →
      q ≠ s.headerPageNum → q < s.nextPage → t.pages q = s.pages q)
    (hnpt : s.nextPage ≤ t.nextPage)
    (hsplit : SplitOut krid s t h (childAt n.firstPageNo front j)
      (bLo lo front j) (bHi hi front j) sk)
    (hjlo : loLe (bLo lo front j) krid.key)
    (hjhi : hiGt krid.key (bHi hi front j))
    (hagQ : ∀ q, q < t.nextPage → q ≠ pid → q ≠ s.headerPageNum →
      s₂.pages q = t.pages q)
    (hnp2 : t.nextPage ≤ s₂.nextPage)
    (hhdr : s.headerPageNum < s.nextPage) :
    WfSegP (WfTree s₂ h) lo n.firstPageNo (insNLSorted sk front) hi ∧
    ((n.firstPageNo :: (insNLSorted sk front).map (fun p => p.2)).flatMap
        (entriesOf s₂ h))
      = insLeafSorted krid
        ((n.firstPageNo :: front.map (fun p => p.2)).flatMap
          (entriesOf s h)) ∧
    (∀ p ∈ (n.firstPageNo :: (insNLSorted sk front).map
        (fun p => p.2)).flatMap (treePids s₂ h),
      p ∈ (n.firstPageNo :: front.map (fun p => p.2)).flatMap
        (treePids s h) ∨ (s.nextPage ≤ p ∧ p < t.nextPage)) ∧
    ((n.firstPageNo :: (insNLSorted sk front).map (fun p => p.2)).flatMap
      (treePids s₂ h)).Nodup ∧
    ((n.firstPageNo :: (insNLSorted sk front).map (fun p => p.2)).flatMap
        (leafSeq s₂ h)).headD 0 =
      ((n.firstPageNo :: front.map (fun p => p.2)).flatMap
        (leafSeq s h)).headD 0 ∧
    (∀ nxt, ChainTo s ((n.firstPageNo :: front.map (fun p => p.2)).flatMap
        (leafSeq s h)) nxt →
      ChainTo s₂ ((n.firstPageNo :: (insNLSorted sk front).map
        (fun p => p.2)).flatMap (leafSeq s₂ h)) nxt) ∧
    (∀ k, k ≤ 1 →
      NEFrom s ((n.firstPageNo :: front.map (fun p => p.2)).flatMap
        (leafSeq s h)) k →
      NEFrom s₂ ((n.firstPageNo :: (insNLSorted sk front).map
        (fun p => p.2)).flatMap (leafSeq s₂ h)) k) := by
  obtain ⟨hskge, hsklt, hskne0, hsknorm, hskgood, hwfL, hwfR, hentLR,
    hextLR, hndLR, hheadL, hchainLR, hneLR⟩ := hsplit
  set c0 := n.firstPageNo with hc0
  set cp := childAt c0 front j with hcp
  set children : List Nat := c0 :: front.map (fun p => p.2) with hchildren
  have hchlen : children.length = front.length + 1 := by
    rw [hchildren, List.length_cons, List.length_map]
  have htp := treePids_children s h pid n front hp hdn
  have hnd2 : (children.flatMap (treePids s h)).Nodup := by
    have h2 := hnodup
    rw [htp, List.nodup_cons] at h2
    exact h2.2
  have hpidnot : pid ∉ children.flatMap (treePids s h) := by
    have h2 := hnodup
    rw [htp, List.nodup_cons] at h2
    exact h2.1
  have hchnd : children.Nodup :=
    nodup_base_of_flatMap (treePids s h) children hnd2
      (fun a _ => mem_treePids_self s h a)
  have hcpmem : cp ∈ children := childAt_mem c0 front j hj
  have hfresh2 : ∀ a ∈ children, ∀ q ∈ treePids s h a,
      q ≠ INVALID_NUMBER ∧ q < s.nextPage ∧ q ≠ s.headerPageNum := by
    intro a ha q hq
    refine hfresh q ?_
    rw [htp]
    exact List.mem_cons_of_mem _ (List.mem_flatMap.mpr ⟨a, ha, hq⟩)
  have hpidlt : pid < s.nextPage :=
    (hfresh pid (mem_treePids_self s (h + 1) pid)).2.1
  have hother := other_children_frame h pid s t s₂ n front j hj hp hdn
    hnodup hfresh hcf hnpt hagQ
  have holdcp : ∀ p ∈ treePids s h cp,
      p < s.nextPage ∧ p ≠ s.headerPageNum ∧ p ≠ pid := by
    intro p hpm
    obtain ⟨h1, h2, h3⟩ := hfresh2 cp hcpmem p hpm
    refine ⟨h2, h3, ?_⟩
    intro hpe
    exact hpidnot (hpe ▸ List.mem_flatMap.mpr ⟨cp, hcpmem, hpm⟩)
  have hextL : ∀ p ∈ treePids t h cp,
      p ∈ treePids s h cp ∨ (s.nextPage ≤ p ∧ p < t.nextPage) := by
    intro p hpm
    exact hextLR p (List.mem_append_left _ hpm)
  have hextR : ∀ p ∈ treePids t h sk.pageNo,
      p ∈ treePids s h cp ∨ (s.nextPage ≤ p ∧ p < t.nextPage) := by
    intro p hpm
    exact hextLR p (List.mem_append_right _ hpm)
  have hvisL : ∀ q ∈ treePids t h cp, s₂.pages q = t.pages q :=
    new_subtree_frame h pid s t s₂ cp (treePids s h cp) holdcp hextL
      hpidlt hhdr hagQ hnpt
  have hvisR : ∀ q ∈ treePids t h sk.pageNo, s₂.pages q = t.pages q :=
    new_subtree_frame h pid s t s₂ sk.pageNo (treePids s h cp) holdcp
      hextR hpidlt hhdr hagQ hnpt
  have hoth3 : ∀ a ∈ children, a ≠ cp →
      treePids s₂ h a = treePids s h a ∧
      leafSeq s₂ h a = leafSeq s h a ∧
      (∀ lo' hi', WfTree s h a lo' hi' → WfTree s₂ h a lo' hi') ∧
      entriesOf s₂ h a = entriesOf s h a ∧
      (∀ lp ∈ leafSeq s h a, getLeaf s₂ lp = getLeaf s lp) := by
    intro a ha hacp
    obtain ⟨h1, h2, h3⟩ := tree_frame h s s₂ a (hother a ha hacp)
    refine ⟨h1, h2, h3, entriesOf_frame s s₂ h a (hother a ha hacp), ?_⟩
    intro lp hlp
    rw [getLeaf, getLeaf,
      hother a ha hacp lp (leafSeq_subset_treePids h s a lp hlp)]
  have hvis3L : treePids s₂ h cp = treePids t h cp ∧
      leafSeq s₂ h cp = leafSeq t h cp ∧
      (∀ lo' hi', WfTree t h cp lo' hi' → WfTree s₂ h cp lo' hi') ∧
      entriesOf s₂ h cp = entriesOf t h cp ∧
      (∀ lp ∈ leafSeq t h cp, getLeaf s₂ lp = getLeaf t lp) := by
    obtain ⟨h1, h2, h3⟩ := tree_frame h t s₂ cp hvisL
    refine ⟨h1, h2, h3, entriesOf_frame t s₂ h cp hvisL, ?_⟩
    intro lp hlp
    rw [getLeaf, getLeaf, hvisL lp (leafSeq_subset_treePids h t cp lp hlp)]
  have hvis3R : treePids s₂ h sk.pageNo = treePids t h sk.pageNo ∧
      leafSeq s₂ h sk.pageNo = leafSeq t h sk.pageNo ∧
      (∀ lo' hi', WfTree t h sk.pageNo lo' hi' →
        WfTree s₂ h sk.pageNo lo' hi') ∧
      entriesOf s₂ h sk.pageNo = entriesOf t h sk.pageNo ∧
      (∀ lp ∈ leafSeq t h sk.pageNo, getLeaf s₂ lp = getLeaf t lp) := by
    obtain ⟨h1, h2, h3⟩ := tree_frame h t s₂ sk.pageNo hvisR
    refine ⟨h1, h2, h3, entriesOf_frame t s₂ h sk.pageNo hvisR, ?_⟩
    intro lp hlp
    rw [getLeaf, getLeaf,
      hvisR lp (leafSeq_subset_treePids h t sk.pageNo lp hlp)]
  have hsort : List.Pairwise (fun a b => strncmp10 a.1 b.1 < 0) front :=
    (wfSegP_routers (WfTree s h) front lo c0 hi hseg).1
  have hjch : j < children.length := by omega
  have hgetj : children.getD j 0 = cp := childrenList_getD c0 front j hj
  have htake_ne : ∀ a ∈ children.take j, a ≠ cp := by
    intro a ha
    rw [← hgetj]
    exact nodup_take_ne_getD children hchnd j hjch a ha
  have hdrop_ne : ∀ a ∈ children.drop (j + 1), a ≠ cp := by
    intro a ha
    rw [← hgetj]
    exact nodup_drop_ne_getD children hchnd j hjch a ha
  have htake_mem : ∀ a ∈ children.take j, a ∈ children :=
    fun a ha => List.mem_of_mem_take ha
  have hdrop_mem : ∀ a ∈ children.drop (j + 1), a ∈ children :=
    fun a ha => List.mem_of_mem_drop ha
  -- the sorted position of the promoted router
  have hjlo' : 0 < j →
      strncmp10 (front.getD (j - 1) emptyNLSlot).1 sk.key < 0 := by
    intro hj0
    have h2 := hskgood.1
    have hj1 : j = (j - 1) + 1 := by omega
    rw [hj1] at h2
    exact h2
  have hjhi' : j < front.length →
      strncmp10 sk.key (front.getD j emptyNLSlot).1 < 0 := by
    intro hjlt
    have h2 := hskgood.2.1
    rw [bHi, if_pos hjlt] at h2
    exact h2
  have hILS : insNLSorted sk front =
      front.take j ++ (strncpy10 sk.key, sk.pageNo) :: front.drop j :=
    insNLSorted_at sk front j hsort hj hjlo' hjhi'
  have hILS2 : insNLSorted sk front =
      front.take j ++ (sk.key, sk.pageNo) :: front.drop j := by
    rw [hILS, ← hsknorm]
  -- the new children list
  have hmap_take : (front.take j).map (fun p => p.2) =
      (front.map (fun p => p.2)).take j := (List.map_take _ _ _)
  have hmap_drop : (front.drop j).map (fun p => p.2) =
      (front.map (fun p => p.2)).drop j := (List.map_drop _ _ _)
  have htakej1 : children.take (j + 1) = children.take j ++ [cp] := by
    rw [take_succ_getD children j hjch, hgetj]
  have hchildren' : c0 :: (insNLSorted sk front).map (fun p => p.2) =
      (children.take j ++ [cp]) ++ sk.pageNo :: children.drop (j + 1) := by
    rw [hILS2, List.map_append, List.map_cons]
    rw [← htakej1]
    rw [hmap_take, hmap_drop]
    cases j with
    | zero =>
      simp [hchildren]
    | succ j2 =>
      rw [hchildren]
      rw [List.take_succ_cons, List.drop_succ_cons]
      rw [List.cons_append]
  -- a generic decomposition of folds over the new children
  have hflat' : ∀ {β : Type} (F : Nat → List β),
      (c0 :: (insNLSorted sk front).map (fun p => p.2)).flatMap F =
        (children.take j).flatMap F ++
          ((F cp ++ F sk.pageNo) ++ (children.drop (j + 1)).flatMap F) := by
    intro β F
    rw [hchildren', List.flatMap_append, List.flatMap_append,
      List.flatMap_cons]
    rw [List.flatMap_cons, List.flatMap_nil, List.append_nil,
      List.append_assoc, ← List.append_assoc (F cp)]
  have hflatold : ∀ {β : Type} (F : Nat → List β),
      children.flatMap F =
        (children.take j).flatMap F ++
          (F cp ++ (children.drop (j + 1)).flatMap F) := by
    intro β F
    have h2 := flatMap_eq_take_drop F children j hjch 0
    rw [hgetj] at h2
    exact h2
  -- numeric separation of the fresh sibling from the old family
  have hchlt : ∀ a ∈ children, a < s.nextPage :=
    fun a ha => (hfresh2 a ha a (mem_treePids_self s h a)).2.1
  have hskpnot : sk.pageNo ∉ children := by
    intro hmem
    have := hchlt _ hmem
    omega
  have hcpne : cp ≠ sk.pageNo := by
    intro hce
    exact hskpnot (hce ▸ hcpmem)
  have hT2skp : treePids s₂ h sk.pageNo = treePids t h sk.pageNo :=
    hvis3R.1
  have hT2cp : treePids s₂ h cp = treePids t h cp := hvis3L.1
  have hndt := List.nodup_append.mp hndLR
  have hmem2 : ∀ a ∈ children.take (j + 1) ++
      sk.pageNo :: children.drop (j + 1),
      a = sk.pageNo ∨ a = cp ∨ (a ∈ children ∧ a ≠ cp) := by
    intro a ha
    rcases List.mem_append.mp ha with h1 | h2
    · rw [htakej1] at h1
      rcases List.mem_append.mp h1 with h3 | h4
      · exact Or.inr (Or.inr ⟨htake_mem a h3, htake_ne a h3⟩)
      · exact Or.inr (Or.inl (by simpa using h4))
    · rcases List.mem_cons.mp h2 with h3 | h4
      · exact Or.inl h3
      · exact Or.inr (Or.inr ⟨hdrop_mem a h4, hdrop_ne a h4⟩)
  have hchildrenTD : children.take (j + 1) ++ children.drop (j + 1) =
      children := List.take_append_drop _ _
  have hchnd2 : (children.take (j + 1) ++
      sk.pageNo :: children.drop (j + 1)).Nodup := by
    rw [List.nodup_middle, hchildrenTD]
    exact List.nodup_cons.mpr ⟨hskpnot, hchnd⟩
  have hchildren2 : c0 :: (insNLSorted sk front).map (fun p => p.2) =
      children.take (j + 1) ++ sk.pageNo :: children.drop (j + 1) := by
    rw [hchildren', htakej1]
  have hTslt : ∀ a ∈ children, ∀ x ∈ treePids s h a, x < s.nextPage :=
    fun a ha x hx => (hfresh2 a ha x hx).2.1
  have hdisj_oldL : ∀ b ∈ children, b ≠ cp →
      ∀ x, x ∈ treePids t h cp → x ∈ treePids s h b → False := by
    intro b hb hbcp x hxt hxb
    rcases hextL x hxt with hold | ⟨hf1, _⟩
    · exact flatMap_nodup_disjoint (treePids s h) children hnd2 cp hcpmem
        b hb (fun hce => hbcp (hce.symm)) x hold hxb
    · have := hTslt b hb x hxb
      omega
  have hdisj_oldR : ∀ b ∈ children, b ≠ cp →
      ∀ x, x ∈ treePids t h sk.pageNo → x ∈ treePids s h b → False := by
    intro b hb hbcp x hxt hxb
    rcases hextR x hxt with hold | ⟨hf1, _⟩
    · exact flatMap_nodup_disjoint (treePids s h) children hnd2 cp hcpmem
        b hb (fun hce => hbcp (hce.symm)) x hold hxb
    · have := hTslt b hb x hxb
      omega
  -- leaf-sequence bookkeeping
  have hLB : (children.take j).flatMap (leafSeq s₂ h) =
      (children.take j).flatMap (leafSeq s h) :=
    flatMap_congr (fun a ha => (hoth3 a (htake_mem a ha) (htake_ne a ha)).2.1)
  have hLA : (children.drop (j + 1)).flatMap (leafSeq s₂ h) =
      (children.drop (j + 1)).flatMap (leafSeq s h) :=
    flatMap_congr (fun a ha => (hoth3 a (hdrop_mem a ha) (hdrop_ne a ha)).2.1)
  have hLcp2 : leafSeq s₂ h cp = leafSeq t h cp := hvis3L.2.1
  have hLskp2 : leafSeq s₂ h sk.pageNo = leafSeq t h sk.pageNo :=
    hvis3R.2.1
  have hLgB : ∀ lp ∈ (children.take j).flatMap (leafSeq s h),
      getLeaf s₂ lp = getLeaf s lp := by
    intro lp hlp
    obtain ⟨a, ha, hlpa⟩ := List.mem_flatMap.mp hlp
    exact (hoth3 a (htake_mem a ha) (htake_ne a ha)).2.2.2.2 lp hlpa
  have hLgA : ∀ lp ∈ (children.drop (j + 1)).flatMap (leafSeq s h),
      getLeaf s₂ lp = getLeaf s lp := by
    intro lp hlp
    obtain ⟨a, ha, hlpa⟩ := List.mem_flatMap.mp hlp
    exact (hoth3 a (hdrop_mem a ha) (hdrop_ne a ha)).2.2.2.2 lp hlpa
  have hLgV2 : ∀ lp ∈ leafSeq t h cp ++ leafSeq t h sk.pageNo,
      getLeaf s₂ lp = getLeaf t lp := by
    intro lp hlp
    rcases List.mem_append.mp hlp with h1 | h2
    · exact hvis3L.2.2.2.2 lp h1
    · exact hvis3R.2.2.2.2 lp h2
  have hLcpne : leafSeq s h cp ≠ [] := leafSeq_ne_nil h s cp
  have hLtcpne : leafSeq t h cp ≠ [] := leafSeq_ne_nil h t cp
  have hLtpairne : leafSeq t h cp ++ leafSeq t h sk.pageNo ≠ [] := by
    intro hc0
    exact hLtcpne (List.append_eq_nil.mp hc0).1
  have hLBne : 0 < j → (children.take j).flatMap (leafSeq s h) ≠ [] := by
    intro hj0
    refine flatMap_ne_nil _ _ ?_ (fun a _ => leafSeq_ne_nil h s a)
    rw [hchildren]
    cases j with
    | zero => omega
    | succ j2 => simp
  refine ⟨?_, ?_, ?_, ?_, ?_, ?_, ?_⟩
  · -- the segment gains the promoted router at its sorted slot
    refine wfSegP_split (WfTree s h) (WfTree s₂ h) sk hsknorm.symm front
      lo c0 hi j hseg hsort hj hskgood.1 hskgood.2.1 ?_ ?_ ?_
    · exact hvis3L.2.2.1 _ _ hwfL
    · exact hvis3R.2.2.1 _ _ hwfR
    · intro i hile hij lo' hi' hpw
      refine (hoth3 (childAt c0 front i) (childAt_mem c0 front i hile)
        ?_).2.2.1 lo' hi' hpw
      exact childAt_inj c0 front hchnd i j hile hj hij
  · -- the entries of both halves concatenate to the sorted insertion
    have hBeq : (children.take j).flatMap (entriesOf s₂ h) =
        (children.take j).flatMap (entriesOf s h) :=
      flatMap_congr (fun a ha =>
        (hoth3 a (htake_mem a ha) (htake_ne a ha)).2.2.2.1)
    have hAeq : (children.drop (j + 1)).flatMap (entriesOf s₂ h) =
        (children.drop (j + 1)).flatMap (entriesOf s h) :=
      flatMap_congr (fun a ha =>
        (hoth3 a (hdrop_mem a ha) (hdrop_ne a ha)).2.2.2.1)
    have hBlt : ∀ e ∈ (children.take j).flatMap (entriesOf s h),
        strncmp10 e.1 krid.key < 0 := by
      intro e he
      have hj0 : 0 < j := by
        cases Nat.eq_zero_or_pos j with
        | inl hj00 =>
          rw [hj00] at he
          simp at he
        | inr hj0 => exact hj0
      have hblt := entries_before_lt h s front lo c0 hi j hseg hj hj0 e he
      have hloj : strncmp10 (front.getD (j - 1) emptyNLSlot).1
          krid.key ≤ 0 := by
        have h2 := hjlo
        have hj1 : j = (j - 1) + 1 := by omega
        rw [hj1] at h2
        exact h2
      exact strncmp10_lt_of_lt_of_le _ _ _ hblt hloj
    have hAgt : ∀ e ∈ (children.drop (j + 1)).flatMap (entriesOf s h),
        strncmp10 krid.key e.1 < 0 := by
      intro e he
      have hjlt : j < front.length := by
        by_contra hge
        have hde : children.drop (j + 1) = [] :=
          List.drop_eq_nil_of_le (by omega)
        rw [hde] at he
        simp at he
      have hage := entries_after_ge h s front lo c0 hi j hseg hjlt e he
      have hhij : strncmp10 krid.key (front.getD j emptyNLSlot).1 < 0 := by
        have h2 := hjhi
        rw [bHi, if_pos hjlt] at h2
        exact h2
      exact strncmp10_lt_of_lt_of_le _ _ _ hhij hage
    rw [hflat' (entriesOf s₂ h), hflatold (entriesOf s h)]
    rw [hBeq, hAeq, hvis3L.2.2.2.1, hvis3R.2.2.2.1, hentLR]
    rw [insLeafSorted_append_right krid _ _ hBlt]
    refine congrArg _ ?_
    cases hA : (children.drop (j + 1)).flatMap (entriesOf s h) with
    | nil =>
      rw [List.append_nil, List.append_nil]
    | cons a0 arest =>
      rw [insLeafSorted_append_left krid _ a0 arest
        (hAgt a0 (by rw [hA]; simp))]
  · -- every page of the new family is old or freshly allocated
    intro p hpm
    rw [hflat' (treePids s₂ h)] at hpm
    rcases List.mem_append.mp hpm with hB | hrest
    · obtain ⟨a, ha, hpa⟩ := List.mem_flatMap.mp hB
      rw [(hoth3 a (htake_mem a ha) (htake_ne a ha)).1] at hpa
      exact Or.inl (List.mem_flatMap.mpr ⟨a, htake_mem a ha, hpa⟩)
    · rcases List.mem_append.mp hrest with hmid | hA
      · rcases List.mem_append.mp hmid with hcpb | hskpb
        · rw [hT2cp] at hcpb
          rcases hextL p hcpb with hold | hfr
          · exact Or.inl (List.mem_flatMap.mpr ⟨cp, hcpmem, hold⟩)
          · exact Or.inr hfr
        · rw [hT2skp] at hskpb
          rcases hextR p hskpb with hold | hfr
          · exact Or.inl (List.mem_flatMap.mpr ⟨cp, hcpmem, hold⟩)
          · exact Or.inr hfr
      · obtain ⟨a, ha, hpa⟩ := List.mem_flatMap.mp hA
        rw [(hoth3 a (hdrop_mem a ha) (hdrop_ne a ha)).1] at hpa
        exact Or.inl (List.mem_flatMap.mpr ⟨a, hdrop_mem a ha, hpa⟩)
  · -- distinctness of the new family
    rw [hchildren2]
    refine flatMap_nodup_intro (treePids s₂ h) _ ?_ ?_ hchnd2
    · intro a ha
      rcases hmem2 a ha with h1 | h2 | ⟨h3, h4⟩
      · rw [h1, hT2skp]
        exact hndt.2.1
      · rw [h2, hT2cp]
        exact hndt.1
      · rw [(hoth3 a h3 h4).1]
        exact nodup_of_flatMap_mem (treePids s h) children hnd2 a h3
    · intro a ha b hb hab x hxa hxb
      rcases hmem2 a ha with ha1 | ha2 | ⟨ha3, ha4⟩
      · subst ha1
        rw [hT2skp] at hxa
        rcases hmem2 b hb with hb1 | hb2 | ⟨hb3, hb4⟩
        · exact hab hb1.symm
        · subst hb2
          rw [hT2cp] at hxb
          exact hndt.2.2 hxb hxa
        · rw [(hoth3 b hb3 hb4).1] at hxb
          exact hdisj_oldR b hb3 hb4 x hxa hxb
      · subst ha2
        rw [hT2cp] at hxa
        rcases hmem2 b hb with hb1 | hb2 | ⟨hb3, hb4⟩
        · subst hb1
          rw [hT2skp] at hxb
          exact hndt.2.2 hxa hxb
        · exact hab hb2.symm
        · rw [(hoth3 b hb3 hb4).1] at hxb
          exact hdisj_oldL b hb3 hb4 x hxa hxb
      · rw [(hoth3 a ha3 ha4).1] at hxa
        rcases hmem2 b hb with hb1 | hb2 | ⟨hb3, hb4⟩
        · subst hb1
          rw [hT2skp] at hxb
          exact hdisj_oldR a ha3 ha4 x hxb hxa
        · subst hb2
          rw [hT2cp] at hxb
          exact hdisj_oldL a ha3 ha4 x hxb hxa
        · rw [(hoth3 b hb3 hb4).1] at hxb
          exact flatMap_nodup_disjoint (treePids s h) children hnd2 a ha3
            b hb3 hab x hxa hxb
  · -- the leftmost leaf is unchanged
    rw [hflat' (leafSeq s₂ h), hflatold (leafSeq s h)]
    rw [hLB, hLA, hLcp2, hLskp2]
    cases Nat.eq_zero_or_pos j with
    | inl hj0 =>
      have hjt : children.take j = [] := by rw [hj0]; rfl
      rw [hjt, List.flatMap_nil, List.nil_append, List.nil_append]
      rw [List.append_assoc]
      rw [headD_append_left _ _ _ hLtcpne,
        headD_append_left _ _ _ hLcpne]
      exact hheadL
    | inr hj0 =>
      rw [headD_append_left _ _ _ (hLBne hj0),
        headD_append_left _ _ _ (hLBne hj0)]
  · -- the sibling chain threads through both halves
    intro nxt hc
    rw [hflatold (leafSeq s h)] at hc
    rw [hflat' (leafSeq s₂ h), hLB, hLA, hLcp2, hLskp2]
    rw [chainTo_append] at hc
    obtain ⟨hcB, hcRest⟩ := hc
    rw [chainTo_append] at hcRest
    obtain ⟨hcV, hcA⟩ := hcRest
    have hcLR := hchainLR _ hcV
    rw [chainTo_append]
    constructor
    · refine chainTo_congr s s₂ _ _ hLgB ?_
      have hhd : (((leafSeq t h cp ++ leafSeq t h sk.pageNo) ++
          (children.drop (j + 1)).flatMap (leafSeq s h)).headD nxt) =
          ((leafSeq s h cp ++
          (children.drop (j + 1)).flatMap (leafSeq s h)).headD nxt) := by
        rw [headD_append_left _ _ _ hLtpairne,
          headD_append_left _ _ _ hLcpne,
          headD_append_left _ _ _ hLtcpne]
        rw [headD_default_eq _ _ 0 hLtcpne,
          headD_default_eq (leafSeq s h cp) _ 0 hLcpne]
        exact hheadL
      rw [hhd]
      exact hcB
    · rw [chainTo_append]
      constructor
      · refine chainTo_congr t s₂ _ _ hLgV2 ?_
        exact hcLR
      · exact chainTo_congr s s₂ _ _ hLgA hcA
  · -- leaves other than the leftmost stay nonempty
    intro k hk hne
    rw [hflatold (leafSeq s h)] at hne
    rw [hflat' (leafSeq s₂ h), hLB, hLA, hLcp2, hLskp2]
    cases Nat.eq_zero_or_pos j with
    | inl hj0 =>
      have hjt : children.take j = [] := by rw [hj0]; rfl
      rw [hjt, List.flatMap_nil, List.nil_append] at hne ⊢
      have hkle : k ≤ (leafSeq s h cp).length := by
        have : 1 ≤ (leafSeq s h cp).length := by
          cases hsc : leafSeq s h cp with
          | nil => exact absurd hsc hLcpne
          | cons x xs => simp
        omega
      obtain ⟨hV, hA⟩ := NEFrom_append_split s _ _ k hkle hne
      have hV2 : NEFrom t (leafSeq t h cp ++ leafSeq t h sk.pageNo) k :=
        hneLR k hk hV
      refine NEFrom_append_intro s₂ _ _ k (by
        have h1 : 1 ≤ (leafSeq t h cp).length := by
          cases hsc : leafSeq t h cp with
          | nil => exact absurd hsc hLtcpne
          | cons x xs => simp
        rw [List.length_append]
        omega) ?_ ?_
      · exact NEFrom_congr t s₂ _ k hLgV2 hV2
      · refine NEFrom_congr s s₂ _ 0 ?_ hA
        exact fun p hp => hLgA p hp
    | inr hj0 =>
      have hkle : k ≤ ((children.take j).flatMap (leafSeq s h)).length := by
        have h1 : 1 ≤ ((children.take j).flatMap (leafSeq s h)).length := by
          cases hsc : (children.take j).flatMap (leafSeq s h) with
          | nil => exact absurd hsc (hLBne hj0)
          | cons x xs => simp
        omega
      obtain ⟨hB, hRest⟩ := NEFrom_append_split s _ _ k hkle hne
      obtain ⟨hV, hA⟩ := NEFrom_append_split s _ _ 0 (by omega) hRest
      have hV2 : NEFrom t (leafSeq t h cp ++ leafSeq t h sk.pageNo) 0 :=
        hneLR 0 (by omega) hV
      refine NEFrom_append_intro s₂ _ _ k hkle ?_ ?_
      · exact NEFrom_congr s s₂ _ k hLgB hB
      · refine NEFrom_append_intro s₂ _ _ 0 (by omega) ?_ ?_
        · exact NEFrom_congr t s₂ _ 0 hLgV2 hV2
        · exact NEFrom_congr s s₂ _ 0 hLgA hA

theorem wfSegP_take (P : Nat → Option Key → Option Key → Prop) :
    ∀ (front : List (Key × Nat)) (lo : Option Key) (c : Nat)
      (hi : Option Key) (m : Nat),
    WfSegP P lo c front hi → m < front.length →
    WfSegP P lo c (front.take m) (some (front.getD m emptyNLSlot).1) := by
  intro front
  induction front with
  | nil =>
    intro lo c hi m _ hm
    simp at hm
  | cons p rest ih =>
    intro lo c hi m hw hm
    obtain ⟨ky, c2⟩ := p
    obtain ⟨h1, h2, h3⟩ := hw
    cases m with
    | zero =>
      rw [List.take_zero, List.getD_cons_zero]
      exact h1
    | succ i =>
      rw [List.length_cons] at hm
      rw [List.take_succ_cons, List.getD_cons_succ]
      have hky : strncmp10 ky (rest.getD i emptyNLSlot).1 < 0 := by
        have hmem : rest.getD i emptyNLSlot ∈ rest := by
          rw [List.getD_eq_getElem rest emptyNLSlot (by omega)]
          exact List.getElem_mem (by omega)
        exact ((wfSegP_routers P rest (some ky) c2 hi h3).2 _ hmem).1
      exact ⟨h1, ⟨h2.1, hky, h2.2.2⟩, ih (some ky) c2 hi i h3 (by omega)⟩

theorem wfSegP_drop (P : Nat → Option Key → Option Key → Prop) :
    ∀ (front : List (Key × Nat)) (lo : Option Key) (c : Nat)
      (hi : Option Key) (m : Nat),
    WfSegP P lo c front hi → m < front.length →
    WfSegP P (some (front.getD m emptyNLSlot).1)
      (front.getD m emptyNLSlot).2 (front.drop (m + 1)) hi := by
  intro front
  induction front with
  | nil =>
    intro lo c hi m _ hm
    simp at hm
  | cons p rest ih =>
    intro lo c hi m hw hm
    obtain ⟨ky, c2⟩ := p
    obtain ⟨h1, h2, h3⟩ := hw
    cases m with
    | zero =>
      rw [List.getD_cons_zero, List.drop_succ_cons, List.drop_zero]
      exact h3
    | succ i =>
      rw [List.length_cons] at hm
      rw [List.getD_cons_succ, List.drop_succ_cons]
      exact ih (some ky) c2 hi i h3 (by omega)

/-- Package the segment-level outcome of an absorbed insertion into the
`AbsorbOut` contract of the parent node, one level up. -/
theorem absorb_package (krid : RIDKeyPair) (h pid : Nat) (s u : BTState)
    (lo hi : Option Key) (oldn nn : NonLeafNode)
    (oldfront ff : List (Key × Nat))
    (hps : s.pages pid = PageData.nonleaf oldn)
    (hdns : IsDenseNL oldn oldfront)
    (hpu : u.pages pid = PageData.nonleaf nn)
    (hlev : nn.level = h + 1)
    (hdn : IsDenseNL nn ff)
    (hlen1 : 1 ≤ ff.length)
    (hwfseg : WfSegP (WfTree u h) lo nn.firstPageNo ff hi)
    (hent : (nn.firstPageNo :: ff.map (fun p => p.2)).flatMap
        (entriesOf u h) =
      insLeafSorted krid
        ((oldn.firstPageNo :: oldfront.map (fun p => p.2)).flatMap
          (entriesOf s h)))
    (hext : ∀ p ∈ (nn.firstPageNo :: ff.map (fun p => p.2)).flatMap
        (treePids u h),
      p ∈ (oldn.firstPageNo :: oldfront.map (fun p => p.2)).flatMap
        (treePids s h) ∨ (s.nextPage ≤ p ∧ p < u.nextPage))
    (hnd : ((nn.firstPageNo :: ff.map (fun p => p.2)).flatMap
      (treePids u h)).Nodup)
    (hheadD : ((nn.firstPageNo :: ff.map (fun p => p.2)).flatMap
        (leafSeq u h)).headD 0 =
      ((oldn.firstPageNo :: oldfront.map (fun p => p.2)).flatMap
        (leafSeq s h)).headD 0)
    (hchain : ∀ nxt,
      ChainTo s ((oldn.firstPageNo :: oldfront.map (fun p => p.2)).flatMap
        (leafSeq s h)) nxt →
      ChainTo u ((nn.firstPageNo :: ff.map (fun p => p.2)).flatMap
        (leafSeq u h)) nxt)
    (hne : ∀ k, k ≤ 1 →
      NEFrom s ((oldn.firstPageNo :: oldfront.map (fun p => p.2)).flatMap
        (leafSeq s h)) k →
      NEFrom u ((nn.firstPageNo :: ff.map (fun p => p.2)).flatMap
        (leafSeq u h)) k)
    (hpidnot : pid ∉ (oldn.firstPageNo ::
      oldfront.map (fun p => p.2)).flatMap (treePids s h))
    (hpidlt : pid < s.nextPage) :
    AbsorbOut krid s u (h + 1) pid lo hi := by
  have htpu := treePids_children u h pid nn ff hpu hdn
  have htps := treePids_children s h pid oldn oldfront hps hdns
  have hlsu := leafSeq_children u h pid nn ff hpu hdn
  have hlss := leafSeq_children s h pid oldn oldfront hps hdns
  have hesu := entriesOf_children u h pid nn ff hpu hdn
  have hess := entriesOf_children s h pid oldn oldfront hps hdns
  refine ⟨⟨nn, ff, hpu, hlev, hdn, hlen1, hwfseg⟩, ?_, ?_, ?_, ?_, ?_, ?_⟩
  · rw [hesu, hess, hent]
  · intro p hpm
    rw [htpu] at hpm
    rcases List.mem_cons.mp hpm with hph | hpt
    · exact Or.inl (hph ▸ mem_treePids_self s (h + 1) pid)
    · rcases hext p hpt with hold | hfr
      · rw [htps]
        exact Or.inl (List.mem_cons_of_mem _ hold)
      · exact Or.inr hfr
  · rw [htpu, List.nodup_cons]
    refine ⟨?_, hnd⟩
    intro hpm
    rcases hext pid hpm with hold | ⟨hf1, _⟩
    · exact hpidnot hold
    · omega
  · rw [hlsu, hlss]
    exact hheadD
  · intro nxt hc
    rw [hlss] at hc
    rw [hlsu]
    exact hchain nxt hc
  · intro k hk hne2
    rw [hlss] at hne2
    rw [hlsu]
    exact hne k hk hne2

set_option maxHeartbeats 1000000 in
/-- Package the segment-level outcome over the widened router run into the
two-halves contract after the parent node itself splits at router `m`. -/
theorem split_package (krid : RIDKeyPair) (h pid newPid : Nat)
    (s u : BTState) (lo hi : Option Key) (oldn curN newN : NonLeafNode)
    (oldfront ILS : List (Key × Nat)) (m tN : Nat)
    (hps : s.pages pid = PageData.nonleaf oldn)
    (hdns : IsDenseNL oldn oldfront)
    (hpsL : u.pages pid = PageData.nonleaf curN)
    (hlevL : curN.level = h + 1)
    (hdnL : IsDenseNL curN (ILS.take m))
    (hfpL : curN.firstPageNo = oldn.firstPageNo)
    (hpsR : u.pages newPid = PageData.nonleaf newN)
    (hlevR : newN.level = h + 1)
    (hdnR : IsDenseNL newN (ILS.drop (m + 1)))
    (hfpR : newN.firstPageNo = (ILS.getD m emptyNLSlot).2)
    (hm1 : 1 ≤ m)
    (hm2 : m + 2 ≤ ILS.length)
    (hwfseg : WfSegP (WfTree u h) lo oldn.firstPageNo ILS hi)
    (hent : (oldn.firstPageNo :: ILS.map (fun p => p.2)).flatMap
        (entriesOf u h) =
      insLeafSorted krid
        ((oldn.firstPageNo :: oldfront.map (fun p => p.2)).flatMap
          (entriesOf s h)))
    (hext : ∀ p ∈ (oldn.firstPageNo :: ILS.map (fun p => p.2)).flatMap
        (treePids u h),
      p ∈ (oldn.firstPageNo :: oldfront.map (fun p => p.2)).flatMap
        (treePids s h) ∨ (s.nextPage ≤ p ∧ p < tN))
    (hnd : ((oldn.firstPageNo :: ILS.map (fun p => p.2)).flatMap
      (treePids u h)).Nodup)
    (hheadD : ((oldn.firstPageNo :: ILS.map (fun p => p.2)).flatMap
        (leafSeq u h)).headD 0 =
      ((oldn.firstPageNo :: oldfront.map (fun p => p.2)).flatMap
        (leafSeq s h)).headD 0)
    (hchain : ∀ nxt,
      ChainTo s ((oldn.firstPageNo :: oldfront.map (fun p => p.2)).flatMap
        (leafSeq s h)) nxt →
      ChainTo u ((oldn.firstPageNo :: ILS.map (fun p => p.2)).flatMap
        (leafSeq u h)) nxt)
    (hne : ∀ k, k ≤ 1 →
      NEFrom s ((oldn.firstPageNo :: oldfront.map (fun p => p.2)).flatMap
        (leafSeq s h)) k →
      NEFrom u ((oldn.firstPageNo :: ILS.map (fun p => p.2)).flatMap
        (leafSeq u h)) k)
    (hpidnot : pid ∉ (oldn.firstPageNo ::
      oldfront.map (fun p => p.2)).flatMap (treePids s h))
    (hpidlt : pid < s.nextPage)
    (holdlt : ∀ p ∈ (oldn.firstPageNo ::
      oldfront.map (fun p => p.2)).flatMap (treePids s h), p < s.nextPage)
    (hTle : tN ≤ newPid)
    (hnple : s.nextPage ≤ tN)
    (hnewlt : newPid < u.nextPage) :
    WfTree u (h + 1) pid lo (some (ILS.getD m emptyNLSlot).1) ∧
    WfTree u (h + 1) newPid (some (ILS.getD m emptyNLSlot).1) hi ∧
    entriesOf u (h + 1) pid ++ entriesOf u (h + 1) newPid =
      insLeafSorted krid (entriesOf s (h + 1) pid) ∧
    (∀ p ∈ treePids u (h + 1) pid ++ treePids u (h + 1) newPid,
      p ∈ treePids s (h + 1) pid ∨
        (s.nextPage ≤ p ∧ p < newPid + 1)) ∧
    (treePids u (h + 1) pid ++ treePids u (h + 1) newPid).Nodup ∧
    (leafSeq u (h + 1) pid).headD 0 = (leafSeq s (h + 1) pid).headD 0 ∧
    (∀ nxt, ChainTo s (leafSeq s (h + 1) pid) nxt →
      ChainTo u (leafSeq u (h + 1) pid ++ leafSeq u (h + 1) newPid) nxt) ∧
    (∀ k, k ≤ 1 → NEFrom s (leafSeq s (h + 1) pid) k →
      NEFrom u (leafSeq u (h + 1) pid ++ leafSeq u (h + 1) newPid) k) := by
  set c0 := oldn.firstPageNo with hc0
  have hmlt : m < ILS.length := by omega
  have hILSdec : ILS = ILS.take m ++
      ILS.getD m emptyNLSlot :: ILS.drop (m + 1) := by
    conv_lhs => rw [← List.take_append_drop m ILS]
    rw [List.getD_eq_getElem ILS emptyNLSlot hmlt,
      List.drop_eq_getElem_cons hmlt]
  have hsplitC : c0 :: ILS.map (fun p => p.2) =
      (c0 :: (ILS.take m).map (fun p => p.2)) ++
      ((ILS.getD m emptyNLSlot).2 ::
        (ILS.drop (m + 1)).map (fun p => p.2)) := by
    conv_lhs => rw [hILSdec]
    rw [List.map_append, List.map_cons, List.cons_append]
  set childrenL : List Nat := c0 :: (ILS.take m).map (fun p => p.2)
    with hchildrenL
  set childrenR : List Nat := (ILS.getD m emptyNLSlot).2 ::
    (ILS.drop (m + 1)).map (fun p => p.2) with hchildrenR
  have htpsO := treePids_children s h pid oldn oldfront hps hdns
  have hlssO := leafSeq_children s h pid oldn oldfront hps hdns
  have hessO := entriesOf_children s h pid oldn oldfront hps hdns
  have htpL : treePids u (h + 1) pid =
      pid :: childrenL.flatMap (treePids u h) := by
    rw [treePids_children u h pid curN (ILS.take m) hpsL hdnL, hfpL]
  have htpR : treePids u (h + 1) newPid =
      newPid :: childrenR.flatMap (treePids u h) := by
    rw [treePids_children u h newPid newN (ILS.drop (m + 1)) hpsR hdnR, hfpR]
  have hlsL : leafSeq u (h + 1) pid = childrenL.flatMap (leafSeq u h) := by
    rw [leafSeq_children u h pid curN (ILS.take m) hpsL hdnL, hfpL]
  have hlsR : leafSeq u (h + 1) newPid =
      childrenR.flatMap (leafSeq u h) := by
    rw [leafSeq_children u h newPid newN (ILS.drop (m + 1)) hpsR hdnR, hfpR]
  have hesL : entriesOf u (h + 1) pid =
      childrenL.flatMap (entriesOf u h) := by
    rw [entriesOf_children u h pid curN (ILS.take m) hpsL hdnL, hfpL]
  have hesR : entriesOf u (h + 1) newPid =
      childrenR.flatMap (entriesOf u h) := by
    rw [entriesOf_children u h newPid newN (ILS.drop (m + 1)) hpsR hdnR, hfpR]
  have hndAB : (childrenL.flatMap (treePids u h) ++
      childrenR.flatMap (treePids u h)).Nodup := by
    rw [← List.flatMap_append, ← hsplitC]
    exact hnd
  have hextAB : ∀ p ∈ childrenL.flatMap (treePids u h) ++
      childrenR.flatMap (treePids u h),
      p ∈ (c0 :: oldfront.map (fun p => p.2)).flatMap (treePids s h) ∨
        (s.nextPage ≤ p ∧ p < tN) := by
    intro p hpm
    refine hext p ?_
    rw [hsplitC, List.flatMap_append]
    exact hpm
  have hpidnotAB : pid ∉ childrenL.flatMap (treePids u h) ++
      childrenR.flatMap (treePids u h) := by
    intro hpm
    rcases hextAB pid hpm with hold | ⟨hf1, _⟩
    · exact hpidnot hold
    · omega
  have hnewnotAB : newPid ∉ childrenL.flatMap (treePids u h) ++
      childrenR.flatMap (treePids u h) := by
    intro hpm
    rcases hextAB newPid hpm with hold | ⟨_, hf2⟩
    · have := holdlt newPid hold
      omega
    · omega
  have hpidnew : pid ≠ newPid := by omega
  have hLAne : childrenL.flatMap (leafSeq u h) ≠ [] := by
    refine flatMap_ne_nil _ _ ?_ (fun a _ => leafSeq_ne_nil h u a)
    rw [hchildrenL]
    simp
  refine ⟨?_, ?_, ?_, ?_, ?_, ?_, ?_, ?_⟩
  · refine ⟨curN, ILS.take m, hpsL, hlevL, hdnL, ?_, ?_⟩
    · rw [List.length_take]
      omega
    · rw [hfpL]
      exact wfSegP_take (WfTree u h) ILS lo c0 hi m hwfseg hmlt
  · refine ⟨newN, ILS.drop (m + 1), hpsR, hlevR, hdnR, ?_, ?_⟩
    · rw [List.length_drop]
      omega
    · rw [hfpR]
      exact wfSegP_drop (WfTree u h) ILS lo c0 hi m hwfseg hmlt
  · rw [hesL, hesR, hessO, ← List.flatMap_append, ← hsplitC, hent]
  · intro p hpm
    rcases List.mem_append.mp hpm with hpl | hpr
    · rw [htpL] at hpl
      rcases List.mem_cons.mp hpl with hph | hpt
      · exact Or.inl (hph ▸ mem_treePids_self s (h + 1) pid)
      · rcases hextAB p (List.mem_append_left _ hpt) with hold | ⟨hf1, hf2⟩
        · rw [htpsO]
          exact Or.inl (List.mem_cons_of_mem _ hold)
        · exact Or.inr ⟨hf1, by omega⟩
    · rw [htpR] at hpr
      rcases List.mem_cons.mp hpr with hph | hpt
      · exact Or.inr ⟨by omega, by omega⟩
      · rcases hextAB p (List.mem_append_right _ hpt) with hold | ⟨hf1, hf2⟩
        · rw [htpsO]
          exact Or.inl (List.mem_cons_of_mem _ hold)
        · exact Or.inr ⟨hf1, by omega⟩
  · rw [htpL, htpR]
    have hab := List.nodup_append.mp hndAB
    rw [List.cons_append]
    rw [List.nodup_cons]
    constructor
    · intro hpm
      rcases List.mem_append.mp hpm with h1 | h2
      · exact hpidnotAB (List.mem_append_left _ h1)
      · rcases List.mem_cons.mp h2 with h3 | h4
        · omega
        · exact hpidnotAB (List.mem_append_right _ h4)
    · rw [List.nodup_append]
      refine ⟨hab.1, ?_, ?_⟩
      · rw [List.nodup_cons]
        refine ⟨?_, hab.2.1⟩
        intro hpm
        exact hnewnotAB (List.mem_append_right _ hpm)
      · intro x hx1 hx2
        rcases List.mem_cons.mp hx2 with h3 | h4
        · exact hnewnotAB (h3 ▸ List.mem_append_left _ hx1)
        · exact hab.2.2 hx1 h4
  · rw [hlsL, hlssO]
    rw [hsplitC, List.flatMap_append] at hheadD
    rw [← hheadD, headD_append_left _ _ _ hLAne]
  · intro nxt hc
    rw [hlssO] at hc
    rw [hlsL, hlsR]
    have h2 := hchain nxt hc
    rw [hsplitC, List.flatMap_append] at h2
    exact h2
  · intro k hk hn
    rw [hlssO] at hn
    rw [hlsL, hlsR]
    have h2 := hne k hk hn
    rw [hsplitC, List.flatMap_append] at h2
    exact h2

set_option maxHeartbeats 1000000 in
theorem insertFixup_nonroot (h : Nat) (krid : RIDKeyPair) (pid : Nat)
    (s t : BTState) (lo hi : Option Key) (n : NonLeafNode)
    (front : List (Key × Nat)) (j : Nat) (split? : Option PageKeyPair)
    (hp : s.pages pid = PageData.nonleaf n)
    (hlev : n.level = h + 1)
    (hdn : IsDenseNL n front)
    (hlen1 : 1 ≤ front.length)
    (hseg : WfSegP (WfTree s h) lo n.firstPageNo front hi)
    (hj : j ≤ front.length)
    (hnodup : (treePids s (h + 1) pid).Nodup)
    (hfresh : ∀ p ∈ treePids s (h + 1) pid,
      p ≠ INVALID_NUMBER ∧ p < s.nextPage ∧ p ≠ s.headerPageNum)
    (hjlo : loLe (bLo lo front j) krid.key)
    (hjhi : hiGt krid.key (bHi hi front j))
    (hchild : ChildOut krid s h (childAt n.firstPageNo front j)
      (bLo lo front j) (bHi hi front j) (split?, t))
    (hhdr : s.headerPageNum < s.nextPage)
    (hnr : pid ≠ s.rootPageNum) :
    ChildOut krid s (h + 1) pid lo hi (insertFixup t pid split?) := by
  obtain ⟨hco, hnonecase, hsomecase⟩ := hchild
  obtain ⟨hsfe, hhdq, hnpt, hframe⟩ := hco
  set c0 := n.firstPageNo with hc0
  set cp := childAt c0 front j with hcp
  set children : List Nat := c0 :: front.map (fun p => p.2) with hchildren
  have htp := treePids_children s h pid n front hp hdn
  have hpidnot : pid ∉ children.flatMap (treePids s h) := by
    have h2 := hnodup
    rw [htp, List.nodup_cons] at h2
    exact h2.1
  have hcpmem : cp ∈ children := childAt_mem c0 front j hj
  have hsub : ∀ q ∈ treePids s h cp, q ∈ children.flatMap (treePids s h) :=
    fun q hq => List.mem_flatMap.mpr ⟨cp, hcpmem, hq⟩
  obtain ⟨hpidne0, hpidlt, hpidnhdr⟩ :=
    hfresh pid (mem_treePids_self s (h + 1) pid)
  have hpidnotincp : pid ∉ treePids s h cp := fun hm => hpidnot (hsub _ hm)
  have htpg : t.pages pid = s.pages pid :=
    hframe pid hpidnotincp hpidnhdr hpidlt
  have hgn : getNonLeaf t pid = n := by
    rw [getNonLeaf, htpg, hp]
  have hroot_t : t.rootPageNum = s.rootPageNum := by
    cases split? with
    | none => exact (hnonecase rfl).1
    | some sk => exact (hsomecase sk rfl).1
  have holdlt : ∀ p ∈ children.flatMap (treePids s h), p < s.nextPage := by
    intro p hpm
    refine (hfresh p ?_).2.1
    rw [htp]
    exact List.mem_cons_of_mem _ hpm
  have hframe2 : ∀ q, q ∉ treePids s (h + 1) pid →
      q ≠ s.headerPageNum → q < s.nextPage → t.pages q = s.pages q := by
    intro q hq hq2 hq3
    refine hframe q ?_ hq2 hq3
    intro hm
    exact hq (htp ▸ List.mem_cons_of_mem _ (hsub q hm))
  cases split? with
  | none =>
    have habs := (hnonecase rfl).2
    obtain ⟨p1, p2, p3, p4, p5, p6, p7⟩ := seg_after_absorb h krid pid
      s t (unPinPageM t pid) lo hi n front j hp hdn hseg hj hnodup hfresh
      hframe hnpt habs hjlo hjhi (fun q _ _ _ => rfl) (Nat.le_refl _) hhdr
    show ChildOut krid s (h + 1) pid lo hi (none, unPinPageM t pid)
    refine ⟨⟨hsfe, hhdq, hnpt, hframe2⟩, ?_, ?_⟩
    · intro _
      refine ⟨hroot_t, ?_⟩
      exact absorb_package krid h pid s (unPinPageM t pid) lo hi n n
        front front hp hdn (htpg.trans hp) hlev hdn hlen1 p1 p2 p3 p4 p5
        p6 p7 hpidnot hpidlt
    · intro sk hsk
      exact Option.noConfusion hsk
  | some sk =>
    obtain ⟨-, hsplit⟩ := hsomecase sk rfl
    have hnpt' : s.nextPage ≤ t.nextPage := hnpt
    have hskne0 : sk.pageNo ≠ INVALID_NUMBER := hsplit.2.2.1
    have hsort := (wfSegP_routers (WfTree s h) front lo c0 hi hseg).1
    have hgoodold := (wfSegP_routers (WfTree s h) front lo c0 hi hseg).2
    have hskgood := hsplit.2.2.2.2.1
    have hjlo' : 0 < j →
        strncmp10 (front.getD (j - 1) emptyNLSlot).1 sk.key < 0 := by
      intro hj0
      have h2 := hskgood.1
      have hj1 : j = (j - 1) + 1 := by omega
      rw [hj1] at h2
      exact h2
    have hjhi' : j < front.length →
        strncmp10 sk.key (front.getD j emptyNLSlot).1 < 0 := by
      intro hjlt
      have h2 := hskgood.2.1
      rw [bHi, if_pos hjlt] at h2
      exact h2
    have hdist : ∀ p ∈ front, strncmp10 p.1 sk.key ≠ 0 := by
      intro p hpm
      rcases List.mem_append.mp
          ((List.take_append_drop j front) ▸ hpm) with h1 | h2
      · have := routers_take_lt front sk.key j hsort hj hjlo' p h1
        omega
      · have := routers_drop_gt front sk.key j hsort hjhi' p h2
        have := strncmp10_flip sk.key p.1
        omega
    have hlosk : loLt lo sk.key := by
      cases j with
      | zero => exact hskgood.1
      | succ i =>
        have hilen : i < front.length := by omega
        have hgm : front.getD i emptyNLSlot ∈ front := by
          rw [List.getD_eq_getElem front emptyNLSlot hilen]
          exact List.getElem_mem hilen
        have hglo := (hgoodold _ hgm).1
        have hltk : strncmp10 (front.getD i emptyNLSlot).1 sk.key < 0 :=
          hskgood.1
        cases lo with
        | none => trivial
        | some x =>
          exact strncmp10_lt_of_lt_of_le _ _ _ hglo (le_of_lt hltk)
    have hhisk : hiGt sk.key hi := by
      by_cases hjlt : j < front.length
      · have hgm : front.getD j emptyNLSlot ∈ front := by
          rw [List.getD_eq_getElem front emptyNLSlot hjlt]
          exact List.getElem_mem hjlt
        have hghi := (hgoodold _ hgm).2.1
        have hltk : strncmp10 sk.key (front.getD j emptyNLSlot).1 < 0 :=
          hjhi' hjlt
        cases hi with
        | none => trivial
        | some y =>
          exact strncmp10_lt_of_lt_of_le _ _ _ hltk (le_of_lt hghi)
      · have h2 := hskgood.2.1
        rw [bHi, if_neg hjlt] at h2
        exact h2
    have hILSgood : ∀ p ∈ insNLSorted sk front, goodRouterKey lo hi p.1 :=
      insNLSorted_good sk front lo hi hgoodold hlosk hhisk
    have hILSocc : ∀ p ∈ insNLSorted sk front, p.2 ≠ INVALID_NUMBER :=
      insNLSorted_occ sk front hdn.2.2 hskne0
    have hILSlen : (insNLSorted sk front).length = front.length + 1 :=
      insNLSorted_length sk front
    by_cases hroomy : front.length < NON_LEAF_NUM_KEYS
    · -- the promoted pair is absorbed into this node
      have hro : isRoomyNonLeaf n = true :=
        (isRoomyNonLeaf_dense n front hdn).mpr hroomy
      have hn2slots : insertInRoomyNonLeafGo sk n.slots =
          insNLSorted sk front ++ List.replicate
            (NON_LEAF_NUM_KEYS - front.length - 1) emptyNLSlot := by
        rw [hdn.1]
        have hm : NON_LEAF_NUM_KEYS - front.length =
            (NON_LEAF_NUM_KEYS - front.length - 1) + 1 := by
          show (4:Nat) - front.length = (4 - front.length - 1) + 1
          have h4 : front.length < 4 := hroomy
          omega
        rw [hm, insertInRoomyNonLeafGo_dense sk front _ hdn.2.2]
        simp only [Nat.add_sub_cancel]
      have hres : insertFixup t pid (some sk) =
          (none, unPinPageM (setPage t pid (PageData.nonleaf
            (insertInRoomyNonLeaf n sk))) pid) := by
        simp only [insertFixup, hgn, hro, if_true]
      have hdn2 : IsDenseNL (insertInRoomyNonLeaf n sk)
          (insNLSorted sk front) := by
        refine ⟨?_, ?_, hILSocc⟩
        · show insertInRoomyNonLeafGo sk n.slots = _
          rw [hn2slots, hILSlen]
          have hm : NON_LEAF_NUM_KEYS - front.length - 1 =
              NON_LEAF_NUM_KEYS - (front.length + 1) := by
            show (4:Nat) - front.length - 1 = 4 - (front.length + 1)
            omega
          rw [hm]
        · rw [hILSlen]
          show front.length + 1 ≤ 4
          have h4 : front.length < 4 := hroomy
          omega
      set u := unPinPageM (setPage t pid (PageData.nonleaf
        (insertInRoomyNonLeaf n sk))) pid with hu
      have hagQ : ∀ q, q < t.nextPage → q ≠ pid →
          q ≠ s.headerPageNum → u.pages q = t.pages q := by
        intro q _ hq _
        exact Function.update_noteq hq _ _
      obtain ⟨p1, p2, p3, p4, p5, p6, p7⟩ := seg_after_split h krid pid
        s t u lo hi n front j sk hp hdn hseg hj hnodup hfresh hframe hnpt
        hsplit hjlo hjhi hagQ (Nat.le_refl _) hhdr
      have hpu : u.pages pid =
          PageData.nonleaf (insertInRoomyNonLeaf n sk) :=
        Function.update_same pid _ t.pages
      rw [hres]
      refine ⟨⟨hsfe, hhdq, hnpt, ?_⟩, ?_, ?_⟩
      · intro q hq hq2 hq3
        have hqpid : q ≠ pid := by
          intro he
          exact hq (he ▸ mem_treePids_self s (h + 1) pid)
        rw [hagQ q (by omega : q < t.nextPage) hqpid hq2]
        exact hframe2 q hq hq2 hq3
      · intro _
        refine ⟨hroot_t, ?_⟩
        refine absorb_package krid h pid s u lo hi n
          (insertInRoomyNonLeaf n sk) front (insNLSorted sk front) hp hdn
          hpu hlev hdn2 ?_ p1 p2 p3 p4 p5 p6 p7 hpidnot hpidlt
        rw [hILSlen]
        omega
      · intro sk2 hsk2
        exact Option.noConfusion hsk2
    · -- the node is full: split it and promote the middle router
      have hro : isRoomyNonLeaf n = false := by
        cases hb : isRoomyNonLeaf n with
        | false => rfl
        | true =>
          exact absurd ((isRoomyNonLeaf_dense n front hdn).mp hb) hroomy
      have hflen : front.length = 4 := by
        have h4 : front.length ≤ 4 := hdn.2.1
        have h5 : ¬ front.length < 4 := hroomy
        omega
      have hILSlen5 : (insNLSorted sk front).length = 5 := by
        rw [hILSlen, hflen]
      have hspliteq := splitNonLeafNode_dense n sk front hdn
        (by rw [hflen]; rfl) hsort hdist hskne0
      have hres : insertFixup t pid (some sk) =
          (some ⟨t.nextPage,
            strncpy10 ((insNLSorted sk front).getD 2 emptyNLSlot).1⟩,
           { t with
              pages := Function.update (Function.update (Function.update
                  t.pages t.nextPage (PageData.nonleaf emptyNonLeaf)) pid
                  (PageData.nonleaf
                    { level := n.level, firstPageNo := n.firstPageNo,
                      slots := (insNLSorted sk front).take 2 ++
                        List.replicate 2 emptyNLSlot }))
                t.nextPage
                (PageData.nonleaf
                  { level := n.level,
                    firstPageNo :=
                      ((insNLSorted sk front).getD 2 emptyNLSlot).2,
                    slots := (insNLSorted sk front).drop 3 ++
                      List.replicate 2 emptyNLSlot })
              nextPage := t.nextPage + 1
              pins := (insertFixup t pid (some sk)).2.pins }) := by
        simp only [insertFixup, hgn, hro, Bool.false_eq_true, if_false]
        rw [hspliteq]
        split
        · rename_i hrt
          exact absurd (hrt.trans hroot_t) hnr
        · rfl
      rw [hres]
      set cur2v : NonLeafNode :=
        { level := n.level, firstPageNo := n.firstPageNo,
          slots := (insNLSorted sk front).take 2 ++
            List.replicate 2 emptyNLSlot } with hcur2v
      set new2v : NonLeafNode :=
        { level := n.level,
          firstPageNo := ((insNLSorted sk front).getD 2 emptyNLSlot).2,
          slots := (insNLSorted sk front).drop 3 ++
            List.replicate 2 emptyNLSlot } with hnew2v
      set uf : BTState :=
        { t with
            pages := Function.update (Function.update (Function.update
                t.pages t.nextPage (PageData.nonleaf emptyNonLeaf)) pid
                (PageData.nonleaf cur2v))
              t.nextPage (PageData.nonleaf new2v)
            nextPage := t.nextPage + 1
            pins := (insertFixup t pid (some sk)).2.pins } with hufdef
      have hufpg : uf.pages = Function.update (Function.update
          (Function.update t.pages t.nextPage
            (PageData.nonleaf emptyNonLeaf)) pid (PageData.nonleaf cur2v))
          t.nextPage (PageData.nonleaf new2v) := rfl
      have hpidtn : pid ≠ t.nextPage := by omega
      have hupid : uf.pages pid = PageData.nonleaf cur2v := by
        rw [hufpg, Function.update_noteq hpidtn, Function.update_same]
      have hunew : uf.pages t.nextPage = PageData.nonleaf new2v := by
        rw [hufpg, Function.update_same]
      have huq : ∀ q, q ≠ pid → q ≠ t.nextPage →
          uf.pages q = t.pages q := by
        intro q h1 h2
        rw [hufpg, Function.update_noteq h2, Function.update_noteq h1,
          Function.update_noteq h2]
      have hagQ : ∀ q, q < t.nextPage → q ≠ pid →
          q ≠ s.headerPageNum → uf.pages q = t.pages q :=
        fun q hq1 hq2 _ => huq q hq2 (by omega)
      obtain ⟨p1, p2, p3, p4, p5, p6, p7⟩ := seg_after_split h krid pid
        s t uf lo hi n front j sk hp hdn hseg hj hnodup hfresh hframe hnpt
        hsplit hjlo hjhi hagQ (Nat.le_succ _) hhdr
      have htk2 : ((insNLSorted sk front).take 2).length = 2 := by
        rw [List.length_take, hILSlen5]
        omega
      have hdr3 : ((insNLSorted sk front).drop 3).length = 2 := by
        rw [List.length_drop, hILSlen5]
      have hdnL : IsDenseNL cur2v ((insNLSorted sk front).take 2) := by
        refine ⟨?_, ?_, ?_⟩
        · show (insNLSorted sk front).take 2 ++
            List.replicate 2 emptyNLSlot = _
          rw [htk2]
          rfl
        · rw [htk2]
          show (2:Nat) ≤ 4
          omega
        · intro p2m hp2m
          exact hILSocc p2m (List.mem_of_mem_take hp2m)
      have hdnR : IsDenseNL new2v ((insNLSorted sk front).drop 3) := by
        refine ⟨?_, ?_, ?_⟩
        · show (insNLSorted sk front).drop 3 ++
            List.replicate 2 emptyNLSlot = _
          rw [hdr3]
          rfl
        · rw [hdr3]
          show (2:Nat) ≤ 4
          omega
        · intro p2m hp2m
          exact hILSocc p2m (List.mem_of_mem_drop hp2m)
      obtain ⟨q1, q2, q3, q4, q5, q6, q7, q8⟩ := split_package krid h pid
        t.nextPage s uf lo hi n cur2v new2v front (insNLSorted sk front)
        2 t.nextPage hp hdn hupid hlev hdnL rfl hunew hlev hdnR rfl
        (by omega) (by rw [hILSlen5]; omega) p1 p2 p3 p4 p5 p6 p7 hpidnot hpidlt
        holdlt (Nat.le_refl _) hnpt' (Nat.lt_succ_self _)
      have hmidmem : (insNLSorted sk front).getD 2 emptyNLSlot ∈
          insNLSorted sk front := by
        rw [List.getD_eq_getElem _ emptyNLSlot (by rw [hILSlen5]; omega)]
        exact List.getElem_mem _
      have hmidgood := hILSgood _ hmidmem
      have hkeyeq : strncpy10 ((insNLSorted sk front).getD 2
          emptyNLSlot).1 = ((insNLSorted sk front).getD 2 emptyNLSlot).1 :=
        hmidgood.2.2.symm
      refine ⟨⟨hsfe, hhdq, le_trans hnpt' (Nat.le_succ _), ?_⟩, ?_, ?_⟩
      · intro q hq hq2 hq3
        have hqpid : q ≠ pid := by
          intro he
          exact hq (he ▸ mem_treePids_self s (h + 1) pid)
        rw [huq q hqpid (by omega)]
        exact hframe2 q hq hq2 hq3
      · intro hc
        exact Option.noConfusion hc
      · intro sk2 hsk2
        have hsk2' := Option.some.inj hsk2
        subst hsk2'
        refine ⟨hroot_t, hnpt', Nat.lt_succ_self _, ?_, ?_, ?_, ?_, ?_,
          q3, q4, q5, q6, q7, q8⟩
        · show t.nextPage ≠ 0
          omega
        · show strncpy10 _ = strncpy10 (strncpy10 _)
          rw [hkeyeq]
          exact hmidgood.2.2
        · show goodRouterKey lo hi (strncpy10 _)
          rw [hkeyeq]
          exact hmidgood
        · show WfTree uf (h + 1) pid lo (some (strncpy10 _))
          rw [hkeyeq]
          exact q1
        · show WfTree uf (h + 1) t.nextPage (some (strncpy10 _)) hi
          rw [hkeyeq]
          exact q2

/-- `ChildOut` only depends on the state through its pages and bookkeeping
fields, never the pin counters: transfer it across `EqModPins`. -/
theorem childOut_swap (krid : RIDKeyPair) (s s' : BTState) (h pid : Nat)
    (lo hi : Option Key) (res : Option PageKeyPair × BTState)
    (he : EqModPins s' s)
    (hco : ChildOut krid s' h pid lo hi res) :
    ChildOut krid s h pid lo hi res := by
  obtain ⟨e1, e2, e3, e4, e5, e6, e7, e8, e9, e10, e11⟩ := he
  have hagd : ∀ q ∈ treePids s h pid, s'.pages q = s.pages q :=
    fun q _ => by rw [e1]
  obtain ⟨ha1, ha2, ha3⟩ := tree_frame h s s' pid hagd
  have hent : entriesOf s' h pid = entriesOf s h pid :=
    entriesOf_frame s s' h pid hagd
  have hgl : ∀ p, getLeaf s' p = getLeaf s p :=
    fun p => by rw [getLeaf, getLeaf, e1]
  obtain ⟨⟨csf, chd, cnp, cfr⟩, cnone, csome⟩ := hco
  have hchin : ∀ nxt, ChainTo s (leafSeq s h pid) nxt →
      ChainTo s' (leafSeq s' h pid) nxt := by
    intro nxt hc
    rw [ha2]
    exact chainTo_congr s s' _ nxt (fun p _ => hgl p) hc
  have hnein : ∀ k, NEFrom s (leafSeq s h pid) k →
      NEFrom s' (leafSeq s' h pid) k := by
    intro k hn
    rw [ha2]
    exact NEFrom_congr s s' _ k (fun p _ => hgl p) hn
  refine ⟨⟨⟨csf.1.trans e5, csf.2.1.trans e6, csf.2.2.1.trans e7,
      csf.2.2.2.1.trans e8, csf.2.2.2.2.1.trans e9,
      csf.2.2.2.2.2.1.trans e10, csf.2.2.2.2.2.2.trans e11⟩,
      chd.trans e3, ?_, ?_⟩, ?_, ?_⟩
  · rw [← e2]
    exact cnp
  · intro q hq hq2 hq3
    have h2 := cfr q (by rw [ha1]; exact hq) (by rw [e3]; exact hq2)
      (by rw [e2]; exact hq3)
    rw [h2, e1]
  · intro hn
    obtain ⟨crt, cwf, cent, cext, cnd, chD, cch, cne⟩ := cnone hn
    refine ⟨crt.trans e4, cwf, ?_, ?_, cnd, ?_, ?_, ?_⟩
    · rw [← hent]
      exact cent
    · intro p hpm
      rcases cext p hpm with hold | hfr
      · rw [ha1] at hold
        exact Or.inl hold
      · rw [e2] at hfr
        exact Or.inr hfr
    · rw [← ha2]
      exact chD
    · intro nxt hc
      exact cch nxt (hchin nxt hc)
    · intro k hk hne2
      exact cne k hk (hnein k hne2)
  · intro sk hs
    obtain ⟨crt, c1, c2, c3, c4, c5, c6, c7, c8, c9, c10, c11, c12, c13⟩ :=
      csome sk hs
    refine ⟨crt.trans e4, ?_, c2, c3, c4, c5, c6, c7, ?_, ?_, c10, ?_,
      ?_, ?_⟩
    · rw [← e2]
      exact c1
    · rw [← hent]
      exact c8
    · intro p hpm
      rcases c9 p hpm with hold | hfr
      · rw [ha1] at hold
        exact Or.inl hold
      · rw [e2] at hfr
        exact Or.inr hfr
    · rw [← ha2]
      exact c11
    · intro nxt hc
      exact c12 nxt (hchin nxt hc)
    · intro k hk hne2
      exact c13 k hk (hnein k hne2)

set_option maxHeartbeats 1000000 in
theorem insertInSubtree_correct (h : Nat) :
    ∀ (fuel : Nat) (krid : RIDKeyPair) (pid : Nat) (s : BTState)
      (lo hi : Option Key),
    h + 1 ≤ fuel →
    WfTree s (h + 1) pid lo hi →
    (treePids s (h + 1) pid).Nodup →
    (∀ p ∈ treePids s (h + 1) pid,
      p ≠ INVALID_NUMBER ∧ p < s.nextPage ∧ p ≠ s.headerPageNum) →
    loLe lo krid.key →
    hiGt krid.key hi →
    krid.rid.page_number ≠ INVALID_NUMBER →
    (∀ e ∈ entriesOf s (h + 1) pid, strncmp10 e.1 krid.key ≠ 0) →
    s.headerPageNum < s.nextPage →
    (∀ p ∈ treePids s (h + 1) pid, p ≠ s.rootPageNum) →
    ChildOut krid s (h + 1) pid lo hi (insertInSubtree fuel krid pid s) := by
  induction h with
  | zero =>
    intro fuel krid pid s lo hi hfuel hw hnodup hfresh hlo hhi hrid hdis
      hhdr hnr
    cases fuel with
    | zero => omega
    | succ f =>
      obtain ⟨n, front, hp, hlev, hdn, hlen1, hseg⟩ := hw
      have hgn1 : getNonLeaf (readPageM s pid) pid = n := by
        rw [getNonLeaf_readPageM]
        rw [getNonLeaf, hp]
      have hgl : getNonLeafLength n = front.length :=
        getNonLeafLength_dense n front hdn
      obtain ⟨j, hjle, hdesceq, hdlo, hdhi⟩ := descend_child n krid.key
        (by rw [hgl]; exact hlen1)
      have hj : j ≤ front.length := by rw [← hgl]; exact hjle
      have hpn : pageNoAt n j = childAt n.firstPageNo front j :=
        pageNoAt_dense n front hdn j hj
      have hjlo : loLe (bLo lo front j) krid.key := by
        cases j with
        | zero => exact hlo
        | succ i =>
          show strncmp10 (front.getD i emptyNLSlot).1 krid.key ≤ 0
          have h2 := hdlo (by omega)
          rw [nlKeyAt_dense n front hdn (i + 1 - 1) (by omega)] at h2
          exact h2
      have hjhi : hiGt krid.key (bHi hi front j) := by
        rw [bHi]
        by_cases hjlt : j < front.length
        · rw [if_pos hjlt]
          have h2 := hdhi (by omega)
          rw [nlKeyAt_dense n front hdn j hjlt] at h2
          exact h2
        · rw [if_neg hjlt]
          exact hhi
      set cp := childAt n.firstPageNo front j with hcpd
      have htp := treePids_children s 0 pid n front hp hdn
      have hcpmem : cp ∈ n.firstPageNo :: front.map (fun p => p.2) :=
        childAt_mem n.firstPageNo front j hj
      have hcpin : ∀ q ∈ treePids s 0 cp, q ∈ treePids s (0 + 1) pid := by
        intro q hq
        rw [htp]
        exact List.mem_cons_of_mem _ (List.mem_flatMap.mpr ⟨cp, hcpmem, hq⟩)
      have hcpself : cp ∈ treePids s (0 + 1) pid :=
        hcpin cp (mem_treePids_self s 0 cp)
      have hwc : WfTree s 0 cp (bLo lo front j) (bHi hi front j) :=
        wfSegP_at (WfTree s 0) front lo n.firstPageNo hi j hseg hj
      have hec := entriesOf_children s 0 pid n front hp hdn
      have hdc : ∀ e ∈ entriesOf s 0 cp, strncmp10 e.1 krid.key ≠ 0 := by
        intro e he
        refine hdis e ?_
        rw [hec]
        exact List.mem_flatMap.mpr ⟨cp, hcpmem, he⟩
      obtain ⟨hcp0, hcplt, _⟩ := hfresh cp hcpself
      obtain ⟨htpr, hlsr, hwtr⟩ := tree_frame 0 s (readPageM s pid) cp
        (fun q _ => rfl)
      have hefr : entriesOf (readPageM s pid) 0 cp = entriesOf s 0 cp :=
        entriesOf_frame s (readPageM s pid) 0 cp (fun q _ => rfl)
      have hdc' : ∀ e ∈ entriesOf (readPageM s pid) 0 cp,
          strncmp10 e.1 krid.key ≠ 0 := by
        intro e he
        rw [hefr] at he
        exact hdc e he
      have hchild0 := child_out_leaf (readPageM s pid) krid cp
        (bLo lo front j) (bHi hi front j) (hwtr _ _ hwc) hjlo hjhi hrid
        hdc' hcp0 hcplt
      rcases hres2 : insertInLeaf (readPageM s pid) krid cp with ⟨sp, t⟩
      rw [hres2] at hchild0
      have hchild : ChildOut krid s 0 cp (bLo lo front j)
          (bHi hi front j) (sp, t) :=
        childOut_swap krid s (readPageM s pid) 0 cp (bLo lo front j)
          (bHi hi front j) (sp, t) (EqModPins.readPage s pid) hchild0
      have hlev1 : n.level = 1 := hlev
      have hstep : insertInSubtree (f + 1) krid pid s =
          insertFixup t pid sp := by
        simp only [insertInSubtree]
        rw [hgn1, hdesceq, hpn]
        show insertFixup
            (if n.level = 1 then insertInLeaf (readPageM s pid) krid cp
             else insertInSubtree f krid cp (readPageM s pid)).2 pid
            (if n.level = 1 then insertInLeaf (readPageM s pid) krid cp
             else insertInSubtree f krid cp (readPageM s pid)).1 = _
        rw [if_pos hlev1, hres2]
      rw [hstep]
      exact insertFixup_nonroot 0 krid pid s t lo hi n front j sp hp hlev
        hdn hlen1 hseg hj hnodup hfresh hjlo hjhi hchild hhdr
        (hnr pid (mem_treePids_self s (0 + 1) pid))
  | succ g ih =>
    intro fuel krid pid s lo hi hfuel hw hnodup hfresh hlo hhi hrid hdis
      hhdr hnr
    cases fuel with
    | zero => omega
    | succ f =>
      obtain ⟨n, front, hp, hlev, hdn, hlen1, hseg⟩ := hw
      have hgn1 : getNonLeaf (readPageM s pid) pid = n := by
        rw [getNonLeaf_readPageM]
        rw [getNonLeaf, hp]
      have hgl : getNonLeafLength n = front.length :=
        getNonLeafLength_dense n front hdn
      obtain ⟨j, hjle, hdesceq, hdlo, hdhi⟩ := descend_child n krid.key
        (by rw [hgl]; exact hlen1)
      have hj : j ≤ front.length := by rw [← hgl]; exact hjle
      have hpn : pageNoAt n j = childAt n.firstPageNo front j :=
        pageNoAt_dense n front hdn j hj
      have hjlo : loLe (bLo lo front j) krid.key := by
        cases j with
        | zero => exact hlo
        | succ i =>
          show strncmp10 (front.getD i emptyNLSlot).1 krid.key ≤ 0
          have h2 := hdlo (by omega)
          rw [nlKeyAt_dense n front hdn (i + 1 - 1) (by omega)] at h2
          exact h2
      have hjhi : hiGt krid.key (bHi hi front j) := by
        rw [bHi]
        by_cases hjlt : j < front.length
        · rw [if_pos hjlt]
          have h2 := hdhi (by omega)
          rw [nlKeyAt_dense n front hdn j hjlt] at h2
          exact h2
        · rw [if_neg hjlt]
          exact hhi
      set cp := childAt n.firstPageNo front j with hcpd
      have htp := treePids_children s (g + 1) pid n front hp hdn
      have hcpmem : cp ∈ n.firstPageNo :: front.map (fun p => p.2) :=
        childAt_mem n.firstPageNo front j hj
      have hcpin : ∀ q ∈ treePids s (g + 1) cp,
          q ∈ treePids s (g + 1 + 1) pid := by
        intro q hq
        rw [htp]
        exact List.mem_cons_of_mem _ (List.mem_flatMap.mpr ⟨cp, hcpmem, hq⟩)
      have hwc : WfTree s (g + 1) cp (bLo lo front j) (bHi hi front j) :=
        wfSegP_at (WfTree s (g + 1)) front lo n.firstPageNo hi j hseg hj
      have hec := entriesOf_children s (g + 1) pid n front hp hdn
      have hdc : ∀ e ∈ entriesOf s (g + 1) cp,
          strncmp10 e.1 krid.key ≠ 0 := by
        intro e he
        refine hdis e ?_
        rw [hec]
        exact List.mem_flatMap.mpr ⟨cp, hcpmem, he⟩
      have hndc : (treePids s (g + 1) cp).Nodup := by
        have h2 := hnodup
        rw [htp, List.nodup_cons] at h2
        exact nodup_of_flatMap_mem (treePids s (g + 1)) _ h2.2 cp hcpmem
      obtain ⟨htpr, hlsr, hwtr⟩ := tree_frame (g + 1) s (readPageM s pid)
        cp (fun q _ => rfl)
      have hefr : entriesOf (readPageM s pid) (g + 1) cp =
          entriesOf s (g + 1) cp :=
        entriesOf_frame s (readPageM s pid) (g + 1) cp (fun q _ => rfl)
      have hdc' : ∀ e ∈ entriesOf (readPageM s pid) (g + 1) cp,
          strncmp10 e.1 krid.key ≠ 0 := by
        intro e he
        rw [hefr] at he
        exact hdc e he
      have hndc' : (treePids (readPageM s pid) (g + 1) cp).Nodup := by
        rw [htpr]
        exact hndc
      have hfresh' : ∀ p ∈ treePids (readPageM s pid) (g + 1) cp,
          p ≠ INVALID_NUMBER ∧ p < (readPageM s pid).nextPage ∧
            p ≠ (readPageM s pid).headerPageNum := by
        intro p hp2
        rw [htpr] at hp2
        exact hfresh p (hcpin p hp2)
      have hnr' : ∀ p ∈ treePids (readPageM s pid) (g + 1) cp,
          p ≠ (readPageM s pid).rootPageNum := by
        intro p hp2
        rw [htpr] at hp2
        exact hnr p (hcpin p hp2)
      have hchild0 := ih f krid cp (readPageM s pid) (bLo lo front j)
        (bHi hi front j) (by omega) (hwtr _ _ hwc) hndc' hfresh'
        hjlo hjhi hrid hdc' hhdr hnr'
      rcases hres2 : insertInSubtree f krid cp (readPageM s pid)
        with ⟨sp, t⟩
      rw [hres2] at hchild0
      have hchild : ChildOut krid s (g + 1) cp (bLo lo front j)
          (bHi hi front j) (sp, t) :=
        childOut_swap krid s (readPageM s pid) (g + 1) cp (bLo lo front j)
          (bHi hi front j) (sp, t) (EqModPins.readPage s pid) hchild0
      have hlevne : ¬ (n.level = 1) := by
        rw [hlev]
        omega
      have hstep : insertInSubtree (f + 1) krid pid s =
          insertFixup t pid sp := by
        simp only [insertInSubtree]
        rw [hgn1, hdesceq, hpn]
        show insertFixup
            (if n.level = 1 then insertInLeaf (readPageM s pid) krid cp
             else insertInSubtree f krid cp (readPageM s pid)).2 pid
            (if n.level = 1 then insertInLeaf (readPageM s pid) krid cp
             else insertInSubtree f krid cp (readPageM s pid)).1 = _
        rw [if_neg hlevne, hres2]
      rw [hstep]
      exact insertFixup_nonroot (g + 1) krid pid s t lo hi n front j sp hp
        hlev hdn hlen1 hseg hj hnodup hfresh hjlo hjhi hchild hhdr
        (hnr pid (mem_treePids_self s (g + 1 + 1) pid))

set_option maxHeartbeats 1600000 in
theorem insertFixup_root (h : Nat) (krid : RIDKeyPair) (pid : Nat)
    (s t : BTState) (n : NonLeafNode)
    (front : List (Key × Nat)) (j : Nat) (split? : Option PageKeyPair)
    (hp : s.pages pid = PageData.nonleaf n)
    (hlev : n.level = h + 1)
    (hdn : IsDenseNL n front)
    (hlen1 : 1 ≤ front.length)
    (hseg : WfSegP (WfTree s h) none n.firstPageNo front none)
    (hj : j ≤ front.length)
    (hnodup : (treePids s (h + 1) pid).Nodup)
    (hfresh : ∀ p ∈ treePids s (h + 1) pid,
      p ≠ INVALID_NUMBER ∧ p < s.nextPage ∧ p ≠ s.headerPageNum)
    (hjlo : loLe (bLo none front j) krid.key)
    (hjhi : hiGt krid.key (bHi none front j))
    (hchild : ChildOut krid s h (childAt n.firstPageNo front j)
      (bLo none front j) (bHi none front j) (split?, t))
    (hhdr : s.headerPageNum < s.nextPage)
    (hr : pid = s.rootPageNum) :
    ∃ h2 rootPid, (h2 = h + 1 ∧ rootPid = pid ∨ h2 = h + 2) ∧
      (insertFixup t pid split?).2.rootPageNum = rootPid ∧
      ScanFieldsEq (insertFixup t pid split?).2 s ∧
      (insertFixup t pid split?).2.headerPageNum = s.headerPageNum ∧
      s.nextPage ≤ (insertFixup t pid split?).2.nextPage ∧
      (∀ q, q ∉ treePids s (h + 1) pid → q ≠ s.headerPageNum →
        q < s.nextPage →
        (insertFixup t pid split?).2.pages q = s.pages q) ∧
      WfTree (insertFixup t pid split?).2 h2 rootPid none none ∧
      entriesOf (insertFixup t pid split?).2 h2 rootPid =
        insLeafSorted krid (entriesOf s (h + 1) pid) ∧
      (∀ p ∈ treePids (insertFixup t pid split?).2 h2 rootPid,
        p ∈ treePids s (h + 1) pid ∨
          (s.nextPage ≤ p ∧ p < (insertFixup t pid split?).2.nextPage)) ∧
      (treePids (insertFixup t pid split?).2 h2 rootPid).Nodup ∧
      (leafSeq (insertFixup t pid split?).2 h2 rootPid).headD 0 =
        (leafSeq s (h + 1) pid).headD 0 ∧
      (∀ nxt, ChainTo s (leafSeq s (h + 1) pid) nxt →
        ChainTo (insertFixup t pid split?).2
          (leafSeq (insertFixup t pid split?).2 h2 rootPid) nxt) ∧
      (∀ k, k ≤ 1 → NEFrom s (leafSeq s (h + 1) pid) k →
        NEFrom (insertFixup t pid split?).2
          (leafSeq (insertFixup t pid split?).2 h2 rootPid) k) := by
  obtain ⟨hco, hnonecase, hsomecase⟩ := hchild
  obtain ⟨hsfe, hhdq, hnpt, hframe⟩ := hco
  set c0 := n.firstPageNo with hc0
  set cp := childAt c0 front j with hcp
  set children : List Nat := c0 :: front.map (fun p => p.2) with hchildren
  have htp := treePids_children s h pid n front hp hdn
  have hpidnot : pid ∉ children.flatMap (treePids s h) := by
    have h2 := hnodup
    rw [htp, List.nodup_cons] at h2
    exact h2.1
  have hcpmem : cp ∈ children := childAt_mem c0 front j hj
  have hsub : ∀ q ∈ treePids s h cp, q ∈ children.flatMap (treePids s h) :=
    fun q hq => List.mem_flatMap.mpr ⟨cp, hcpmem, hq⟩
  obtain ⟨hpidne0, hpidlt, hpidnhdr⟩ :=
    hfresh pid (mem_treePids_self s (h + 1) pid)
  have hpidnotincp : pid ∉ treePids s h cp := fun hm => hpidnot (hsub _ hm)
  have htpg : t.pages pid = s.pages pid :=
    hframe pid hpidnotincp hpidnhdr hpidlt
  have hgn : getNonLeaf t pid = n := by
    rw [getNonLeaf, htpg, hp]
  have hroot_t : t.rootPageNum = s.rootPageNum := by
    cases split? with
    | none => exact (hnonecase rfl).1
    | some sk => exact (hsomecase sk rfl).1
  have holdlt : ∀ p ∈ children.flatMap (treePids s h), p < s.nextPage := by
    intro p hpm
    refine (hfresh p ?_).2.1
    rw [htp]
    exact List.mem_cons_of_mem _ hpm
  have hframe2 : ∀ q, q ∉ treePids s (h + 1) pid →
      q ≠ s.headerPageNum → q < s.nextPage → t.pages q = s.pages q := by
    intro q hq hq2 hq3
    refine hframe q ?_ hq2 hq3
    intro hm
    exact hq (htp ▸ List.mem_cons_of_mem _ (hsub q hm))
  cases split? with
  | none =>
    have habs := (hnonecase rfl).2
    obtain ⟨p1, p2, p3, p4, p5, p6, p7⟩ := seg_after_absorb h krid pid
      s t (unPinPageM t pid) none none n front j hp hdn hseg hj hnodup
      hfresh hframe hnpt habs hjlo hjhi (fun q _ _ _ => rfl)
      (Nat.le_refl _) hhdr
    have hab := absorb_package krid h pid s (unPinPageM t pid) none none
      n n front front hp hdn (htpg.trans hp) hlev hdn hlen1 p1 p2 p3 p4
      p5 p6 p7 hpidnot hpidlt
    obtain ⟨a1, a2, a3, a4, a5, a6, a7⟩ := hab
    exact ⟨h + 1, pid, Or.inl ⟨rfl, rfl⟩, hroot_t.trans hr.symm, hsfe,
      hhdq, hnpt, (fun q hq hq2 hq3 => hframe2 q hq hq2 hq3), a1, a2, a3,
      a4, a5, a6, a7⟩
  | some sk =>
    obtain ⟨-, hsplit⟩ := hsomecase sk rfl
    have hnpt' : s.nextPage ≤ t.nextPage := hnpt
    have hskne0 : sk.pageNo ≠ INVALID_NUMBER := hsplit.2.2.1
    have hsort := (wfSegP_routers (WfTree s h) front none c0 none hseg).1
    have hgoodold := (wfSegP_routers (WfTree s h) front none c0 none hseg).2
    have hskgood := hsplit.2.2.2.2.1
    have hjlo' : 0 < j →
        strncmp10 (front.getD (j - 1) emptyNLSlot).1 sk.key < 0 := by
      intro hj0
      have h2 := hskgood.1
      have hj1 : j = (j - 1) + 1 := by omega
      rw [hj1] at h2
      exact h2
    have hjhi' : j < front.length →
        strncmp10 sk.key (front.getD j emptyNLSlot).1 < 0 := by
      intro hjlt
      have h2 := hskgood.2.1
      rw [bHi, if_pos hjlt] at h2
      exact h2
    have hdist : ∀ p ∈ front, strncmp10 p.1 sk.key ≠ 0 := by
      intro p hpm
      rcases List.mem_append.mp
          ((List.take_append_drop j front) ▸ hpm) with h1 | h2
      · have := routers_take_lt front sk.key j hsort hj hjlo' p h1
        omega
      · have := routers_drop_gt front sk.key j hsort hjhi' p h2
        have := strncmp10_flip sk.key p.1
        omega
    have hlosk : loLt none sk.key := trivial
    have hhisk : hiGt sk.key none := trivial
    have hILSgood : ∀ p ∈ insNLSorted sk front,
        goodRouterKey none none p.1 :=
      insNLSorted_good sk front none none hgoodold hlosk hhisk
    have hILSocc : ∀ p ∈ insNLSorted sk front, p.2 ≠ INVALID_NUMBER :=
      insNLSorted_occ sk front hdn.2.2 hskne0
    have hILSlen : (insNLSorted sk front).length = front.length + 1 :=
      insNLSorted_length sk front
    by_cases hroomy : front.length < NON_LEAF_NUM_KEYS
    · -- the promoted pair is absorbed into the root node
      have hro : isRoomyNonLeaf n = true :=
        (isRoomyNonLeaf_dense n front hdn).mpr hroomy
      have hn2slots : insertInRoomyNonLeafGo sk n.slots =
          insNLSorted sk front ++ List.replicate
            (NON_LEAF_NUM_KEYS - front.length - 1) emptyNLSlot := by
        rw [hdn.1]
        have hm : NON_LEAF_NUM_KEYS - front.length =
            (NON_LEAF_NUM_KEYS - front.length - 1) + 1 := by
          show (4:Nat) - front.length = (4 - front.length - 1) + 1
          have h4 : front.length < 4 := hroomy
          omega
        rw [hm, insertInRoomyNonLeafGo_dense sk front _ hdn.2.2]
        simp only [Nat.add_sub_cancel]
      have hres : insertFixup t pid (some sk) =
          (none, unPinPageM (setPage t pid (PageData.nonleaf
            (insertInRoomyNonLeaf n sk))) pid) := by
        simp only [insertFixup, hgn, hro, if_true]
      have hdn2 : IsDenseNL (insertInRoomyNonLeaf n sk)
          (insNLSorted sk front) := by
        refine ⟨?_, ?_, hILSocc⟩
        · show insertInRoomyNonLeafGo sk n.slots = _
          rw [hn2slots, hILSlen]
          have hm : NON_LEAF_NUM_KEYS - front.length - 1 =
              NON_LEAF_NUM_KEYS - (front.length + 1) := by
            show (4:Nat) - front.length - 1 = 4 - (front.length + 1)
            omega
          rw [hm]
        · rw [hILSlen]
          show front.length + 1 ≤ 4
          have h4 : front.length < 4 := hroomy
          omega
      set u := unPinPageM (setPage t pid (PageData.nonleaf
        (insertInRoomyNonLeaf n sk))) pid with hu
      have hagQ : ∀ q, q < t.nextPage → q ≠ pid →
          q ≠ s.headerPageNum → u.pages q = t.pages q := by
        intro q _ hq _
        exact Function.update_noteq hq _ _
      obtain ⟨p1, p2, p3, p4, p5, p6, p7⟩ := seg_after_split h krid pid
        s t u none none n front j sk hp hdn hseg hj hnodup hfresh hframe
        hnpt hsplit hjlo hjhi hagQ (Nat.le_refl _) hhdr
      have hpu : u.pages pid =
          PageData.nonleaf (insertInRoomyNonLeaf n sk) :=
        Function.update_same pid _ t.pages
      have hab := absorb_package krid h pid s u none none n
        (insertInRoomyNonLeaf n sk) front (insNLSorted sk front) hp hdn
        hpu hlev hdn2 (by rw [hILSlen]; omega) p1 p2 p3 p4 p5 p6 p7
        hpidnot hpidlt
      obtain ⟨a1, a2, a3, a4, a5, a6, a7⟩ := hab
      rw [hres]
      refine ⟨h + 1, pid, Or.inl ⟨rfl, rfl⟩, hroot_t.trans hr.symm, hsfe,
        hhdq, hnpt, ?_, a1, a2, a3, a4, a5, a6, a7⟩
      intro q hq hq2 hq3
      have hqpid : q ≠ pid := by
        intro he
        exact hq (he ▸ mem_treePids_self s (h + 1) pid)
      rw [hagQ q (by omega) hqpid hq2]
      exact hframe2 q hq hq2 hq3
    · -- overflow at the root: split it and grow the tree by one level
      have hro : isRoomyNonLeaf n = false := by
        cases hb : isRoomyNonLeaf n with
        | false => rfl
        | true =>
          exact absurd ((isRoomyNonLeaf_dense n front hdn).mp hb) hroomy
      have hflen : front.length = 4 := by
        have h4 : front.length ≤ 4 := hdn.2.1
        have h5 : ¬ front.length < 4 := hroomy
        omega
      have hILSlen5 : (insNLSorted sk front).length = 5 := by
        rw [hILSlen, hflen]
      set km := (insNLSorted sk front).getD 2 emptyNLSlot with hkmdef
      have hspliteq := splitNonLeafNode_dense n sk front hdn
        (by rw [hflen]; rfl) hsort hdist hskne0
      have hpr : pid = t.rootPageNum := hr.trans hroot_t.symm
      have hhdrt : t.headerPageNum = s.headerPageNum := hhdq
      have hpidnhdrt : pid ≠ t.headerPageNum := by
        rw [hhdrt]
        exact hpidnhdr
      have htnnhdr : t.nextPage ≠ t.headerPageNum := by
        rw [hhdrt]
        omega
      have htn1nhdr : t.nextPage + 1 ≠ t.headerPageNum := by
        rw [hhdrt]
        omega
      set nrNode : NonLeafNode :=
        { level := n.level + 1, firstPageNo := pid,
          slots := (strncpy10 km.1, t.nextPage) ::
            List.replicate (NON_LEAF_NUM_KEYS - 1) emptyNLSlot }
        with hnrnode
      have hufacts :
          (insertFixup t pid (some sk)).2.pages pid = PageData.nonleaf
            { level := n.level, firstPageNo := n.firstPageNo,
              slots := (insNLSorted sk front).take 2 ++
                List.replicate 2 emptyNLSlot } ∧
          (insertFixup t pid (some sk)).2.pages t.nextPage =
            PageData.nonleaf
            { level := n.level,
              firstPageNo := km.2,
              slots := (insNLSorted sk front).drop 3 ++
                List.replicate 2 emptyNLSlot } ∧
          (insertFixup t pid (some sk)).2.pages (t.nextPage + 1) =
            PageData.nonleaf nrNode ∧
          (∀ q, q ≠ pid → q ≠ t.nextPage → q ≠ t.nextPage + 1 →
            q ≠ s.headerPageNum →
            (insertFixup t pid (some sk)).2.pages q = t.pages q) ∧
          (insertFixup t pid (some sk)).2.nextPage = t.nextPage + 2 ∧
          (insertFixup t pid (some sk)).2.rootPageNum = t.nextPage + 1 ∧
          ScanFieldsEq (insertFixup t pid (some sk)).2 s ∧
          (insertFixup t pid (some sk)).2.headerPageNum =
            s.headerPageNum := by
        simp only [insertFixup, hgn, hro, Bool.false_eq_true, if_false]
        rw [hspliteq]
        split
        · have hpidtn : pid ≠ t.nextPage := by omega
          have hpidtn1 : pid ≠ t.nextPage + 1 := by omega
          have htntn1 : t.nextPage ≠ t.nextPage + 1 := by omega
          refine ⟨?_, ?_, ?_, ?_, rfl, rfl, hsfe, hhdq⟩
          · show Function.update (Function.update (Function.update
              (Function.update (Function.update (Function.update t.pages
                t.nextPage _) pid _) t.nextPage _) (t.nextPage + 1) _)
                t.headerPageNum _) (t.nextPage + 1) _ pid = _
            rw [Function.update_noteq hpidtn1,
              Function.update_noteq hpidnhdrt,
              Function.update_noteq hpidtn1, Function.update_noteq hpidtn,
              Function.update_same]
          · show Function.update (Function.update (Function.update
              (Function.update (Function.update (Function.update t.pages
                t.nextPage _) pid _) t.nextPage _) (t.nextPage + 1) _)
                t.headerPageNum _) (t.nextPage + 1) _ t.nextPage = _
            rw [Function.update_noteq htntn1,
              Function.update_noteq htnnhdr,
              Function.update_noteq htntn1, Function.update_same]
          · show Function.update _ (t.nextPage + 1) _ (t.nextPage + 1) = _
            rw [Function.update_same]
            rfl
          · intro q hq1 hq2 hq3 hq4
            have hq4' : q ≠ t.headerPageNum := by
              rw [hhdrt]
              exact hq4
            show Function.update (Function.update (Function.update
              (Function.update (Function.update (Function.update t.pages
                t.nextPage _) pid _) t.nextPage _) (t.nextPage + 1) _)
                t.headerPageNum _) (t.nextPage + 1) _ q = _
            rw [Function.update_noteq hq3, Function.update_noteq hq4',
              Function.update_noteq hq3, Function.update_noteq hq2,
              Function.update_noteq hq1, Function.update_noteq hq2]
        · rename_i hrt
          exact absurd hpr hrt
      obtain ⟨hupid, hunew, hunr, huq, hunext, huroot, husfe, huhdr⟩ :=
        hufacts
      set uf := (insertFixup t pid (some sk)).2 with hufdef
      have hagQ : ∀ q, q < t.nextPage → q ≠ pid →
          q ≠ s.headerPageNum → uf.pages q = t.pages q := by
        intro q hq1 hq2 hq3
        exact huq q hq2 (by omega) (by omega) hq3
      obtain ⟨p1, p2, p3, p4, p5, p6, p7⟩ := seg_after_split h krid pid
        s t uf none none n front j sk hp hdn hseg hj hnodup hfresh hframe
        hnpt hsplit hjlo hjhi hagQ (by rw [hunext]; omega) hhdr
      obtain ⟨q1, q2, q3, q4, q5, q6, q7, q8⟩ := split_package krid h pid
        t.nextPage s uf none none n _ _ front (insNLSorted sk front)
        2 t.nextPage hp hdn hupid hlev (by
          refine ⟨?_, ?_, ?_⟩
          · show (insNLSorted sk front).take 2 ++
              List.replicate 2 emptyNLSlot = _
            rw [List.length_take, hILSlen5]
            rfl
          · rw [List.length_take, hILSlen5]
            show min 2 5 ≤ 4
            omega
          · intro p2m hp2m
            exact hILSocc p2m (List.mem_of_mem_take hp2m)) rfl
        hunew hlev (by
          refine ⟨?_, ?_, ?_⟩
          · show (insNLSorted sk front).drop 3 ++
              List.replicate 2 emptyNLSlot = _
            rw [List.length_drop, hILSlen5]
            rfl
          · rw [List.length_drop, hILSlen5]
            show (5:Nat) - 3 ≤ 4
            omega
          · intro p2m hp2m
            exact hILSocc p2m (List.mem_of_mem_drop hp2m)) rfl
        (by omega) (by rw [hILSlen5]; omega) p1 p2 p3 p4 p5 p6 p7 hpidnot
        hpidlt holdlt (Nat.le_refl _) hnpt' (by rw [hunext]; omega)
      have hmidmem : km ∈ insNLSorted sk front := by
        rw [hkmdef, List.getD_eq_getElem _ emptyNLSlot
          (by rw [hILSlen5]; omega)]
        exact List.getElem_mem _
      have hmidgood := hILSgood _ hmidmem
      have hkeyeq : strncpy10 km.1 = km.1 := hmidgood.2.2.symm
      set nr := t.nextPage + 1 with hnrdef
      have hdnNR : IsDenseNL nrNode [(strncpy10 km.1, t.nextPage)] := by
        refine ⟨rfl, ?_, ?_⟩
        · show (1:Nat) ≤ 4
          omega
        · intro p2m hp2m
          have h2 := List.mem_singleton.mp hp2m
          rw [h2]
          show t.nextPage ≠ 0
          omega
      have hlevNR : nrNode.level = (h + 1) + 1 := by
        show n.level + 1 = (h + 1) + 1
        rw [hlev]
      have hsegNR : WfSegP (WfTree uf (h + 1)) none pid
          [(strncpy10 km.1, t.nextPage)] none := by
        refine ⟨?_, ⟨trivial, trivial, ?_⟩, ?_⟩
        · rw [hkeyeq]
          exact q1
        · rw [hkeyeq]
          exact hmidgood.2.2
        · rw [hkeyeq]
          exact q2
      have hwfNR : WfTree uf (h + 1 + 1) nr none none :=
        ⟨nrNode, [(strncpy10 km.1, t.nextPage)], hunr, hlevNR, hdnNR,
          Nat.le_refl 1, hsegNR⟩
      have hfl : ∀ {β : Type} (F : Nat → List β),
          (pid :: [(strncpy10 km.1, t.nextPage)].map
            (fun p => p.2)).flatMap F = F pid ++ (F t.nextPage ++ []) := by
        intro β F
        rw [List.map_singleton, List.flatMap_cons, List.flatMap_cons,
          List.flatMap_nil]
      have htpNR : treePids uf (h + 1 + 1) nr =
          nr :: (treePids uf (h + 1) pid ++
            (treePids uf (h + 1) t.nextPage ++ [])) := by
        rw [treePids_children uf (h + 1) nr _ _ hunr hdnNR, hfl]
      have hlsNR : leafSeq uf (h + 1 + 1) nr =
          leafSeq uf (h + 1) pid ++
            (leafSeq uf (h + 1) t.nextPage ++ []) := by
        rw [leafSeq_children uf (h + 1) nr _ _ hunr hdnNR, hfl]
      have hesNR : entriesOf uf (h + 1 + 1) nr =
          entriesOf uf (h + 1) pid ++
            (entriesOf uf (h + 1) t.nextPage ++ []) := by
        rw [entriesOf_children uf (h + 1) nr _ _ hunr hdnNR, hfl]
      have hLpidne : leafSeq uf (h + 1) pid ≠ [] :=
        leafSeq_ne_nil (h + 1) uf pid
      refine ⟨h + 1 + 1, nr, Or.inr rfl, huroot, husfe, huhdr,
        (by rw [hunext]; omega), ?_, hwfNR, ?_, ?_, ?_, ?_, ?_, ?_⟩
      · intro q hq hq2 hq3
        have hqpid : q ≠ pid := by
          intro he
          exact hq (he ▸ mem_treePids_self s (h + 1) pid)
        rw [huq q hqpid (by omega) (by omega) hq2]
        exact hframe2 q hq hq2 hq3
      · rw [hesNR, List.append_nil]
        exact q3
      · intro p hpm
        rw [htpNR] at hpm
        rcases List.mem_cons.mp hpm with hph | hpt
        · refine Or.inr ⟨by omega, ?_⟩
          rw [hunext, hph]
          show t.nextPage + 1 < t.nextPage + 2
          omega
        · rw [List.append_nil] at hpt
          rcases q4 p hpt with hold | ⟨hf1, hf2⟩
          · exact Or.inl hold
          · refine Or.inr ⟨hf1, ?_⟩
            rw [hunext]
            omega
      · rw [htpNR, List.append_nil, List.nodup_cons]
        constructor
        · intro hpm
          rcases q4 nr hpm with hold | ⟨hf1, hf2⟩
          · have h2 := hfresh nr hold
            rw [hnrdef] at h2
            omega
          · rw [hnrdef] at hf2
            omega
        · exact q5
      · rw [hlsNR, List.append_nil, headD_append_left _ _ _ hLpidne]
        exact q6
      · intro nxt hc
        rw [hlsNR, List.append_nil]
        exact q7 nxt hc
      · intro k hk hne2
        rw [hlsNR, List.append_nil]
        exact q8 k hk hne2

theorem treePids_length_ge (h : Nat) : ∀ (s : BTState) (pid : Nat)
    (lo hi : Option Key), WfTree s h pid lo hi →
    h + 1 ≤ (treePids s h pid).length := by
  induction h with
  | zero =>
    intro s pid lo hi _
    exact Nat.le_refl 1
  | succ g ih =>
    intro s pid lo hi hw
    obtain ⟨n, front, hp, hlev, hdn, hlen1, hseg⟩ := hw
    have hw0 : WfTree s g n.firstPageNo (bLo lo front 0)
        (bHi hi front 0) :=
      wfSegP_at (WfTree s g) front lo n.firstPageNo hi 0 hseg
        (Nat.zero_le _)
    have h1 := ih s n.firstPageNo _ _ hw0
    rw [treePids_children s g pid n front hp hdn, List.length_cons,
      List.flatMap_cons, List.length_append]
    omega

theorem nodup_bounded_length (l : List Nat) (N : Nat) (hnd : l.Nodup)
    (hlt : ∀ x ∈ l, x < N) : l.length ≤ N := by
  have h1 : l.toFinset.card = l.length := List.toFinset_card_of_nodup hnd
  have h2 : l.toFinset ⊆ Finset.range N := by
    intro x hx
    rw [List.mem_toFinset] at hx
    rw [Finset.mem_range]
    exact hlt x hx
  have h3 := Finset.card_le_card h2
  rw [Finset.card_range] at h3
  omega

set_option maxHeartbeats 1000000 in
/-- One unfolding step of `insertInSubtree`: the descent picks a child
whose range admits the key, the child call satisfies its contract, and
the call reduces to `insertFixup` on the child call's outcome. -/
theorem insertInSubtree_unfold (h f : Nat) (krid : RIDKeyPair) (pid : Nat)
    (s : BTState) (lo hi : Option Key)
    (hfuel : h + 1 ≤ f + 1)
    (hw : WfTree s (h + 1) pid lo hi)
    (hnodup : (treePids s (h + 1) pid).Nodup)
    (hfresh : ∀ p ∈ treePids s (h + 1) pid,
      p ≠ INVALID_NUMBER ∧ p < s.nextPage ∧ p ≠ s.headerPageNum)
    (hlo : loLe lo krid.key) (hhi : hiGt krid.key hi)
    (hrid : krid.rid.page_number ≠ INVALID_NUMBER)
    (hdis : ∀ e ∈ entriesOf s (h + 1) pid, strncmp10 e.1 krid.key ≠ 0)
    (hhdr : s.headerPageNum < s.nextPage)
    (hnrc : ∀ p ∈ treePids s (h + 1) pid, p = pid ∨ p ≠ s.rootPageNum) :
    ∃ n front j sp t,
      s.pages pid = PageData.nonleaf n ∧ n.level = h + 1 ∧
      IsDenseNL n front ∧ 1 ≤ front.length ∧
      WfSegP (WfTree s h) lo n.firstPageNo front hi ∧
      j ≤ front.length ∧
      loLe (bLo lo front j) krid.key ∧ hiGt krid.key (bHi hi front j) ∧
      ChildOut krid s h (childAt n.firstPageNo front j)
        (bLo lo front j) (bHi hi front j) (sp, t) ∧
      insertInSubtree (f + 1) krid pid s = insertFixup t pid sp := by
  obtain ⟨n, front, hp, hlev, hdn, hlen1, hseg⟩ := hw
  have hgn1 : getNonLeaf (readPageM s pid) pid = n := by
    rw [getNonLeaf_readPageM]
    rw [getNonLeaf, hp]
  have hgl : getNonLeafLength n = front.length :=
    getNonLeafLength_dense n front hdn
  obtain ⟨j, hjle, hdesceq, hdlo, hdhi⟩ := descend_child n krid.key
    (by rw [hgl]; exact hlen1)
  have hj : j ≤ front.length := by rw [← hgl]; exact hjle
  have hpn : pageNoAt n j = childAt n.firstPageNo front j :=
    pageNoAt_dense n front hdn j hj
  have hjlo : loLe (bLo lo front j) krid.key := by
    cases j with
    | zero => exact hlo
    | succ i =>
      show strncmp10 (front.getD i emptyNLSlot).1 krid.key ≤ 0
      have h2 := hdlo (by omega)
      rw [nlKeyAt_dense n front hdn (i + 1 - 1) (by omega)] at h2
      exact h2
  have hjhi : hiGt krid.key (bHi hi front j) := by
    rw [bHi]
    by_cases hjlt : j < front.length
    · rw [if_pos hjlt]
      have h2 := hdhi (by omega)
      rw [nlKeyAt_dense n front hdn j hjlt] at h2
      exact h2
    · rw [if_neg hjlt]
      exact hhi
  set cp := childAt n.firstPageNo front j with hcpd
  have htp := treePids_children s h pid n front hp hdn
  have hcpmem : cp ∈ n.firstPageNo :: front.map (fun p => p.2) :=
    childAt_mem n.firstPageNo front j hj
  have hpidflat : pid ∉ (n.firstPageNo ::
      front.map (fun p => p.2)).flatMap (treePids s h) := by
    have h2 := hnodup
    rw [htp, List.nodup_cons] at h2
    exact h2.1
  have hcpin : ∀ q ∈ treePids s h cp, q ∈ treePids s (h + 1) pid := by
    intro q hq
    rw [htp]
    exact List.mem_cons_of_mem _ (List.mem_flatMap.mpr ⟨cp, hcpmem, hq⟩)
  have hwc : WfTree s h cp (bLo lo front j) (bHi hi front j) :=
    wfSegP_at (WfTree s h) front lo n.firstPageNo hi j hseg hj
  have hec := entriesOf_children s h pid n front hp hdn
  have hdc : ∀ e ∈ entriesOf s h cp, strncmp10 e.1 krid.key ≠ 0 := by
    intro e he
    refine hdis e ?_
    rw [hec]
    exact List.mem_flatMap.mpr ⟨cp, hcpmem, he⟩
  obtain ⟨htpr, hlsr, hwtr⟩ := tree_frame h s (readPageM s pid) cp
    (fun q _ => rfl)
  have hefr : entriesOf (readPageM s pid) h cp = entriesOf s h cp :=
    entriesOf_frame s (readPageM s pid) h cp (fun q _ => rfl)
  have hdc' : ∀ e ∈ entriesOf (readPageM s pid) h cp,
      strncmp10 e.1 krid.key ≠ 0 := by
    intro e he
    rw [hefr] at he
    exact hdc e he
  cases h with
  | zero =>
    obtain ⟨hcp0, hcplt, _⟩ := hfresh cp (hcpin cp (mem_treePids_self s 0 cp))
    have hchild0 := child_out_leaf (readPageM s pid) krid cp
      (bLo lo front j) (bHi hi front j) (hwtr _ _ hwc) hjlo hjhi hrid
      hdc' hcp0 hcplt
    rcases hres2 : insertInLeaf (readPageM s pid) krid cp with ⟨sp, t⟩
    rw [hres2] at hchild0
    have hchild : ChildOut krid s 0 cp (bLo lo front j)
        (bHi hi front j) (sp, t) :=
      childOut_swap krid s (readPageM s pid) 0 cp (bLo lo front j)
        (bHi hi front j) (sp, t) (EqModPins.readPage s pid) hchild0
    have hlev1 : n.level = 1 := hlev
    refine ⟨n, front, j, sp, t, hp, hlev, hdn, hlen1, hseg, hj, hjlo,
      hjhi, hchild, ?_⟩
    simp only [insertInSubtree]
    rw [hgn1, hdesceq, hpn]
    show insertFixup
        (if n.level = 1 then insertInLeaf (readPageM s pid) krid cp
         else insertInSubtree f krid cp (readPageM s pid)).2 pid
        (if n.level = 1 then insertInLeaf (readPageM s pid) krid cp
         else insertInSubtree f krid cp (readPageM s pid)).1 = _
    rw [if_pos hlev1, hres2]
  | succ g =>
    have hndc : (treePids s (g + 1) cp).Nodup := by
      have h2 := hnodup
      rw [htp, List.nodup_cons] at h2
      exact nodup_of_flatMap_mem (treePids s (g + 1)) _ h2.2 cp hcpmem
    have hndc' : (treePids (readPageM s pid) (g + 1) cp).Nodup := by
      rw [htpr]
      exact hndc
    have hfresh' : ∀ p ∈ treePids (readPageM s pid) (g + 1) cp,
        p ≠ INVALID_NUMBER ∧ p < (readPageM s pid).nextPage ∧
          p ≠ (readPageM s pid).headerPageNum := by
      intro p hp2
      rw [htpr] at hp2
      exact hfresh p (hcpin p hp2)
    have hnr' : ∀ p ∈ treePids (readPageM s pid) (g + 1) cp,
        p ≠ (readPageM s pid).rootPageNum := by
      intro p hp2
      rw [htpr] at hp2
      rcases hnrc p (hcpin p hp2) with h2 | h2
      · exfalso
        rw [h2] at hp2
        exact hpidflat (List.mem_flatMap.mpr ⟨cp, hcpmem, hp2⟩)
      · exact h2
    have hchild0 := insertInSubtree_correct g f krid cp (readPageM s pid)
      (bLo lo front j) (bHi hi front j) (by omega) (hwtr _ _ hwc) hndc'
      hfresh' hjlo hjhi hrid hdc' hhdr hnr'
    rcases hres2 : insertInSubtree f krid cp (readPageM s pid)
      with ⟨sp, t⟩
    rw [hres2] at hchild0
    have hchild : ChildOut krid s (g + 1) cp (bLo lo front j)
        (bHi hi front j) (sp, t) :=
      childOut_swap krid s (readPageM s pid) (g + 1) cp (bLo lo front j)
        (bHi hi front j) (sp, t) (EqModPins.readPage s pid) hchild0
    have hlevne : ¬ (n.level = 1) := by
      rw [hlev]
      omega
    refine ⟨n, front, j, sp, t, hp, hlev, hdn, hlen1, hseg, hj, hjlo,
      hjhi, hchild, ?_⟩
    simp only [insertInSubtree]
    rw [hgn1, hdesceq, hpn]
    show insertFixup
        (if n.level = 1 then insertInLeaf (readPageM s pid) krid cp
         else insertInSubtree f krid cp (readPageM s pid)).2 pid
        (if n.level = 1 then insertInLeaf (readPageM s pid) krid cp
         else insertInSubtree f krid cp (readPageM s pid)).1 = _
    rw [if_neg hlevne, hres2]
